import Mathlib

/-!
# Process table and schedulers of xv6-riscv (kernel/proc.c, kernel/sysproc.c, kernel/trap.c)

A shallow embedding of the process table, the process life cycle
(`allocproc`, `fork`, `exit`, `wait`, `waitx`, `sleep`, `wakeup`, `kill`), the
scheduling disciplines (`fcfs`, `lbs`, `pbs`, `mlfq_sched` with its queues), the
alarm signals (`sys_sigalarm`, `sys_sigreturn`) and the timer-tick blocks of the
trap handlers, followed by the properties established about them.

Conventions of the embedding.

* The table `proc[NPROC]` is a `List proc`, of any length; a `struct proc *` is
  the index of its slot and the null pointer is `none`.
* `kernel/proc.h`, `kernel/param.h` and `kernel/vm.c` are not among the sources.
  The fields of `struct proc` are the ones the code reads and writes; fields
  assigned from the `uint` tick counter are `Nat`, the `int` fields are `Int`.
* Arithmetic on `int` is exact where the code keeps the values small: C leaves
  signed overflow undefined.  The lottery adds ticket counts that a system call
  sets to any `int`, so its sums are taken modulo `2^32` (`toI32`).
  Conversions between integer types of different width are written out
  (`toU64`, `toI32`, `toU32`).
* Spinlocks, the kernel stack, the saved context and the open files are not
  part of the model: every function is one sequential execution of its body.
* `swtch` is not modelled.  A scheduler returns the table as it is at the
  moment of the context switch, together with the slot stored in `c->proc`;
  `sleep`, `yield` and `exit` are modelled up to their call of `sched()`.
* The build-time choice of discipline (`#ifdef LBS` ...) is a parameter
  `d : Sched` of the functions whose text depends on it.
* A call of `yield()` inside a trap handler is counted, not executed: the
  handler returns the number of calls, and the sizes of the queues it tests
  afterwards are given by a function of the queue index.
* Loops whose number of iterations is not fixed by the data they run over take
  a bound on it; the bound is shown to suffice where a result is claimed.
-/

namespace Xv6

/-- Modelled from the spec: the `enum procstate` of proc.h (not among the
sources), with the six states the code names. -/
inductive procstate where
  | UNUSED | USED | SLEEPING | RUNNABLE | RUNNING | ZOMBIE
  deriving DecidableEq, Repr, Inhabited

/-- The build-time choice of scheduler (`-D ROUND_ROBIN`, `-D FCFS`, ...). -/
inductive Sched where
  | ROUND_ROBIN | FCFS | LBS | PBS | MLFQ
  deriving DecidableEq, Repr, Inhabited

/-- A wait channel (`void *chan`): null, the address of a slot of the process
table, or any other kernel address (such as `&ticks`). -/
inductive Chan where
  | null
  | procp (slot : Nat)
  | addr (a : Nat)
  deriving DecidableEq, Repr, Inhabited

/-- Modelled from the spec: `struct trapframe` of proc.h (not among the
sources), the saved user registers.  The fields the code names, and the
remaining registers as a list. -/
structure trapframe where
  kernel_satp : Nat := 0
  kernel_sp : Nat := 0
  kernel_trap : Nat := 0
  epc : Nat := 0
  kernel_hartid : Nat := 0
  sp : Nat := 0
  a0 : Nat := 0
  regs : List Nat := []
  deriving DecidableEq, Repr, Inhabited

/-- A user address space as far as `copyout` of an `int` sees it: the mapped
user addresses with the word each one holds. -/
abbrev UserMem := List (Nat × Int)

/-- Modelled from the spec: `struct proc` of proc.h (not among the sources), one
slot of the process table, with the fields that proc.c, sysproc.c and trap.c
read and write. -/
structure proc where
  state : procstate := procstate.UNUSED
  chan : Chan := Chan.null
  killed : Int := 0
  xstate : Int := 0
  pid : Int := 0
  parent : Option Nat := none
  sz : Nat := 0
  pagetable : Option UserMem := none
  trapframe : Option Xv6.trapframe := none
  bkuptframe : Option Xv6.trapframe := none
  name : String := ""
  strace_mask_bits : Int := 0
  ctime : Nat := 0
  rtime : Nat := 0
  stime : Nat := 0
  endtime : Nat := 0
  sched_count : Int := 0
  tickets : Int := 0
  priority : Int := 0
  in_queue : Int := 0
  quanta : Int := 0
  q_in_time : Nat := 0
  qrtime : List Nat := []
  ticks : Int := 0
  hndlr : Nat := 0
  timepassed : Int := 0
  handling : Int := 0
  deriving DecidableEq, Repr, Inhabited

open procstate

/-! ## kill -/

/-- The body of the loop of `kill` on the matching slot: `p->killed = 1`, and a
SLEEPING process is made RUNNABLE. -/
def kill_slot (p : proc) : proc :=
  { p with killed := 1, state := if p.state = SLEEPING then RUNNABLE else p.state }

/-- `kill(pid)`: scan the table in order; the first slot whose `pid` field is
`pid` is marked and 0 is returned; -1 when the scan ends. -/
def kill : List proc → Int → List proc × Int
  | [], _ => ([], -1)
  | p :: ps, pid =>
    if p.pid = pid then (kill_slot p :: ps, 0)
    else ((p :: (kill ps pid).1), (kill ps pid).2)

/-! ## Priority based scheduler: dynamic priority -/

/-- `dynamic_priority(p)` of the PBS build. -/
def dynamic_priority (p : proc) : Int :=
  let niceness : Int :=
    if p.rtime + p.stime ≠ 0 then ((p.stime / (p.rtime + p.stime) : Nat) : Int) * 10
    else 5
  let dp : Int := p.priority - niceness + 5
  if dp > 100 then 100 else dp

/-! ## First come first served -/

/-- The selection loop of `fcfs`: `best` is `proc_with_min_time`, `i` the index
of the slot under the scan.  `minimum_time` is the local of that name. -/
def fcfs_scan (minimum_time : Int) : List proc → Nat → Option Nat → Option Nat
  | [], _, best => best
  | p :: ps, i, best =>
    if p.state = RUNNABLE ∧ (best = none ∨ (p.ctime : Int) < minimum_time) then
      fcfs_scan minimum_time ps (i + 1) (some i)
    else
      fcfs_scan minimum_time ps (i + 1) best

/-- What `fcfs` does to the selected slot before the context switch. -/
def fcfs_run (p : proc) : proc :=
  { p with sched_count := p.sched_count + 1, state := RUNNING }

/-- `fcfs(c)`: the table at the context switch and the slot put in `c->proc`. -/
def fcfs (t : List proc) : List proc × Option Nat :=
  match fcfs_scan 0 t 0 none with
  | none => (t, none)
  | some i => (t.modify fcfs_run i, some i)

/-! ## Priority based scheduler: selection -/

/-- The three tests of the loop of `pbs` under which the slot `p` under the scan
replaces `minproc`. -/
def pbs_replaces (minproc p : proc) : Prop :=
  dynamic_priority minproc > dynamic_priority p ∨
  (dynamic_priority minproc = dynamic_priority p ∧
    (minproc.sched_count > p.sched_count ∨
      (minproc.sched_count = p.sched_count ∧ minproc.ctime > p.ctime)))

instance (minproc p : proc) : Decidable (pbs_replaces minproc p) := by
  unfold pbs_replaces; infer_instance

/-- The selection loop of `pbs`: `minproc` is carried as the slot index together
with the slot it points to. -/
def pbs_scan : List proc → Nat → Option (Nat × proc) → Option (Nat × proc)
  | [], _, minproc => minproc
  | p :: ps, i, minproc =>
    if p.state = RUNNABLE then
      match minproc with
      | none => pbs_scan ps (i + 1) (some (i, p))
      | some m =>
        if pbs_replaces m.2 p then pbs_scan ps (i + 1) (some (i, p))
        else pbs_scan ps (i + 1) (some m)
    else
      pbs_scan ps (i + 1) minproc

/-- What `pbs` does to the selected slot before the context switch. -/
def pbs_run (p : proc) : proc :=
  { p with sched_count := p.sched_count + 1, state := RUNNING, rtime := 0, stime := 0 }

/-- `pbs(c)`: the table at the context switch and the slot put in `c->proc`. -/
def pbs (t : List proc) : List proc × Option Nat :=
  match pbs_scan t 0 none with
  | none => (t, none)
  | some m => (t.modify pbs_run m.1, some m.1)

/-- The writes of `set_priority` to a slot whose `pid` field matches. -/
def set_priority_slot (priority : Int) (p : proc) : proc :=
  { p with priority := priority, rtime := 0, stime := 0 }

/-- `set_priority(priority, pid, &old_priority)`: the loop over the whole table.
The result is the table, the final `*old_priority` and the number of calls of
`yield()` the loop made. -/
def set_priority (priority pid : Int) : List proc → Int → List proc × Int × Nat
  | [], old_priority => ([], old_priority, 0)
  | p :: ps, old_priority =>
    if p.pid = pid then
      (set_priority_slot priority p :: (set_priority priority pid ps p.priority).1,
        (set_priority priority pid ps p.priority).2.1,
        (if p.priority > priority then 1 else 0) +
          (set_priority priority pid ps p.priority).2.2)
    else
      (p :: (set_priority priority pid ps old_priority).1,
        (set_priority priority pid ps old_priority).2.1,
        (set_priority priority pid ps old_priority).2.2)

/-- Conversion of an `int` or `long` to `uint64` / `unsigned long`. -/
def toU64 (x : Int) : Nat := (x % 2 ^ 64).toNat

/-- Conversion of a `long` to `int` (truncation to 32 bits, two's complement). -/
def toI32 (x : Int) : Int := (x + 2 ^ 31) % 2 ^ 32 - 2 ^ 31

/-- `sys_set_priority` in a kernel built with discipline `d`: the table, the
`uint64` returned and the number of calls of `yield()`. -/
def sys_set_priority (d : Sched) (t : List proc) (priority pid : Int) :
    List proc × Nat × Nat :=
  if d ≠ Sched.PBS then (t, toU64 (-1), 0)
  else
    let r := set_priority priority pid t (-1)
    (r.1, toU64 r.2.1, r.2.2)

/-! ## Lottery based scheduler -/

/-- `settickets(tickets)` called by the process in slot `me`. -/
def settickets (t : List proc) (me : Nat) (tickets : Int) : List proc :=
  t.modify (fun p => { p with tickets := tickets }) me

/-- `sys_settickets` in a kernel built with discipline `d`. -/
def sys_settickets (d : Sched) (t : List proc) (me : Nat) (tickets : Int) :
    List proc × Nat :=
  if d ≠ Sched.LBS then (t, toU64 (-1))
  else (settickets t me tickets, 0)

/-- `do_rand(ctx)`: the new value of `*ctx` and the `int` returned. -/
def do_rand (ctx : Nat) : Nat × Int :=
  let x : Int := ((ctx % 0x7ffffffe : Nat) : Int) + 1
  let hi : Int := Int.tdiv x 127773
  let lo : Int := Int.tmod x 127773
  let x : Int := 16807 * lo - 2836 * hi
  let x : Int := if x < 0 then x + 0x7fffffff else x
  let x : Int := x - 1
  (toU64 x, toI32 x)

/-- `rand()`, on the global `rand_next`. -/
def rand (rand_next : Nat) : Nat × Int := do_rand rand_next

/-- `get_random_ticket(a, b)`: the new `rand_next` and the ticket drawn.  The
code bounds neither argument, so the `int` results of `b - a + 1` and `a + r`
are taken modulo `2^32` (two's complement), as the 32-bit instructions compute
them.  A remainder by `range = 0` is the dividend, as the `remw` instruction
gives. -/
def get_random_ticket (a b : Int) (rand_next : Nat) : Nat × Int :=
  let a' : Int := if a > b then b else a
  let b' : Int := if a > b then a else b
  let range : Int := toI32 (b' - a' + 1)
  let r : Int := Int.tmod (rand rand_next).2 range
  ((rand rand_next).1, toI32 (a' + r))

/-- First loop of `lbs`: the tickets of the RUNNABLE slots added to the `int`
`total_tickets`, each sum taken modulo `2^32` (two's complement). -/
def lbs_total : List proc → Int → Int
  | [], total_tickets => total_tickets
  | p :: ps, total_tickets =>
    if p.state = RUNNABLE then lbs_total ps (toI32 (total_tickets + p.tickets))
    else lbs_total ps total_tickets

/-- Second loop of `lbs`: the first RUNNABLE slot at which the running sum, an
`int` as in the first loop, reaches `lucky_ticket`. -/
def lbs_pick (lucky_ticket : Int) : List proc → Nat → Int → Option Nat
  | [], _, _ => none
  | p :: ps, i, total_tickets =>
    if p.state = RUNNABLE then
      if toI32 (total_tickets + p.tickets) ≥ lucky_ticket then some i
      else lbs_pick lucky_ticket ps (i + 1) (toI32 (total_tickets + p.tickets))
    else
      lbs_pick lucky_ticket ps (i + 1) total_tickets

/-- What `lbs` does to the selected slot before the context switch. -/
def lbs_run (p : proc) : proc :=
  { p with sched_count := p.sched_count + 1, state := RUNNING }

/-- `lbs(c)`: the table at the context switch, the slot put in `c->proc` and the
new `rand_next`. -/
def lbs (t : List proc) (rand_next : Nat) : List proc × Option Nat × Nat :=
  let draw := get_random_ticket 0 (lbs_total t 0) rand_next
  match lbs_pick draw.2 t 0 0 with
  | none => (t, none, draw.1)
  | some i => (t.modify lbs_run i, some i, draw.1)

/-! ## Kernel state: allocation, fork, exit, wait, sleep and wakeup -/

/-- The globals of `proc.c` next to the table: `nextpid`, the tick counter
`ticks` and the pointer `initproc`. -/
structure Kernel where
  proc : List Xv6.proc := []
  nextpid : Int := 1
  ticks : Nat := 0
  initproc : Option Nat := none
  deriving DecidableEq, Repr, Inhabited

/-- What the memory manager answers during one `allocproc` / `fork`: the pages
the two calls of `kalloc()` return (`none` is the null pointer), whether
`proc_pagetable` succeeds and whether `uvmcopy` succeeds. -/
structure Alloc where
  tf : Option trapframe := some {}
  bk : Option trapframe := some {}
  pt : Bool := true
  cp : Bool := true
  deriving DecidableEq, Repr, Inhabited

/-- Modelled from the spec: the constant `NMLFQ` of param.h (not among the
sources), five levels. -/
def NMLFQ : Nat := 5

/-- Modelled from the spec: `copyout` (kernel/vm.c is not among the sources),
for a source of one `int`.  The word at a mapped user address is replaced; a
null page table or a bad user address gives failure (the -1 of the code). -/
def copyout (pagetable : Option UserMem) (dstva : Nat) (v : Int) : Option UserMem :=
  match pagetable with
  | none => none
  | some m =>
    if m.any (fun e => e.1 = dstva) then
      some (m.map (fun e => if e.1 = dstva then (dstva, v) else e))
    else none

/-- `freeproc(p)` in a kernel built with discipline `d`. -/
def freeproc (d : Sched) (p : proc) : proc :=
  { p with
    trapframe := none, bkuptframe := none, pagetable := none,
    sz := 0, pid := 0, parent := none, name := "", chan := Chan.null,
    killed := 0, xstate := 0, state := UNUSED, strace_mask_bits := 0,
    rtime := 0, stime := 0, sched_count := 0, endtime := 0,
    priority := if d = Sched.PBS then 60 else p.priority,
    tickets := if d = Sched.LBS then 1 else p.tickets }

/-- The scan of `allocproc` for the first UNUSED slot. -/
def first_unused : List proc → Nat → Option Nat
  | [], _ => none
  | p :: ps, i => if p.state = UNUSED then some i else first_unused ps (i + 1)

/-- The writes of `allocproc` after `found:` and before the first `kalloc()`. -/
def allocproc_init (d : Sched) (pid : Int) (ticks : Nat) (p : proc) : proc :=
  let p := { p with pid := pid, ctime := ticks, rtime := 0, stime := 0, sched_count := 0 }
  let p := if d = Sched.LBS then { p with tickets := 1 } else p
  let p := if d = Sched.PBS then { p with priority := 60 } else p
  if d = Sched.MLFQ then
    { p with priority := 0, in_queue := 0, quanta := 1, q_in_time := ticks,
             qrtime := List.replicate NMLFQ 0 }
  else p

/-- The rest of `allocproc` on the slot found, under the answers `o` of the
memory manager: the slot as the function leaves it, and whether the function
returns it (`false` when it returns 0). -/
def allocproc_pages (d : Sched) (o : Alloc) (p : proc) : proc × Bool :=
  match o.tf with
  | none => (freeproc d { p with trapframe := none }, false)
  | some tf =>
    match o.bk with
    | none => ({ p with trapframe := some tf, bkuptframe := none }, false)
    | some bk =>
      if o.pt then
        ({ p with trapframe := some tf, bkuptframe := some bk, pagetable := some [],
                  timepassed := 0, ticks := 0, hndlr := 0, handling := 0, state := USED },
          true)
      else
        (freeproc d { p with trapframe := some tf, bkuptframe := some bk, pagetable := none },
          false)

/-- `allocproc()`: the kernel afterwards and the slot returned (`none` for 0). -/
def allocproc (d : Sched) (k : Kernel) (o : Alloc) : Kernel × Option Nat :=
  match first_unused k.proc 0 with
  | none => (k, none)
  | some i =>
    let p := allocproc_init d k.nextpid k.ticks (k.proc.getD i default)
    let r := allocproc_pages d o p
    ({ k with nextpid := k.nextpid + 1, proc := k.proc.modify (fun _ => r.1) i },
      if r.2 then some i else none)

/-- The writes of `fork` to the child `np` from the parent `p` in slot `me`,
after `uvmcopy` succeeded. -/
def fork_child (d : Sched) (me : Nat) (p np : proc) : proc :=
  { np with
    pagetable := p.pagetable, sz := p.sz,
    trapframe :=
      (match p.trapframe with
        | some tf => some { tf with a0 := 0 }
        | none => np.trapframe.map (fun tf => { tf with a0 := 0 })),
    name := p.name, strace_mask_bits := p.strace_mask_bits,
    parent := some me, state := RUNNABLE,
    tickets := if d = Sched.LBS then p.tickets else np.tickets }

/-- `fork()` called by the process in slot `me`: the kernel afterwards and the
value returned. -/
def fork (d : Sched) (k : Kernel) (me : Nat) (o : Alloc) : Kernel × Int :=
  match allocproc d k o with
  | (k1, none) => (k1, -1)
  | (k1, some i) =>
    if o.cp then
      let p := k1.proc.getD me default
      ({ k1 with proc := k1.proc.modify (fork_child d me p) i }, (k1.proc.getD i default).pid)
    else
      ({ k1 with proc := k1.proc.modify (freeproc d) i }, -1)

/-- A `struct proc *` used as a wait channel. -/
def Chan.ofPtr : Option Nat → Chan
  | none => Chan.null
  | some i => Chan.procp i

/-- The loop of `wakeup(chan)` from slot index `i` on; `me` is `myproc()`. -/
def wakeup_from (me : Option Nat) (chan : Chan) : List proc → Nat → List proc
  | [], _ => []
  | p :: ps, i =>
    (if some i ≠ me ∧ p.state = SLEEPING ∧ p.chan = chan then { p with state := RUNNABLE }
      else p) :: wakeup_from me chan ps (i + 1)

/-- `wakeup(chan)` called while `myproc()` is `me`. -/
def wakeup (t : List proc) (me : Option Nat) (chan : Chan) : List proc :=
  wakeup_from me chan t 0

/-- One iteration of the loop of `reparent(p)`, on slot `i`. -/
def reparent_step (me : Nat) (initproc : Option Nat) (t : List proc) (i : Nat) : List proc :=
  match t[i]? with
  | some pp =>
    if pp.parent = some me then
      wakeup (t.modify (fun q => { q with parent := initproc }) i) (some me)
        (Chan.ofPtr initproc)
    else t
  | none => t

/-- `reparent(p)` for the process in slot `me`. -/
def reparent (me : Nat) (initproc : Option Nat) (t : List proc) : List proc :=
  (List.range t.length).foldl (reparent_step me initproc) t

/-- `exit(status)` called by the process in slot `me`, up to the jump into the
scheduler; `none` is the panic "init exiting". -/
def exit (k : Kernel) (me : Nat) (status : Int) : Option Kernel :=
  if k.initproc = some me then none
  else
    let t1 := reparent me k.initproc k.proc
    let t2 := wakeup t1 (some me) (Chan.ofPtr (t1.getD me default).parent)
    let t3 := t2.modify (fun p => { p with xstate := status, state := ZOMBIE, endtime := k.ticks }) me
    some { k with proc := t3 }

/-- `sleep(chan, lk)` called by the process in slot `me`, up to `sched()`. -/
def sleep (t : List proc) (me : Nat) (chan : Chan) : List proc :=
  t.modify (fun p => { p with chan := chan, state := SLEEPING }) me

/-- The rest of `sleep` ("Tidy up"), run when `sched()` returns in slot `me`. -/
def sleep_return (t : List proc) (me : Nat) : List proc :=
  t.modify (fun p => { p with chan := Chan.null }) me

/-- `yield()` called by the process in slot `me`, up to `sched()`. -/
def yield (t : List proc) (me : Nat) : List proc :=
  t.modify (fun p => { p with state := RUNNABLE }) me

/-- The scan of `wait` for the first ZOMBIE child of `me`. -/
def wait_find (me : Nat) : List proc → Nat → Option Nat
  | [], _ => none
  | pp :: ps, i =>
    if pp.parent = some me ∧ pp.state = ZOMBIE then some i else wait_find me ps (i + 1)

/-- The flag `havekids` at the end of a scan of `wait` that found no ZOMBIE. -/
def havekids (me : Nat) (t : List proc) : Bool :=
  t.any (fun pp => pp.parent = some me)

/-- How a call of `wait` proceeds: it returns a value, or it blocks in
`sleep(p, &wait_lock)` to scan again when woken. -/
inductive WaitResult where
  | ret (v : Int) (k : Kernel)
  | asleep (k : Kernel)
  deriving DecidableEq, Repr

/-- The kernel state a call of `wait` leaves. -/
def WaitResult.kernel : WaitResult → Kernel
  | WaitResult.ret _ k => k
  | WaitResult.asleep k => k

/-- `wait(addr)` called by the process in slot `me` of a kernel built with
discipline `d`: one scan of the table. -/
def wait (d : Sched) (k : Kernel) (me : Nat) (addr : Nat) : WaitResult :=
  let p := k.proc.getD me default
  match wait_find me k.proc 0 with
  | some i =>
    let pp := k.proc.getD i default
    if addr ≠ 0 then
      match copyout p.pagetable addr pp.xstate with
      | none => WaitResult.ret (-1) k
      | some m =>
        let t1 := k.proc.modify (fun q => { q with pagetable := some m }) me
        WaitResult.ret pp.pid { k with proc := t1.modify (freeproc d) i }
    else
      WaitResult.ret pp.pid { k with proc := k.proc.modify (freeproc d) i }
  | none =>
    if havekids me k.proc = false ∨ p.killed ≠ 0 then WaitResult.ret (-1) k
    else WaitResult.asleep { k with proc := sleep k.proc me (Chan.procp me) }

/-- `procinit()` on a table of `n` slots: every slot UNUSED, the other fields
as zero-initialised static storage. -/
def procinit (n : Nat) : Kernel :=
  { proc := List.replicate n {} }

/-- Modelled from the spec: the constant `PGSIZE` of riscv.h (not among the
sources), 4 KiB. -/
def PGSIZE : Nat := 4096

/-- `userinit()`: the first process, made RUNNABLE in the slot `allocproc`
returns; `none` when `allocproc` returns 0, which the code does not expect.
The page of `initcode` that `uvmfirst` maps is not represented. -/
def userinit (d : Sched) (k : Kernel) (o : Alloc) : Option Kernel :=
  match allocproc d k o with
  | (_, none) => none
  | (k1, some i) =>
    let t := k1.proc.modify (fun p =>
      { p with sz := PGSIZE,
               trapframe := p.trapframe.map (fun tf => { tf with epc := 0, sp := PGSIZE }),
               name := "initcode", state := RUNNABLE }) i
    some { k1 with initproc := some i, proc := t }

/-- The body of the loop of `round_robin` on slot `i`, up to the context
switch. -/
def round_robin_slot (t : List proc) (i : Nat) : List proc :=
  t.modify (fun p =>
    if p.state = RUNNABLE then { p with sched_count := p.sched_count + 1, state := RUNNING }
    else p) i

/-! ## Generator seed -/

/-- The initial value of the global `rand_next`. -/
def rand_next : Nat := 1

/-! ## Alarm signals -/

/-- `memmove(dst, src, sizeof(struct trapframe))` between two trapframe pages:
the contents of `src` replace those of `dst`.  With a null pointer on either
side nothing is copied in the model (the code would fault). -/
def memmove (dst src : Option trapframe) : Option trapframe :=
  match dst, src with
  | some _, some s => some s
  | d, _ => d

/-- `sys_sigalarm` for the process `p`; `n` and `fn` are the two system call
arguments that `argint` and `argaddr` fetch. -/
def sys_sigalarm (p : proc) (n : Int) (fn : Nat) : proc × Nat :=
  ({ p with ticks := n, hndlr := fn }, 0)

/-- The branch of `usertrap` taken for a device interrupt, `which_dev` being the
non-zero value of `devintr()`: the alarm bookkeeping of the process `p`. -/
def usertrap_alarm (which_dev : Int) (p : proc) : proc :=
  if p.ticks ≠ 0 ∧ which_dev = 2 then
    let p1 := { p with timepassed := p.timepassed + 1 }
    if p1.handling = 0 ∧ ¬ (p1.timepassed < p1.ticks) then
      let p2 := { p1 with bkuptframe := memmove p1.bkuptframe p1.trapframe }
      let p3 := { p2 with trapframe := p2.trapframe.map (fun (tf : trapframe) => { tf with epc := p2.hndlr }) }
      { p3 with handling := p3.handling + 1, timepassed := 0 }
    else p1
  else p

/-- `sys_sigreturn` for the process `p`: the process afterwards and the `uint64`
returned, which is `int tmp = p->trapframe->a0` converted back. -/
def sys_sigreturn (p : proc) : proc × Nat :=
  let p1 := { p with trapframe := memmove p.trapframe p.bkuptframe }
  let p2 := { p1 with handling := 0 }
  let tmp : Int := toI32 ((p2.trapframe.map (fun (tf : trapframe) => (tf.a0 : Int))).getD 0)
  (p2, toU64 tmp)

/-! ## waitx -/

/-- Conversion of an integer to `uint` (32 bits). -/
def toU32 (x : Int) : Nat := (x % 2 ^ 32).toNat

/-- How a call of `waitx` proceeds: it returns a value, with the contents it
leaves in `*rtime` and `*wtime`, or it blocks in `sleep(p, &wait_lock)`. -/
inductive WaitxResult where
  | ret (v : Int) (k : Kernel) (rtime wtime : Nat)
  | asleep (k : Kernel)
  deriving DecidableEq, Repr

/-- `waitx(addr, rtime, wtime)` called by the process in slot `me`: one scan of
the table.  The arguments `rtime` and `wtime` are the contents of the two
pointed-to `uint` on entry. -/
def waitx (d : Sched) (k : Kernel) (me : Nat) (addr : Nat) (rtime wtime : Nat) : WaitxResult :=
  let p := k.proc.getD me default
  match wait_find me k.proc 0 with
  | some i =>
    let np := k.proc.getD i default
    let rtime' : Nat := toU32 np.rtime
    let wtime' : Nat := toU32 ((np.endtime : Int) - np.ctime - np.rtime)
    if addr ≠ 0 then
      match copyout p.pagetable addr np.xstate with
      | none => WaitxResult.ret (-1) k rtime' wtime'
      | some m =>
        let t1 := k.proc.modify (fun q => { q with pagetable := some m }) me
        WaitxResult.ret np.pid { k with proc := t1.modify (freeproc d) i } rtime' wtime'
    else
      WaitxResult.ret np.pid { k with proc := k.proc.modify (freeproc d) i } rtime' wtime'
  | none =>
    if havekids me k.proc = false ∨ p.killed ≠ 0 then WaitxResult.ret (-1) k rtime wtime
    else WaitxResult.asleep { k with proc := sleep k.proc me (Chan.procp me) }

/-- How the system call `waitx` proceeds: it returns a `uint64`, or the caller
is blocked inside `waitx`. -/
inductive SysWaitx where
  | ret (v : Nat) (k : Kernel)
  | asleep (k : Kernel)
  deriving DecidableEq, Repr

/-- `sys_waitx` called by the process in slot `me` with the user addresses
`addr`, `addr1`, `addr2` as its three arguments.  `wtime` and `rtime` are the
locals of those names, with the contents they have on entry; the call is
`waitx(addr, &wtime, &rtime)`. -/
def sys_waitx (d : Sched) (k : Kernel) (me : Nat) (addr addr1 addr2 : Nat)
    (wtime rtime : Nat) : SysWaitx :=
  match waitx d k me addr wtime rtime with
  | WaitxResult.asleep k1 => SysWaitx.asleep k1
  | WaitxResult.ret v k1 wtime' rtime' =>
    match copyout (k1.proc.getD me default).pagetable addr1 wtime' with
    | none => SysWaitx.ret (toU64 (-1)) k1
    | some m1 =>
      let k2 := { k1 with proc := k1.proc.modify (fun q => { q with pagetable := some m1 }) me }
      match copyout (k2.proc.getD me default).pagetable addr2 rtime' with
      | none => SysWaitx.ret (toU64 (-1)) k2
      | some m2 =>
        let t3 := k2.proc.modify (fun q => { q with pagetable := some m2 }) me
        SysWaitx.ret (toU64 v) { k2 with proc := t3 }

/-! ## Multi-level feedback queue -/

/-- Modelled from the spec: the constant `NPROC` of param.h (not among the
sources), 64 slots. -/
def NPROC : Nat := 64

/-- Modelled from the spec: the constant `AGETICKS` of param.h (not among the
sources), 30 ticks. -/
def AGETICKS : Nat := 30

/-- Modelled from the spec: `struct queue` of proc.h (not among the sources), a
circular buffer of process references with head, tail and size.  A reference is
the index of a slot; `none` is the null pointer. -/
structure queue where
  procs : List (Option Nat) := List.replicate NPROC none
  head : Int := 0
  tail : Int := 0
  size : Int := 0
  deriving DecidableEq, Repr, Inhabited

/-- `top(q)`. -/
def top (q : queue) : Option Nat :=
  if q.size = 0 then none else q.procs.getD q.head.toNat none

/-- `queue_push(q, p)`; `none` is the panic "queue is full". -/
def queue_push (q : queue) (p : Nat) : Option queue :=
  if q.size = NPROC then none
  else
    some { q with
      procs := q.procs.set q.tail.toNat (some p),
      tail := Int.tmod (q.tail + 1) NPROC,
      size := q.size + 1 }

/-- `queue_pop(q)`; `none` is the panic "queue is empty". -/
def queue_pop (q : queue) : Option queue :=
  if q.size = 0 then none
  else some { q with head := Int.tmod (q.head + 1) NPROC, size := q.size - 1 }

/-- The loop of `queue_remove` from `curr` on, over the array `procs`, with at
most `fuel` iterations left.  The slots are read in the table `t` for their pid.
`none` when a null reference is dereferenced, or when `curr` has not met `tail`
once the fuel is spent (`curr` takes at most `NPROC + 1` values, so it never
would). -/
def queue_remove_loop (t : List proc) (tail pid : Int) :
    Nat → Int → List (Option Nat) → Option (List (Option Nat))
  | 0, curr, procs => if curr = tail then some procs else none
  | fuel + 1, curr, procs =>
    if curr = tail then some procs
    else
      match procs.getD curr.toNat none with
      | none => none
      | some s =>
        let next := Int.tmod (curr + 1) NPROC
        if (t.getD s default).pid = pid then
          let temp := procs.getD curr.toNat none
          let procs1 := procs.set curr.toNat (procs.getD next.toNat none)
          queue_remove_loop t tail pid fuel next (procs1.set next.toNat temp)
        else
          queue_remove_loop t tail pid fuel next procs

/-- `queue_remove(q, pid)`. -/
def queue_remove (t : List proc) (q : queue) (pid : Int) : Option queue :=
  match queue_remove_loop t q.tail pid (NPROC + 1) q.head q.procs with
  | none => none
  | some procs =>
    let tail := q.tail - 1
    let size := q.size - 1
    some { q with procs := procs, tail := if tail < 0 then NPROC - 1 else tail, size := size }

/-- The queue `mlfq[i]`; `none` when `i` is outside the array. -/
def mlfq_at (qs : List queue) (i : Int) : Option queue :=
  if i < 0 then none else qs[i.toNat]?

/-- The first loop of `mlfq_sched` (aging) on slot `i`. -/
def mlfq_age_slot (ticks : Nat) (t : List proc) (qs : List queue) (i : Nat) :
    Option (List proc × List queue) :=
  let p := t.getD i default
  if p.state ≠ RUNNABLE then some (t, qs)
  else if toU32 ((ticks : Int) - p.q_in_time) ≥ AGETICKS then
    let down : proc → proc := fun p =>
      if p.priority > 0 then { p with priority := p.priority - 1 } else p
    if p.in_queue ≠ 0 then
      match mlfq_at qs p.priority with
      | none => none
      | some q =>
        match queue_remove t q p.pid with
        | none => none
        | some q1 =>
          some (t.modify (fun p => down { p with q_in_time := ticks, in_queue := 0 }) i,
            qs.set p.priority.toNat q1)
    else
      some (t.modify (fun p => down { p with q_in_time := ticks }) i, qs)
  else some (t, qs)

/-- The first loop of `mlfq_sched` over the slots `is`. -/
def mlfq_age (ticks : Nat) : List Nat → List proc → List queue → Option (List proc × List queue)
  | [], t, qs => some (t, qs)
  | i :: is, t, qs =>
    match mlfq_age_slot ticks t qs i with
    | none => none
    | some r => mlfq_age ticks is r.1 r.2

/-- The second loop of `mlfq_sched` (enqueue) on slot `i`. -/
def mlfq_enqueue_slot (t : List proc) (qs : List queue) (i : Nat) :
    Option (List proc × List queue) :=
  let p := t.getD i default
  if p.state = RUNNABLE ∧ p.in_queue = 0 then
    match mlfq_at qs p.priority with
    | none => none
    | some q =>
      match queue_push q i with
      | none => none
      | some q1 =>
        some (t.modify (fun p => { p with in_queue := 1 }) i, qs.set p.priority.toNat q1)
  else some (t, qs)

/-- The second loop of `mlfq_sched` over the slots `is`. -/
def mlfq_enqueue : List Nat → List proc → List queue → Option (List proc × List queue)
  | [], t, qs => some (t, qs)
  | i :: is, t, qs =>
    match mlfq_enqueue_slot t qs i with
    | none => none
    | some r => mlfq_enqueue is r.1 r.2

/-- The `while(mlfq[i].size)` loop of `mlfq_sched` on one queue, with at most
`fuel` iterations left: the table, the queue and `minproc`.  `none` when a null
reference is dereferenced, or when the fuel is spent with the size still
non-zero (with the size as fuel that is a negative size, on which the loop does
not end). -/
def mlfq_drain (ticks : Nat) : Nat → List proc → queue → Option (List proc × queue × Option Nat)
  | 0, t, q => if q.size = 0 then some (t, q, none) else none
  | fuel + 1, t, q =>
    if q.size = 0 then some (t, q, none)
    else
      match top q, queue_pop q with
      | some s, some q1 =>
        let t1 := t.modify (fun p => { p with in_queue := 0 }) s
        if (t1.getD s default).state = RUNNABLE then
          some (t1.modify (fun p => { p with q_in_time := ticks }) s, q1, some s)
        else mlfq_drain ticks fuel t1 q1
      | _, _ => none

/-- The third loop of `mlfq_sched` over the queues, lowest index first. -/
def mlfq_pick (ticks : Nat) : List proc → List queue → Option (List proc × List queue × Option Nat)
  | t, [] => some (t, [], none)
  | t, q :: qs =>
    match mlfq_drain ticks q.size.toNat t q with
    | none => none
    | some (t1, q1, some s) => some (t1, q1 :: qs, some s)
    | some (t1, q1, none) =>
      match mlfq_pick ticks t1 qs with
      | none => none
      | some r => some (r.1, q1 :: r.2.1, r.2.2)

/-- What `mlfq_sched` does to `minproc` before the context switch. -/
def mlfq_run (p : proc) : proc :=
  { p with
    quanta := ((1 <<< p.priority.toNat : Nat) : Int),
    sched_count := p.sched_count + 1,
    state := RUNNING }

/-- The third loop and the final block of `mlfq_sched`: the table at the context
switch, the queues and the slot put in `c->proc`. -/
def mlfq_select (ticks : Nat) (t : List proc) (qs : List queue) :
    Option (List proc × List queue × Option Nat) :=
  match mlfq_pick ticks t qs with
  | none => none
  | some (t1, qs1, none) => some (t1, qs1, none)
  | some (t1, qs1, some s) => some (t1.modify mlfq_run s, qs1, some s)

/-- `mlfq_sched(c)` at tick `ticks`, up to the context switch; `none` when the
code panics, dereferences a null reference or does not end. -/
def mlfq_sched (ticks : Nat) (t : List proc) (qs : List queue) :
    Option (List proc × List queue × Option Nat) :=
  match mlfq_age ticks (List.range t.length) t qs with
  | none => none
  | some r1 =>
    match mlfq_enqueue (List.range r1.1.length) r1.1 r1.2 with
    | none => none
    | some r2 => mlfq_select ticks r2.1 r2.2

/-- The loop `for(i = 0; i < p->priority; i++) if(mlfq[i].size) yield();` of the
trap handlers: the number of calls of `yield()`, where `sizes i` is the value
`mlfq[i].size` has when iteration `i` tests it. -/
def mlfq_higher_yields (sizes : Nat → Int) (priority : Int) : Nat :=
  (List.range priority.toNat).foldl (fun n i => if sizes i ≠ 0 then n + 1 else n) 0

/-- The MLFQ block of a trap handler on the process `p` it found RUNNING: the
process afterwards and the number of calls of `yield()`. -/
def mlfq_tick (sizes : Nat → Int) (p : proc) : proc × Nat :=
  if p.quanta ≤ 0 then
    let p1 := { p with
      priority := if p.priority ≠ (NMLFQ : Int) - 1 then p.priority + 1 else p.priority }
    (p1, 1 + mlfq_higher_yields sizes p1.priority)
  else (p, mlfq_higher_yields sizes p.priority)

/-- The MLFQ block at the end of `usertrap`: `which_dev` is the value of
`devintr()`, `myproc` the current process (`none` for a null pointer). -/
def usertrap_mlfq (which_dev : Int) (myproc : Option proc) (sizes : Nat → Int) :
    Option proc × Nat :=
  match myproc with
  | none => (none, 0)
  | some p =>
    if which_dev = 2 ∧ p.state = RUNNING then ((some (mlfq_tick sizes p).1), (mlfq_tick sizes p).2)
    else (some p, 0)

/-- The MLFQ block of `kerneltrap`, with the same arguments. -/
def kerneltrap_mlfq (which_dev : Int) (myproc : Option proc) (sizes : Nat → Int) :
    Option proc × Nat :=
  match myproc with
  | none => (none, 0)
  | some p =>
    if which_dev = 2 ∧ p.state = RUNNING then ((some (mlfq_tick sizes p).1), (mlfq_tick sizes p).2)
    else (some p, 0)

/-- `update_time()` on one slot, in a kernel built with discipline `d`. -/
def update_time_slot (d : Sched) (p : proc) : proc :=
  if p.state = RUNNING then
    let p1 := { p with rtime := p.rtime + 1 }
    if d = Sched.MLFQ then
      { p1 with
        qrtime := p1.qrtime.modify (fun n => n + 1) p1.priority.toNat,
        quanta := p1.quanta - 1 }
    else p1
  else if p.state = SLEEPING then { p with stime := p.stime + 1 }
  else p

/-- `update_time()`. -/
def update_time (d : Sched) (t : List proc) : List proc :=
  t.map (update_time_slot d)

/-- The entries of a circular buffer read from index `head` on, `n` of them, in
the order `queue_pop` uncovers them. -/
def entries_from (procs : List (Option Nat)) : Int → Nat → List (Option Nat)
  | _, 0 => []
  | head, n + 1 =>
    procs.getD head.toNat none :: entries_from procs (Int.tmod (head + 1) NPROC) n

/-- The entries of a queue in FIFO order, from head to tail. -/
def queue_entries (q : queue) : List (Option Nat) :=
  entries_from q.procs q.head q.size.toNat

/-- `queue_push` of the slots `ps` in turn. -/
def queue_push_all : List Nat → queue → Option queue
  | [], q => some q
  | p :: ps, q =>
    match queue_push q p with
    | none => none
    | some q1 => queue_push_all ps q1

/-! ## Clock tick and reachable states -/

/-- The wait channel `&ticks`.  Kernel addresses other than slots of the process
table are numbered arbitrarily; `&ticks` is given the number 0. -/
def ticks_chan : Chan := Chan.addr 0

/-- `clockintr()`: `ticks++` on the `uint` counter, `update_time()` and
`wakeup(&ticks)`; `me` is `myproc()` on the interrupted CPU. -/
def clockintr (d : Sched) (k : Kernel) (me : Option Nat) : Kernel :=
  { k with
    ticks := (k.ticks + 1) % 2 ^ 32,
    proc := wakeup (update_time d k.proc) me ticks_chan }

/-- The kernel a call of `waitx` leaves. -/
def WaitxResult.kernel : WaitxResult → Kernel
  | WaitxResult.ret _ k _ _ => k
  | WaitxResult.asleep k => k

/-- The kernel states reached from boot by the operations on the process table:
`procinit`, `userinit`, `allocproc`, `fork`, the scheduler picking a process
(`round_robin`, `fcfs`, `lbs`, `pbs`, `mlfq_sched` on any contents of the
queues), the clock tick `clockintr`, `yield`, `sleep` on a non-null channel, the
return of a process from `sched()` inside `sleep`, `wakeup`, `kill`, `exit`,
`wait`, `waitx`, `freeproc`, the system calls `set_priority`, `settickets`,
`sigalarm` and `sigreturn`, and the alarm and MLFQ blocks of the trap handlers
on a timer tick.  A process returns from `sched()` only once a scheduler has
made it RUNNING.  Callers and arguments are not restricted otherwise. -/
inductive Reachable (d : Sched) : Kernel → Prop where
  | boot (n : Nat) : Reachable d (procinit n)
  | userinit (k k1 : Kernel) (o : Alloc) :
      Reachable d k → userinit d k o = some k1 → Reachable d k1
  | allocproc (k : Kernel) (o : Alloc) : Reachable d k → Reachable d (allocproc d k o).1
  | fork (k : Kernel) (me : Nat) (o : Alloc) : Reachable d k → Reachable d (fork d k me o).1
  | round_robin (k : Kernel) (i : Nat) :
      Reachable d k → Reachable d { k with proc := round_robin_slot k.proc i }
  | fcfs (k : Kernel) : Reachable d k → Reachable d { k with proc := (fcfs k.proc).1 }
  | lbs (k : Kernel) (rand_next : Nat) :
      Reachable d k → Reachable d { k with proc := (lbs k.proc rand_next).1 }
  | pbs (k : Kernel) : Reachable d k → Reachable d { k with proc := (pbs k.proc).1 }
  | mlfq_sched (k : Kernel) (qs : List queue) (r : List proc × List queue × Option Nat) :
      Reachable d k → mlfq_sched k.ticks k.proc qs = some r → Reachable d { k with proc := r.1 }
  | clockintr (k : Kernel) (me : Option Nat) : Reachable d k → Reachable d (clockintr d k me)
  | yield (k : Kernel) (me : Nat) : Reachable d k → Reachable d { k with proc := yield k.proc me }
  | sleep (k : Kernel) (me : Nat) (chan : Chan) :
      Reachable d k → chan ≠ Chan.null → Reachable d { k with proc := sleep k.proc me chan }
  | sleep_return (k : Kernel) (me : Nat) (p : proc) :
      Reachable d k → k.proc[me]? = some p → p.state = RUNNING →
      Reachable d { k with proc := sleep_return k.proc me }
  | wakeup (k : Kernel) (me : Option Nat) (chan : Chan) :
      Reachable d k → Reachable d { k with proc := wakeup k.proc me chan }
  | kill (k : Kernel) (pid : Int) :
      Reachable d k → Reachable d { k with proc := (kill k.proc pid).1 }
  | exit (k k1 : Kernel) (me : Nat) (status : Int) :
      Reachable d k → exit k me status = some k1 → Reachable d k1
  | wait_ret (k k1 : Kernel) (me addr : Nat) (v : Int) :
      Reachable d k → wait d k me addr = WaitResult.ret v k1 → Reachable d k1
  | wait_asleep (k k1 : Kernel) (me addr : Nat) :
      Reachable d k → wait d k me addr = WaitResult.asleep k1 → Reachable d k1
  | waitx (k : Kernel) (me addr rtime wtime : Nat) :
      Reachable d k → Reachable d (waitx d k me addr rtime wtime).kernel
  | freeproc (k : Kernel) (i : Nat) :
      Reachable d k → Reachable d { k with proc := k.proc.modify (freeproc d) i }
  | sys_set_priority (k : Kernel) (priority pid : Int) :
      Reachable d k → Reachable d { k with proc := (sys_set_priority d k.proc priority pid).1 }
  | sys_settickets (k : Kernel) (me : Nat) (tickets : Int) :
      Reachable d k → Reachable d { k with proc := (sys_settickets d k.proc me tickets).1 }
  | sys_sigalarm (k : Kernel) (me : Nat) (n : Int) (fn : Nat) :
      Reachable d k →
      Reachable d { k with proc := k.proc.modify (fun p => (sys_sigalarm p n fn).1) me }
  | sys_sigreturn (k : Kernel) (me : Nat) :
      Reachable d k →
      Reachable d { k with proc := k.proc.modify (fun p => (sys_sigreturn p).1) me }
  | usertrap_alarm (k : Kernel) (me : Nat) (which_dev : Int) :
      Reachable d k → Reachable d { k with proc := k.proc.modify (usertrap_alarm which_dev) me }
  | mlfq_tick (k : Kernel) (me : Nat) (sizes : Nat → Int) :
      Reachable d k →
      Reachable d { k with proc := k.proc.modify (fun p => (mlfq_tick sizes p).1) me }

/-! ## Notions used to state the properties -/

/-- A slot that is SLEEPING has a non-null channel. -/
def sleeping_has_chan (p : proc) : Prop :=
  p.state = SLEEPING → p.chan ≠ Chan.null

/-- What `exit` of the process in slot `me` keeps of another slot: its pid, and
its parent unless the parent was `me`. -/
def exit_keeps_slot (me : Nat) (p q : proc) : Prop :=
  q.pid = p.pid ∧ (p.parent ≠ some me → q.parent = p.parent)

/-- The value a call of `wait` returned, if it returned. -/
def WaitResult.value : WaitResult → Option Int
  | WaitResult.ret v _ => some v
  | WaitResult.asleep _ => none

/-- The key of the PBS selection rule, ordered lexicographically. -/
def pbs_key (p : proc) : Int ×ₗ Int ×ₗ Nat :=
  toLex (dynamic_priority p, toLex (p.sched_count, p.ctime))

/-- What the selection loop of `pbs` maintains about `minproc` once the slots
`pre` are scanned. -/
def pbs_best (pre : List proc) : Option (Nat × proc) → Prop
  | none => ∀ r ∈ pre, r.state ≠ RUNNABLE
  | some m =>
    pre[m.1]? = some m.2 ∧ m.2.state = RUNNABLE ∧
    (∀ (k : Nat) (r : proc), pre[k]? = some r → r.state = RUNNABLE → pbs_key m.2 ≤ pbs_key r) ∧
    (∀ (k : Nat) (r : proc), k < m.1 → pre[k]? = some r → r.state = RUNNABLE → pbs_key m.2 < pbs_key r)

/-- The priority of a slot is an MLFQ level, `0 .. NMLFQ - 1`. -/
def level_ok (p : proc) : Prop :=
  0 ≤ p.priority ∧ p.priority ≤ (NMLFQ : Int) - 1

/-- The state of the slot that the reference `x` points to. -/
def slot_state (t : List proc) (x : Nat) : procstate :=
  (t.getD x default).state

/-- The flag `in_queue` of the slot that the reference `x` points to. -/
def slot_in_queue (t : List proc) (x : Nat) : Int :=
  (t.getD x default).in_queue

/-- A queue whose size is not negative and whose entries are not null. -/
def queue_ok (q : queue) : Prop :=
  0 ≤ q.size ∧ ∀ e ∈ queue_entries q, e ≠ none

/-- The table `t1` has the slots of `t` in the same states, and `in_queue` is 0
in `t1` wherever it is 0 in `t`. -/
def pops_only (t t1 : List proc) : Prop :=
  t1.length = t.length ∧
  (∀ x, slot_state t1 x = slot_state t x) ∧
  (∀ x, slot_in_queue t x = 0 → slot_in_queue t1 x = 0)

/-- Every entry of the queue `q` is not RUNNABLE in the table `t` and has
`in_queue` cleared in the table `t1`. -/
def drained (t t1 : List proc) (q : queue) : Prop :=
  ∀ x, some x ∈ queue_entries q → slot_state t x ≠ RUNNABLE ∧ slot_in_queue t1 x = 0

/-! ## States used as examples -/

/-- The first process as `userinit` leaves it. -/
def initcode_proc : proc :=
  { state := RUNNABLE, pid := 1, sz := 4096, pagetable := some [],
    trapframe := some { sp := 4096 }, bkuptframe := some {}, name := "initcode" }

/-- The kernel after `procinit` and `userinit` on a table of two slots. -/
def booted : Kernel :=
  { proc := [initcode_proc, {}], nextpid := 2, initproc := some 0 }

/-- The init process asleep in `wait`, in slot 0. -/
def init_proc : proc :=
  { initcode_proc with state := SLEEPING, chan := Chan.procp 0, name := "init" }

/-- A running shell in slot 1, child of init, with one user word mapped at
address 100. -/
def shell_proc : proc :=
  { state := RUNNING, pid := 2, parent := some 0, sz := 4096, pagetable := some [(100, 0)],
    trapframe := some {}, bkuptframe := some {}, name := "sh" }

/-- A kernel of four slots running init and a shell. -/
def shell_kernel : Kernel :=
  { proc := [init_proc, shell_proc, {}, {}], nextpid := 3, ticks := 5, initproc := some 0 }

/-- The same kernel when the shell has a child, pid 3 in slot 2, that exited
with status 3 and is not reaped yet. -/
def shell_kernel_zombie : Kernel :=
  { proc := [init_proc, shell_proc,
      { state := ZOMBIE, pid := 3, parent := some 1, xstate := 3, name := "ls" }, {}],
    nextpid := 4, ticks := 5, initproc := some 0 }

/-- A kernel of four slots in which the shell, with user words mapped at
addresses 100, 104 and 108, has a ZOMBIE child: pid 3, created at tick 5, run
for 7 ticks, exited at tick 20 with status 3. -/
def waitx_kernel : Kernel :=
  { proc := [init_proc, { shell_proc with pagetable := some [(100, 0), (104, 0), (108, 0)] },
      { state := ZOMBIE, pid := 3, parent := some 1, xstate := 3, name := "ls",
        ctime := 5, rtime := 7, endtime := 20 }, {}],
    nextpid := 4, ticks := 21, initproc := some 0 }

/-- A table of `NPROC` RUNNABLE processes, slot `i` holding pid `i + 1`. -/
def full_table : List proc :=
  (List.range NPROC).map (fun i => { state := RUNNABLE, pid := (i : Int) + 1, in_queue := 1 })

/-- The queue after `queue_push` of the slots 0, 1, ..., `NPROC - 1` on the
empty queue: full, with head and tail both 0. -/
def full_queue : queue :=
  { procs := (List.range NPROC).map some, head := 0, tail := 0, size := NPROC }

instance (p : proc) : Decidable (level_ok p) :=
  inferInstanceAs (Decidable (0 ≤ p.priority ∧ p.priority ≤ (NMLFQ : Int) - 1))

instance (q : queue) : Decidable (queue_ok q) :=
  inferInstanceAs (Decidable (0 ≤ q.size ∧ ∀ e ∈ queue_entries q, e ≠ none))

/-- A table for the MLFQ scheduler: a SLEEPING process and a RUNNABLE one at
level 0, a RUNNABLE one at level 1, all three queued. -/
def mlfq_table : List proc :=
  [{ state := SLEEPING, pid := 10, in_queue := 1 },
   { state := RUNNABLE, pid := 11, in_queue := 1 },
   { state := RUNNABLE, pid := 12, in_queue := 1, priority := 1 }]

/-- The queues of `mlfq_table`: slots 0 and 1 in queue 0, slot 2 in queue 1. -/
def mlfq_queues : List queue :=
  [{ procs := some 0 :: some 1 :: List.replicate 62 none, tail := 2, size := 2 },
   { procs := some 2 :: List.replicate 63 none, tail := 1, size := 1 },
   {}, {}, {}]

/-! # Properties -/

/-! ## kill -/

theorem kill_no_match (t : List proc) (pid : Int) (h : ∀ p ∈ t, p.pid ≠ pid) :
    kill t pid = (t, -1) := by
  induction t with
  | nil => rfl
  | cons a t ih =>
    have ha : a.pid ≠ pid := h a (by simp)
    have := ih (fun p hp => h p (by simp [hp]))
    simp [kill, ha, this]

theorem kill_match (t : List proc) (pid : Int) (i : Nat) (p : proc)
    (hi : t[i]? = some p) (hp : p.pid = pid)
    (hfirst : ∀ (j : Nat) (q : proc), j < i → t[j]? = some q → q.pid ≠ pid) :
    kill t pid = (t.modify kill_slot i, 0) := by
  induction t generalizing i with
  | nil => simp at hi
  | cons a t ih =>
    cases i with
    | zero =>
      simp only [List.getElem?_cons_zero, Option.some.injEq] at hi
      subst hi
      simp [kill, hp]
    | succ k =>
      have ha : a.pid ≠ pid := hfirst 0 a (Nat.succ_pos k) (by simp)
      simp only [List.getElem?_cons_succ] at hi
      have h := ih k hi (fun j q hj hq => hfirst (j + 1) q (by omega) (by simpa using hq))
      simp [kill, ha, h]

/-- C3 (as amended).  `kill(pid)` looks the pid up in every slot, whatever its
state.  If slot `i` is the first slot of the table whose `pid` field is `pid`,
`kill` returns 0, sets `killed = 1` on that slot, turns it from SLEEPING to
RUNNABLE if it was SLEEPING and keeps its state otherwise, and leaves every
other slot unchanged.  If no slot at all has that `pid` field, `kill` returns -1
and leaves the table unchanged. -/
theorem kill_first_match (t : List proc) (pid : Int) :
    (∀ (i : Nat) (p : proc), t[i]? = some p → p.pid = pid →
        (∀ (j : Nat) (q : proc), j < i → t[j]? = some q → q.pid ≠ pid) →
        kill t pid = (t.modify kill_slot i, 0) ∧
        (kill_slot p).killed = 1 ∧
        (kill_slot p).state = (if p.state = SLEEPING then RUNNABLE else p.state) ∧
        (∀ (j : Nat), j ≠ i → (kill t pid).1[j]? = t[j]?)) ∧
    ((∀ p ∈ t, p.pid ≠ pid) → kill t pid = (t, -1)) := by
  refine ⟨?_, kill_no_match t pid⟩
  intro i p hi hp hfirst
  have key := kill_match t pid i p hi hp hfirst
  refine ⟨key, rfl, rfl, ?_⟩
  intro j hj
  rw [key]
  simp [List.getElem?_modify_ne, Ne.symm hj]

/-- Witness of `kill_first_match`: a sleeping process with pid 3 behind a free
slot is killed and made RUNNABLE, and pid 7, held by no slot, gives -1. -/
theorem kill_first_match_witness :
    kill [({} : proc), { state := SLEEPING, pid := 3, chan := Chan.addr 1 }] 3 =
        ([({} : proc), { state := RUNNABLE, pid := 3, chan := Chan.addr 1, killed := 1 }], 0) ∧
    kill [({} : proc), { state := SLEEPING, pid := 3, chan := Chan.addr 1 }] 7 =
        ([({} : proc), { state := SLEEPING, pid := 3, chan := Chan.addr 1 }], -1) :=
  ⟨((kill_first_match [({} : proc), { state := SLEEPING, pid := 3, chan := Chan.addr 1 }] 3).1
      1 { state := SLEEPING, pid := 3, chan := Chan.addr 1 } (by decide) (by decide)
      (fun j q hj hq => by
        obtain rfl : j = 0 := by omega
        simp only [List.getElem?_cons_zero, Option.some.injEq] at hq
        subst hq
        decide)).1,
   (kill_first_match [({} : proc), { state := SLEEPING, pid := 3, chan := Chan.addr 1 }] 7).2
      (by decide)⟩

/-- C3 (counterexample).  In a table whose only in-use process has pid 1,
`kill(0)` does not return -1: it returns 0 and sets `killed` on the free slot,
whose `pid` field is 0. -/
theorem kill_zero_marks_unused_slot :
    (∀ p ∈ [({} : proc), { state := RUNNING, pid := 1 }], p.state ≠ UNUSED → p.pid ≠ 0) ∧
    kill [({} : proc), { state := RUNNING, pid := 1 }] 0 =
      ([{ killed := 1 }, { state := RUNNING, pid := 1 }], 0) := by
  decide

/-! ## First come first served -/

theorem fcfs_scan_keeps_first (minimum_time : Int) (h : minimum_time ≤ 0) (t : List proc)
    (i j : Nat) : fcfs_scan minimum_time t i (some j) = some j := by
  induction t generalizing i with
  | nil => rfl
  | cons p ps ih =>
    rw [fcfs_scan, if_neg]
    · exact ih (i + 1)
    · rintro ⟨_, h1 | h2⟩
      · cases h1
      · have : (0 : Int) ≤ (p.ctime : Int) := Int.ofNat_nonneg _
        omega

theorem fcfs_scan_first_runnable (p : proc) (ps : List proc) (i : Nat) :
    fcfs_scan 0 (p :: ps) i none =
      if p.state = RUNNABLE then some i else fcfs_scan 0 ps (i + 1) none := by
  rw [fcfs_scan]
  by_cases hp : p.state = RUNNABLE
  · simp only [hp, true_or, and_self, if_true]
    exact fcfs_scan_keeps_first 0 (le_refl 0) ps (i + 1) i
  · simp only [hp, false_and, if_false]

/-- C4 (the code at the failing input).  With two RUNNABLE processes created at
ticks 5 and 3, `fcfs` runs the first one in table order, not the one created
earlier: `minimum_time` is never assigned, so a later slot never replaces the
first RUNNABLE slot. -/
theorem fcfs_runs_first_runnable_despite_later_ctime :
    fcfs [{ state := RUNNABLE, pid := 1, ctime := 5 }, { state := RUNNABLE, pid := 2, ctime := 3 }] =
      ([{ state := RUNNING, pid := 1, ctime := 5, sched_count := 1 },
        { state := RUNNABLE, pid := 2, ctime := 3 }], some 0) := by
  decide

/-! ## Priority based scheduler -/

/-- C6 (the code at the failing input).  For priority 60, rtime 1 and stime 1
the code computes niceness `(1 / 2) * 10 = 0` and returns 65, where the formula
`(stime * 10) / (rtime + stime)` gives niceness 5 and the result 60. -/
theorem dynamic_priority_divides_before_scaling :
    dynamic_priority { priority := 60, rtime := 1, stime := 1 } = 65 := by decide

/-- C7 (the code at the failing input).  For priority 0, rtime 0 and stime 1 the
code returns -5: there is no clamp at 0. -/
theorem dynamic_priority_below_zero :
    dynamic_priority { priority := 0, rtime := 0, stime := 1 } = -5 := by decide

theorem pbs_replaces_iff (m p : proc) : pbs_replaces m p ↔ pbs_key p < pbs_key m := by
  unfold pbs_replaces pbs_key
  rw [Prod.Lex.lt_iff]
  simp only [Prod.Lex.lt_iff, gt_iff_lt]
  constructor
  · rintro (h | ⟨h1, h2 | ⟨h2, h3⟩⟩)
    · exact Or.inl h
    · exact Or.inr ⟨h1.symm, Or.inl h2⟩
    · exact Or.inr ⟨h1.symm, Or.inr ⟨h2.symm, h3⟩⟩
  · rintro (h | ⟨h1, h2 | ⟨h2, h3⟩⟩)
    · exact Or.inl h
    · exact Or.inr ⟨h1.symm, Or.inl h2⟩
    · exact Or.inr ⟨h1.symm, Or.inr ⟨h2.symm, h3⟩⟩

theorem getElem?_snoc_cases {α : Type} (pre : List α) (p r : α) (k : Nat)
    (h : (pre ++ [p])[k]? = some r) :
    pre[k]? = some r ∨ (k = pre.length ∧ r = p) := by
  rcases Nat.lt_trichotomy k pre.length with hk | hk | hk
  · left
    rwa [List.getElem?_append_left hk] at h
  · right
    subst hk
    rw [List.getElem?_concat_length] at h
    exact ⟨rfl, (Option.some.inj h).symm⟩
  · rw [List.getElem?_append_right (Nat.le_of_lt hk)] at h
    have : k - pre.length ≠ 0 := by omega
    obtain ⟨n, hn⟩ := Nat.exists_eq_succ_of_ne_zero this
    rw [hn] at h
    simp at h

theorem getElem?_lt_length {α : Type} {l : List α} {k : Nat} {r : α} (h : l[k]? = some r) :
    k < l.length := by
  obtain ⟨hk, _⟩ := List.getElem?_eq_some.mp h
  exact hk

theorem pbs_best_step (pre : List proc) (p : proc) (m : Option (Nat × proc))
    (hm : pbs_best pre m) :
    pbs_best (pre ++ [p])
      (if p.state = RUNNABLE then
        match m with
        | none => some (pre.length, p)
        | some m => if pbs_replaces m.2 p then some (pre.length, p) else some m
      else m) := by
  by_cases hp : p.state = RUNNABLE
  · rw [if_pos hp]
    cases m with
    | none =>
      refine ⟨List.getElem?_concat_length pre p, hp, ?_, ?_⟩
      · intro k r hk hr
        rcases getElem?_snoc_cases pre p r k hk with h | ⟨_, rfl⟩
        · exact absurd hr (hm r (List.mem_iff_getElem?.mpr ⟨k, h⟩))
        · exact le_refl _
      · intro k r hlt hk hr
        rcases getElem?_snoc_cases pre p r k hk with h | ⟨h, _⟩
        · exact absurd hr (hm r (List.mem_iff_getElem?.mpr ⟨k, h⟩))
        · simp only at hlt; omega
    | some m =>
      obtain ⟨h1, h2, h3, h4⟩ := hm
      by_cases hrep : pbs_replaces m.2 p
      · simp only [hrep, if_true]
        have hlt := (pbs_replaces_iff m.2 p).mp hrep
        refine ⟨List.getElem?_concat_length pre p, hp, ?_, ?_⟩
        · intro k r hk hr
          rcases getElem?_snoc_cases pre p r k hk with h | ⟨_, rfl⟩
          · exact le_of_lt (lt_of_lt_of_le hlt (h3 k r h hr))
          · exact le_refl _
        · intro k r hklt hk hr
          rcases getElem?_snoc_cases pre p r k hk with h | ⟨h, _⟩
          · exact lt_of_lt_of_le hlt (h3 k r h hr)
          · simp only at hklt; omega
      · simp only [hrep, if_false]
        have hle : pbs_key m.2 ≤ pbs_key p := by
          rw [pbs_replaces_iff] at hrep
          exact not_lt.mp hrep
        have hj := getElem?_lt_length h1
        refine ⟨?_, h2, ?_, ?_⟩
        · rw [List.getElem?_append_left hj]; exact h1
        · intro k r hk hr
          rcases getElem?_snoc_cases pre p r k hk with h | ⟨_, rfl⟩
          · exact h3 k r h hr
          · exact hle
        · intro k r hklt hk hr
          rcases getElem?_snoc_cases pre p r k hk with h | ⟨h, _⟩
          · exact h4 k r hklt h hr
          · omega
  · rw [if_neg hp]
    cases m with
    | none =>
      show ∀ r ∈ pre ++ [p], r.state ≠ RUNNABLE
      intro r hr
      rcases List.mem_append.mp hr with h | h
      · exact hm r h
      · simp only [List.mem_singleton] at h
        subst h; exact hp
    | some m =>
      obtain ⟨h1, h2, h3, h4⟩ := hm
      have hj := getElem?_lt_length h1
      refine ⟨?_, h2, ?_, ?_⟩
      · rw [List.getElem?_append_left hj]; exact h1
      · intro k r hk hr
        rcases getElem?_snoc_cases pre p r k hk with h | ⟨_, rfl⟩
        · exact h3 k r h hr
        · exact absurd hr hp
      · intro k r hklt hk hr
        rcases getElem?_snoc_cases pre p r k hk with h | ⟨h, _⟩
        · exact h4 k r hklt h hr
        · omega

theorem pbs_scan_best (ps pre : List proc) (m : Option (Nat × proc))
    (hm : pbs_best pre m) : pbs_best (pre ++ ps) (pbs_scan ps pre.length m) := by
  induction ps generalizing pre m with
  | nil => simpa [pbs_scan] using hm
  | cons p ps ih =>
    have hstep := pbs_best_step pre p m hm
    have := ih (pre ++ [p]) _ hstep
    rw [List.append_assoc, List.singleton_append, List.length_append, List.length_singleton] at this
    simp only [pbs_scan]
    by_cases hp : p.state = RUNNABLE
    · simp only [hp, if_true] at this ⊢
      cases m with
      | none => exact this
      | some m =>
        by_cases hrep : pbs_replaces m.2 p
        · simp only [hrep, if_true] at this ⊢; exact this
        · simp only [hrep, if_false] at this ⊢; exact this
    · simp only [hp, if_false] at this ⊢
      exact this

/-- C5.  When some slot is RUNNABLE, `pbs` marks RUNNING the RUNNABLE slot whose
key (dynamic_priority, sched_count, ctime) is least in the lexicographic order,
the earliest in table order among equal keys (every RUNNABLE slot before it has
a strictly greater key); its `sched_count` is incremented by one, its `rtime`
and `stime` are reset to 0, and every other slot is unchanged. -/
theorem pbs_selects_lex_least (t : List proc) (h : ∃ p ∈ t, p.state = RUNNABLE) :
    ∃ (i : Nat) (p : proc), t[i]? = some p ∧ p.state = RUNNABLE ∧
      pbs t = (t.modify pbs_run i, some i) ∧
      (∀ (j : Nat) (q : proc), t[j]? = some q → q.state = RUNNABLE → pbs_key p ≤ pbs_key q) ∧
      (∀ (j : Nat) (q : proc), j < i → t[j]? = some q → q.state = RUNNABLE → pbs_key p < pbs_key q) ∧
      (pbs_run p).state = RUNNING ∧
      (pbs_run p).sched_count = p.sched_count + 1 ∧
      (pbs_run p).rtime = 0 ∧ (pbs_run p).stime = 0 ∧
      (∀ j, j ≠ i → (pbs t).1[j]? = t[j]?) := by
  have hb := pbs_scan_best t [] none (by intro r hr; simp at hr)
  simp only [List.nil_append, List.length_nil] at hb
  cases hscan : pbs_scan t 0 none with
  | none =>
    rw [hscan] at hb
    obtain ⟨p, hp, hr⟩ := h
    exact absurd hr (hb p hp)
  | some m =>
    rw [hscan] at hb
    obtain ⟨h1, h2, h3, h4⟩ := hb
    have hpbs : pbs t = (t.modify pbs_run m.1, some m.1) := by
      simp [pbs, hscan]
    refine ⟨m.1, m.2, h1, h2, hpbs, h3, h4, rfl, rfl, rfl, rfl, ?_⟩
    intro j hj
    rw [hpbs]
    simp [List.getElem?_modify_ne, Ne.symm hj]

/-- Witness of `pbs_selects_lex_least`: of two RUNNABLE processes with equal
dynamic priority and `sched_count`, the one created earlier is run. -/
theorem pbs_selects_lex_least_witness :
    ∃ (i : Nat) (p : proc),
      [({ state := RUNNABLE, pid := 1, priority := 60, ctime := 5 } : proc),
        { state := RUNNABLE, pid := 2, priority := 60, ctime := 3 }][i]? = some p ∧
      p.state = RUNNABLE ∧
      pbs [{ state := RUNNABLE, pid := 1, priority := 60, ctime := 5 },
          { state := RUNNABLE, pid := 2, priority := 60, ctime := 3 }] =
        ([{ state := RUNNABLE, pid := 1, priority := 60, ctime := 5 },
          { state := RUNNABLE, pid := 2, priority := 60, ctime := 3 }].modify pbs_run i, some i) := by
  obtain ⟨i, p, h1, h2, h3, _⟩ :=
    pbs_selects_lex_least
      [{ state := RUNNABLE, pid := 1, priority := 60, ctime := 5 },
        { state := RUNNABLE, pid := 2, priority := 60, ctime := 3 }] (by decide)
  exact ⟨i, p, h1, h2, h3⟩

theorem set_priority_no_match (priority pid : Int) (t : List proc) (old : Int)
    (h : ∀ p ∈ t, p.pid ≠ pid) : set_priority priority pid t old = (t, old, 0) := by
  induction t generalizing old with
  | nil => rfl
  | cons a t ih =>
    have ha : a.pid ≠ pid := h a (by simp)
    have := ih old (fun p hp => h p (by simp [hp]))
    simp [set_priority, ha, this]

theorem set_priority_match (priority pid : Int) (t : List proc) (old : Int) (i : Nat) (p : proc)
    (hi : t[i]? = some p) (hp : p.pid = pid)
    (huniq : ∀ (j : Nat) (q : proc), t[j]? = some q → q.pid = pid → j = i) :
    set_priority priority pid t old =
      (t.modify (set_priority_slot priority) i, p.priority,
        if p.priority > priority then 1 else 0) := by
  induction t generalizing i old with
  | nil => simp at hi
  | cons a t ih =>
    cases i with
    | zero =>
      simp only [List.getElem?_cons_zero, Option.some.injEq] at hi
      subst hi
      have hrest : ∀ q ∈ t, q.pid ≠ pid := by
        intro q hq hqp
        obtain ⟨n, hn⟩ := List.mem_iff_getElem?.mp hq
        have := huniq (n + 1) q (by simpa using hn) hqp
        omega
      simp [set_priority, hp, set_priority_no_match priority pid t a.priority hrest]
    | succ k =>
      have ha : a.pid ≠ pid := by
        intro hap
        have := huniq 0 a (by simp) hap
        omega
      simp only [List.getElem?_cons_succ] at hi
      have h := ih old k hi (fun j q hq hqp => by
        have := huniq (j + 1) q (by simpa using hq) hqp
        omega)
      simp [set_priority, ha, h]

/-- C8 (as amended).  Under PBS the `set_priority` system call looks the pid up
in every slot, whatever its state.  For a pid held by exactly one slot it
returns that slot's previous static priority, sets its priority to the new
value, and the calling CPU yields exactly when the new value is lower than the
previous one (one call of `yield()`, otherwise none).  For a pid that no slot
holds it returns -1 and changes no slot.  In a kernel built with a discipline
other than PBS it returns -1, and `settickets` returns -1 when the discipline is
not LBS; the table is unchanged in both cases. -/
theorem sys_set_priority_by_pid_field (t : List proc) (priority pid : Int) :
    (∀ (i : Nat) (p : proc), t[i]? = some p → p.pid = pid →
        (∀ (j : Nat) (q : proc), t[j]? = some q → q.pid = pid → j = i) →
        sys_set_priority Sched.PBS t priority pid =
          (t.modify (set_priority_slot priority) i, toU64 p.priority,
            if priority < p.priority then 1 else 0) ∧
        (set_priority_slot priority p).priority = priority) ∧
    ((∀ p ∈ t, p.pid ≠ pid) →
        sys_set_priority Sched.PBS t priority pid = (t, toU64 (-1), 0)) ∧
    (∀ d : Sched, d ≠ Sched.PBS → sys_set_priority d t priority pid = (t, toU64 (-1), 0)) ∧
    (∀ (d : Sched) (me : Nat) (n : Int), d ≠ Sched.LBS →
        sys_settickets d t me n = (t, toU64 (-1))) := by
  refine ⟨?_, ?_, ?_, ?_⟩
  · intro i p hi hp huniq
    refine ⟨?_, rfl⟩
    simp only [sys_set_priority, ne_eq, not_true_eq_false, if_false,
      set_priority_match priority pid t (-1) i p hi hp huniq, gt_iff_lt]
  · intro h
    simp only [sys_set_priority, ne_eq, not_true_eq_false, if_false,
      set_priority_no_match priority pid t (-1) h]
  · intro d hd
    simp only [sys_set_priority, hd, ne_eq, not_false_eq_true, if_true]
  · intro d me n hd
    simp only [sys_settickets, hd, ne_eq, not_false_eq_true, if_true]

/-- Witness of `sys_set_priority_by_pid_field`: lowering the priority value of
pid 2 from 60 to 10 returns 60 with one yield; pid 9 is held by no slot. -/
theorem sys_set_priority_by_pid_field_witness :
    sys_set_priority Sched.PBS
        [({ state := RUNNING, pid := 1, priority := 60 } : proc),
          { state := RUNNABLE, pid := 2, priority := 60, rtime := 4 }] 10 2 =
      ([{ state := RUNNING, pid := 1, priority := 60 },
        { state := RUNNABLE, pid := 2, priority := 10, rtime := 0 }], 60, 1) ∧
    sys_set_priority Sched.PBS
        [({ state := RUNNING, pid := 1, priority := 60 } : proc),
          { state := RUNNABLE, pid := 2, priority := 60, rtime := 4 }] 10 9 =
      ([{ state := RUNNING, pid := 1, priority := 60 },
        { state := RUNNABLE, pid := 2, priority := 60, rtime := 4 }], 2 ^ 64 - 1, 0) :=
  ⟨((sys_set_priority_by_pid_field
        [{ state := RUNNING, pid := 1, priority := 60 },
          { state := RUNNABLE, pid := 2, priority := 60, rtime := 4 }] 10 2).1
      1 { state := RUNNABLE, pid := 2, priority := 60, rtime := 4 } (by decide) (by decide)
      (fun j q hq hqp => by
        match j with
        | 0 =>
          simp only [List.getElem?_cons_zero, Option.some.injEq] at hq
          subst hq
          exact absurd hqp (by decide)
        | 1 => rfl
        | (n + 2) => simp at hq)).1,
   (sys_set_priority_by_pid_field
        [{ state := RUNNING, pid := 1, priority := 60 },
          { state := RUNNABLE, pid := 2, priority := 60, rtime := 4 }] 10 9).2.1 (by decide)⟩

/-- C8 (counterexample).  Under PBS, with pid 0 held by no in-use process,
`set_priority(10, 0)` does not return -1: it returns 60, the priority of the
free slot whose `pid` field is 0, rewrites that slot and yields. -/
theorem sys_set_priority_zero_hits_unused_slot :
    (∀ p ∈ [({ priority := 60 } : proc), { state := RUNNING, pid := 1, priority := 60 }],
        p.state ≠ UNUSED → p.pid ≠ 0) ∧
    sys_set_priority Sched.PBS
        [({ priority := 60 } : proc), { state := RUNNING, pid := 1, priority := 60 }] 10 0 =
      ([{ priority := 10 }, { state := RUNNING, pid := 1, priority := 60 }], 60, 1) := by
  decide

/-! ## Lottery based scheduler -/

theorem toI32_of_range (z : Int) (h0 : 0 ≤ z) (h1 : z ≤ 0x7ffffffd) : toI32 z = z := by
  unfold toI32
  norm_num
  omega

theorem schrage_range (hi lo : Int) (hlo0 : 0 ≤ lo) (hlo1 : lo < 127773)
    (hx1 : 1 ≤ 127773 * hi + lo) (hx2 : 127773 * hi + lo ≤ 0x7ffffffe) :
    0 ≤ (if 16807 * lo - 2836 * hi < 0 then 16807 * lo - 2836 * hi + 0x7fffffff
          else 16807 * lo - 2836 * hi) - 1 ∧
    (if 16807 * lo - 2836 * hi < 0 then 16807 * lo - 2836 * hi + 0x7fffffff
          else 16807 * lo - 2836 * hi) - 1 ≤ 0x7ffffffd := by
  split_ifs with h
  · constructor <;> omega
  · constructor <;> omega

/-- C10 (the code at the failing input).  The first RUNNABLE slot holds 0 tickets,
the second holds 1, and the generator is in the state it has after two draws
from the seed 1.  The draw is `1097816498 % 2 = 0`, which the running sum 0 of
the first slot already reaches: `lbs` runs the zero-ticket process. -/
theorem lbs_runs_zero_ticket_process :
    lbs [{ state := RUNNABLE, pid := 1, tickets := 0 }, { state := RUNNABLE, pid := 2, tickets := 1 }]
        564950497 =
      ([{ state := RUNNING, pid := 1, tickets := 0, sched_count := 1 },
        { state := RUNNABLE, pid := 2, tickets := 1 }], some 0, 1097816498) ∧
    (do_rand (do_rand 1).1).1 = 564950497 := by
  decide

/-! ## Slot-wise relations between two tables -/

theorem forall₂_self {R : proc → proc → Prop} (hrefl : ∀ p, R p p) (t : List proc) :
    List.Forall₂ R t t :=
  List.forall₂_same.mpr (fun p _ => hrefl p)

theorem forall₂_chain {R : proc → proc → Prop} (htrans : ∀ p q r, R p q → R q r → R p r)
    {a b c : List proc} (hab : List.Forall₂ R a b) (hbc : List.Forall₂ R b c) :
    List.Forall₂ R a c := by
  induction hab generalizing c with
  | nil => cases hbc; exact List.Forall₂.nil
  | cons h _ ih =>
    cases hbc with
    | cons h' hbc' => exact List.Forall₂.cons (htrans _ _ _ h h') (ih hbc')

theorem forall₂_modify {R : proc → proc → Prop} (hrefl : ∀ p, R p p) (f : proc → proc)
    (t : List proc) (i : Nat) (hf : ∀ p, t[i]? = some p → R p (f p)) :
    List.Forall₂ R t (t.modify f i) := by
  induction t generalizing i with
  | nil => simp
  | cons a t ih =>
    cases i with
    | zero =>
      rw [List.modify_zero_cons]
      exact List.Forall₂.cons (hf a (by simp)) (forall₂_self hrefl t)
    | succ n =>
      rw [List.modify_succ_cons]
      exact List.Forall₂.cons (hrefl a) (ih n (fun p hp => hf p (by simpa using hp)))

theorem forall₂_wakeup_from {R : proc → proc → Prop} (hrefl : ∀ p, R p p)
    (hw : ∀ p : proc, p.state = SLEEPING → R p { p with state := RUNNABLE })
    (me : Option Nat) (chan : Chan) (t : List proc) (i : Nat) :
    List.Forall₂ R t (wakeup_from me chan t i) := by
  induction t generalizing i with
  | nil => exact List.Forall₂.nil
  | cons a t ih =>
    rw [wakeup_from]
    refine List.Forall₂.cons ?_ (ih (i + 1))
    split_ifs with h
    · exact hw a h.2.1
    · exact hrefl a

theorem forall₂_kill {R : proc → proc → Prop} (hrefl : ∀ p, R p p)
    (hk : ∀ p : proc, R p (kill_slot p)) (t : List proc) (pid : Int) :
    List.Forall₂ R t (kill t pid).1 := by
  induction t with
  | nil => exact List.Forall₂.nil
  | cons a t ih =>
    rw [kill]
    split_ifs with h
    · exact List.Forall₂.cons (hk a) (forall₂_self hrefl t)
    · exact List.Forall₂.cons (hrefl a) ih

theorem forall₂_foldl {R : proc → proc → Prop} (hrefl : ∀ p, R p p)
    (htrans : ∀ p q r, R p q → R q r → R p r) (g : List proc → Nat → List proc)
    (hg : ∀ t i, List.Forall₂ R t (g t i)) (l : List Nat) (t : List proc) :
    List.Forall₂ R t (l.foldl g t) := by
  induction l generalizing t with
  | nil => exact forall₂_self hrefl t
  | cons i l ih => exact forall₂_chain htrans (hg t i) (ih (g t i))

theorem forall₂_reparent {R : proc → proc → Prop} (hrefl : ∀ p, R p p)
    (htrans : ∀ p q r, R p q → R q r → R p r)
    (hw : ∀ p : proc, p.state = SLEEPING → R p { p with state := RUNNABLE })
    (me : Nat) (initproc : Option Nat)
    (hp : ∀ p : proc, p.parent = some me → R p { p with parent := initproc })
    (t : List proc) : List.Forall₂ R t (reparent me initproc t) := by
  refine forall₂_foldl hrefl htrans _ ?_ _ t
  intro t i
  unfold reparent_step
  cases hi : t[i]? with
  | none => exact forall₂_self hrefl t
  | some pp =>
    simp only
    split_ifs with hpar
    · refine forall₂_chain htrans (forall₂_modify hrefl _ t i ?_) (forall₂_wakeup_from hrefl hw _ _ _ 0)
      intro p hp'
      rw [hi] at hp'
      cases hp'
      exact hp pp hpar
    · exact forall₂_self hrefl t

theorem forall₂_pointwise {P : proc → Prop} {a b : List proc}
    (h : List.Forall₂ (fun p q => P p → P q) a b) (ha : ∀ p ∈ a, P p) : ∀ q ∈ b, P q := by
  induction h with
  | nil => intro q hq; simp at hq
  | cons h _ ih =>
    intro q hq
    rcases List.mem_cons.mp hq with rfl | hq'
    · exact h (ha _ (List.mem_cons_self _ _))
    · exact ih (fun p hp => ha p (List.mem_cons_of_mem _ hp)) q hq'


/-! ## Sleeping processes and their channel -/

theorem allocproc_init_state (d : Sched) (pid : Int) (tk : Nat) (p : proc) :
    (allocproc_init d pid tk p).state = p.state ∧ (allocproc_init d pid tk p).chan = p.chan := by
  cases d <;> exact ⟨rfl, rfl⟩

theorem allocproc_pages_good (d : Sched) (o : Alloc) (p : proc) (h : sleeping_has_chan p) :
    sleeping_has_chan (allocproc_pages d o p).1 := by
  unfold allocproc_pages
  cases o.tf with
  | none => intro hs; simp [freeproc] at hs
  | some tf =>
    cases o.bk with
    | none => exact h
    | some bk =>
      cases o.pt with
      | true => intro hs; simp at hs
      | false => intro hs; simp [freeproc] at hs

theorem allocproc_keeps (d : Sched) (k : Kernel) (o : Alloc) :
    List.Forall₂ (fun p q => sleeping_has_chan p → sleeping_has_chan q)
      k.proc (allocproc d k o).1.proc := by
  unfold allocproc
  cases first_unused k.proc 0 with
  | none => exact forall₂_self (fun _ h => h) _
  | some i =>
    refine forall₂_modify (fun _ h => h) _ _ i ?_
    intro p hp hgood
    have hget : k.proc.getD i default = p := by simp [List.getD, hp]
    rw [hget]
    apply allocproc_pages_good
    intro hs
    have := allocproc_init_state d k.nextpid k.ticks p
    rw [this.1] at hs
    rw [this.2]
    exact hgood hs


theorem good_modify (f : proc → proc) (t : List proc) (i : Nat)
    (hf : ∀ p, t[i]? = some p → sleeping_has_chan p → sleeping_has_chan (f p)) :
    List.Forall₂ (fun p q => sleeping_has_chan p → sleeping_has_chan q) t (t.modify f i) :=
  forall₂_modify (fun _ h => h) f t i hf

theorem good_chain {a b c : List proc}
    (hab : List.Forall₂ (fun p q => sleeping_has_chan p → sleeping_has_chan q) a b)
    (hbc : List.Forall₂ (fun p q => sleeping_has_chan p → sleeping_has_chan q) b c) :
    List.Forall₂ (fun p q => sleeping_has_chan p → sleeping_has_chan q) a c :=
  forall₂_chain (fun _ _ _ h1 h2 h => h2 (h1 h)) hab hbc

theorem good_self (t : List proc) :
    List.Forall₂ (fun p q => sleeping_has_chan p → sleeping_has_chan q) t t :=
  forall₂_self (fun _ h => h) t

theorem userinit_keeps (d : Sched) (k k1 : Kernel) (o : Alloc) (h : userinit d k o = some k1) :
    List.Forall₂ (fun p q => sleeping_has_chan p → sleeping_has_chan q) k.proc k1.proc := by
  have ha := allocproc_keeps d k o
  unfold userinit at h
  rcases hal : allocproc d k o with ⟨k', r⟩
  rw [hal] at h ha
  cases r with
  | none => simp at h
  | some i =>
    simp only [Option.some.injEq] at h
    subst h
    refine good_chain ha ?_
    refine good_modify _ _ i ?_
    intro p _ _ hs
    simp at hs

theorem fork_keeps (d : Sched) (k : Kernel) (me : Nat) (o : Alloc) :
    List.Forall₂ (fun p q => sleeping_has_chan p → sleeping_has_chan q)
      k.proc (fork d k me o).1.proc := by
  have ha := allocproc_keeps d k o
  unfold fork
  rcases hal : allocproc d k o with ⟨k', r⟩
  rw [hal] at ha
  cases r with
  | none => exact ha
  | some i =>
    simp only
    refine good_chain ha ?_
    split_ifs
    · refine good_modify _ _ i ?_
      intro p _ _ hs
      simp [fork_child] at hs
    · refine good_modify _ _ i ?_
      intro p _ _ hs
      simp [freeproc] at hs

theorem fcfs_keeps (t : List proc) :
    List.Forall₂ (fun p q => sleeping_has_chan p → sleeping_has_chan q) t (fcfs t).1 := by
  unfold fcfs
  cases fcfs_scan 0 t 0 none with
  | none => exact good_self _
  | some i =>
    refine good_modify _ _ i ?_
    intro p _ _ hs
    simp [fcfs_run] at hs

theorem pbs_keeps (t : List proc) :
    List.Forall₂ (fun p q => sleeping_has_chan p → sleeping_has_chan q) t (pbs t).1 := by
  unfold pbs
  cases pbs_scan t 0 none with
  | none => exact good_self _
  | some m =>
    refine good_modify _ _ m.1 ?_
    intro p _ _ hs
    simp [pbs_run] at hs

theorem lbs_keeps (t : List proc) (s : Nat) :
    List.Forall₂ (fun p q => sleeping_has_chan p → sleeping_has_chan q) t (lbs t s).1 := by
  unfold lbs
  simp only
  cases lbs_pick (get_random_ticket 0 (lbs_total t 0) s).2 t 0 0 with
  | none => exact good_self _
  | some i =>
    refine good_modify _ _ i ?_
    intro p _ _ hs
    simp [lbs_run] at hs

theorem round_robin_keeps (t : List proc) (i : Nat) :
    List.Forall₂ (fun p q => sleeping_has_chan p → sleeping_has_chan q) t (round_robin_slot t i) := by
  refine good_modify _ _ i ?_
  intro p _ hgood
  split_ifs
  · intro hs; simp at hs
  · exact hgood

theorem wakeup_keeps (t : List proc) (me : Option Nat) (chan : Chan) :
    List.Forall₂ (fun p q => sleeping_has_chan p → sleeping_has_chan q) t (wakeup t me chan) :=
  forall₂_wakeup_from (fun _ h => h) (fun _ _ _ hs => by simp at hs) me chan t 0

theorem kill_keeps (t : List proc) (pid : Int) :
    List.Forall₂ (fun p q => sleeping_has_chan p → sleeping_has_chan q) t (kill t pid).1 := by
  refine forall₂_kill (fun _ h => h) ?_ t pid
  intro p hgood hs
  simp only [kill_slot] at hs ⊢
  split_ifs at hs with h
  exact hgood hs

theorem exit_keeps (k k1 : Kernel) (me : Nat) (status : Int) (h : exit k me status = some k1) :
    List.Forall₂ (fun p q => sleeping_has_chan p → sleeping_has_chan q) k.proc k1.proc := by
  unfold exit at h
  split_ifs at h
  simp only [Option.some.injEq] at h
  subst h
  simp only
  refine good_chain
    (forall₂_reparent (fun _ h => h) (fun _ _ _ h1 h2 h => h2 (h1 h))
      (fun _ _ _ hs => by simp at hs) me k.initproc (fun _ _ hg => hg) k.proc) ?_
  refine good_chain (wakeup_keeps (reparent me k.initproc k.proc) (some me)
    (Chan.ofPtr ((reparent me k.initproc k.proc).getD me default).parent)) ?_
  refine good_modify _ _ me ?_
  intro p _ _ hs
  simp at hs

theorem wait_keeps (d : Sched) (k : Kernel) (me addr : Nat) :
    List.Forall₂ (fun p q => sleeping_has_chan p → sleeping_has_chan q)
      k.proc (wait d k me addr).kernel.proc := by
  unfold wait
  simp only
  cases wait_find me k.proc 0 with
  | some i =>
    simp only
    split_ifs
    · cases copyout (k.proc.getD me default).pagetable addr (k.proc.getD i default).xstate with
      | none => exact good_self _
      | some m =>
        simp only [WaitResult.kernel]
        refine good_chain
          (good_modify (fun q => { q with pagetable := some m }) k.proc me (fun _ _ hg => hg)) ?_
        refine good_modify _ _ i ?_
        intro p _ _ hs
        simp [freeproc] at hs
    · simp only [WaitResult.kernel]
      refine good_modify _ _ i ?_
      intro p _ _ hs
      simp [freeproc] at hs
  | none =>
    simp only
    split_ifs
    · exact good_self _
    · simp only [WaitResult.kernel, sleep]
      refine good_modify _ _ me ?_
      intro p _ _ _
      simp

theorem forall₂_map {R : proc → proc → Prop} (f : proc → proc) (hf : ∀ p, R p (f p))
    (t : List proc) : List.Forall₂ R t (t.map f) := by
  induction t with
  | nil => exact List.Forall₂.nil
  | cons a t ih => exact List.Forall₂.cons (hf a) ih

theorem forall₂_set_priority {R : proc → proc → Prop} (hrefl : ∀ p, R p p)
    (hset : ∀ (priority : Int) (p : proc), R p (set_priority_slot priority p))
    (priority pid : Int) (t : List proc) (old : Int) :
    List.Forall₂ R t (set_priority priority pid t old).1 := by
  induction t generalizing old with
  | nil => exact List.Forall₂.nil
  | cons a t ih =>
    rw [set_priority]
    by_cases h : a.pid = pid
    · rw [if_pos h]
      exact List.Forall₂.cons (hset priority a) (ih _)
    · rw [if_neg h]
      exact List.Forall₂.cons (hrefl a) (ih _)

theorem keeps_of_same (p q : proc) (hs : q.state = p.state) (hc : q.chan = p.chan)
    (h : sleeping_has_chan p) : sleeping_has_chan q := by
  unfold sleeping_has_chan at h ⊢
  rw [hs, hc]
  exact h

theorem mlfq_age_slot_keeps (ticks : Nat) (t : List proc) (qs : List queue) (i : Nat)
    (r : List proc × List queue) (hr : mlfq_age_slot ticks t qs i = some r) :
    List.Forall₂ (fun p q => sleeping_has_chan p → sleeping_has_chan q) t r.1 := by
  have hdown : ∀ (f : proc → proc), (∀ p, (f p).state = p.state ∧ (f p).chan = p.chan) →
      ∀ p, sleeping_has_chan p →
        sleeping_has_chan (if (f p).priority > 0 then { f p with priority := (f p).priority - 1 }
          else f p) := by
    intro f hf p hp
    split_ifs
    · exact keeps_of_same p _ (hf p).1 (hf p).2 hp
    · exact keeps_of_same p _ (hf p).1 (hf p).2 hp
  unfold mlfq_age_slot at hr
  simp only at hr
  split_ifs at hr with h1 h2 h3
  · cases hr; exact good_self _
  · cases hq : mlfq_at qs (t.getD i default).priority with
    | none => rw [hq] at hr; simp at hr
    | some q =>
      rw [hq] at hr
      simp only at hr
      cases hq1 : queue_remove t q (t.getD i default).pid with
      | none => rw [hq1] at hr; simp at hr
      | some q1 =>
        rw [hq1] at hr
        simp only [Option.some.injEq] at hr
        subst hr
        exact good_modify _ _ i (fun p _ hg =>
          hdown (fun p => { p with q_in_time := ticks, in_queue := 0 }) (fun _ => ⟨rfl, rfl⟩) p hg)
  · simp only [Option.some.injEq] at hr
    subst hr
    exact good_modify _ _ i (fun p _ hg =>
      hdown (fun p => { p with q_in_time := ticks }) (fun _ => ⟨rfl, rfl⟩) p hg)
  · cases hr; exact good_self _

theorem mlfq_age_keeps (ticks : Nat) (is : List Nat) (t : List proc) (qs : List queue)
    (r : List proc × List queue) (hr : mlfq_age ticks is t qs = some r) :
    List.Forall₂ (fun p q => sleeping_has_chan p → sleeping_has_chan q) t r.1 := by
  induction is generalizing t qs with
  | nil =>
    simp only [mlfq_age, Option.some.injEq] at hr
    subst hr; exact good_self _
  | cons i is ih =>
    rw [mlfq_age] at hr
    cases h1 : mlfq_age_slot ticks t qs i with
    | none => rw [h1] at hr; simp at hr
    | some r1 =>
      rw [h1] at hr
      exact good_chain (mlfq_age_slot_keeps ticks t qs i r1 h1) (ih r1.1 r1.2 hr)

theorem mlfq_enqueue_slot_keeps (t : List proc) (qs : List queue) (i : Nat)
    (r : List proc × List queue) (hr : mlfq_enqueue_slot t qs i = some r) :
    List.Forall₂ (fun p q => sleeping_has_chan p → sleeping_has_chan q) t r.1 := by
  unfold mlfq_enqueue_slot at hr
  simp only at hr
  split_ifs at hr with h1
  · cases hq : mlfq_at qs (t.getD i default).priority with
    | none => rw [hq] at hr; simp at hr
    | some q =>
      rw [hq] at hr
      simp only at hr
      cases hq1 : queue_push q i with
      | none => rw [hq1] at hr; simp at hr
      | some q1 =>
        rw [hq1] at hr
        simp only [Option.some.injEq] at hr
        subst hr
        exact good_modify _ _ i (fun p _ hg => keeps_of_same p _ rfl rfl hg)
  · cases hr; exact good_self _

theorem mlfq_enqueue_keeps (is : List Nat) (t : List proc) (qs : List queue)
    (r : List proc × List queue) (hr : mlfq_enqueue is t qs = some r) :
    List.Forall₂ (fun p q => sleeping_has_chan p → sleeping_has_chan q) t r.1 := by
  induction is generalizing t qs with
  | nil =>
    simp only [mlfq_enqueue, Option.some.injEq] at hr
    subst hr; exact good_self _
  | cons i is ih =>
    rw [mlfq_enqueue] at hr
    cases h1 : mlfq_enqueue_slot t qs i with
    | none => rw [h1] at hr; simp at hr
    | some r1 =>
      rw [h1] at hr
      exact good_chain (mlfq_enqueue_slot_keeps t qs i r1 h1) (ih r1.1 r1.2 hr)

theorem mlfq_drain_keeps (ticks : Nat) :
    ∀ (n : Nat) (t : List proc) (q : queue) (r : List proc × queue × Option Nat),
      mlfq_drain ticks n t q = some r →
      List.Forall₂ (fun p q => sleeping_has_chan p → sleeping_has_chan q) t r.1 := by
  intro n
  induction n with
  | zero =>
    intro t q r hr
    rw [mlfq_drain] at hr
    split_ifs at hr
    cases hr
    exact good_self _
  | succ n ih =>
    intro t q r hr
    rw [mlfq_drain] at hr
    split_ifs at hr with h0
    · cases hr
      exact good_self _
    · cases ht : top q with
      | none => rw [ht] at hr; simp at hr
      | some s =>
        cases hp : queue_pop q with
        | none => rw [ht, hp] at hr; simp at hr
        | some q1 =>
          rw [ht, hp] at hr
          simp only at hr
          have h1 : List.Forall₂ (fun p q => sleeping_has_chan p → sleeping_has_chan q) t
              (t.modify (fun p => { p with in_queue := 0 }) s) :=
            good_modify _ _ s (fun p _ hg => keeps_of_same p _ rfl rfl hg)
          split_ifs at hr with hrun
          · cases hr
            exact good_chain h1 (good_modify _ _ s (fun p _ hg => keeps_of_same p _ rfl rfl hg))
          · exact good_chain h1 (ih _ q1 r hr)

theorem mlfq_pick_keeps (ticks : Nat) :
    ∀ (qs : List queue) (t : List proc) (r : List proc × List queue × Option Nat),
      mlfq_pick ticks t qs = some r →
      List.Forall₂ (fun p q => sleeping_has_chan p → sleeping_has_chan q) t r.1 := by
  intro qs
  induction qs with
  | nil =>
    intro t r hr
    rw [mlfq_pick] at hr
    cases hr
    exact good_self _
  | cons q qs ih =>
    intro t r hr
    rw [mlfq_pick] at hr
    cases hd : mlfq_drain ticks q.size.toNat t q with
    | none => rw [hd] at hr; simp at hr
    | some r1 =>
      obtain ⟨t1, q1, sel⟩ := r1
      have hl := mlfq_drain_keeps ticks _ t q _ hd
      rw [hd] at hr
      cases sel with
      | some s =>
        simp only [Option.some.injEq] at hr
        subst hr
        exact hl
      | none =>
        simp only at hr
        cases hp : mlfq_pick ticks t1 qs with
        | none => rw [hp] at hr; simp at hr
        | some r2 =>
          rw [hp] at hr
          simp only [Option.some.injEq] at hr
          subst hr
          exact good_chain hl (ih t1 r2 hp)

theorem mlfq_sched_keeps (ticks : Nat) (t : List proc) (qs : List queue)
    (r : List proc × List queue × Option Nat) (hr : mlfq_sched ticks t qs = some r) :
    List.Forall₂ (fun p q => sleeping_has_chan p → sleeping_has_chan q) t r.1 := by
  unfold mlfq_sched at hr
  cases h1 : mlfq_age ticks (List.range t.length) t qs with
  | none => rw [h1] at hr; simp at hr
  | some r1 =>
    rw [h1] at hr
    simp only at hr
    cases h2 : mlfq_enqueue (List.range r1.1.length) r1.1 r1.2 with
    | none => rw [h2] at hr; simp at hr
    | some r2 =>
      rw [h2] at hr
      simp only at hr
      refine good_chain (mlfq_age_keeps ticks _ t qs r1 h1)
        (good_chain (mlfq_enqueue_keeps _ r1.1 r1.2 r2 h2) ?_)
      unfold mlfq_select at hr
      cases hp : mlfq_pick ticks r2.1 r2.2 with
      | none => rw [hp] at hr; simp at hr
      | some r3 =>
        obtain ⟨t3, qs3, sel⟩ := r3
        have hl := mlfq_pick_keeps ticks r2.2 r2.1 _ hp
        rw [hp] at hr
        cases sel with
        | none =>
          simp only [Option.some.injEq] at hr
          subst hr
          exact hl
        | some s =>
          simp only [Option.some.injEq] at hr
          subst hr
          refine good_chain hl (good_modify _ _ s ?_)
          intro p _ _ hs
          simp [mlfq_run] at hs

theorem clockintr_keeps (d : Sched) (k : Kernel) (me : Option Nat) :
    List.Forall₂ (fun p q => sleeping_has_chan p → sleeping_has_chan q)
      k.proc (clockintr d k me).proc := by
  unfold clockintr
  simp only
  refine good_chain (forall₂_map (update_time_slot d) ?_ k.proc) (wakeup_keeps _ me ticks_chan)
  intro p hg
  unfold update_time_slot
  split_ifs <;> exact keeps_of_same p _ rfl rfl hg

theorem waitx_keeps (d : Sched) (k : Kernel) (me addr rtime wtime : Nat) :
    List.Forall₂ (fun p q => sleeping_has_chan p → sleeping_has_chan q)
      k.proc (waitx d k me addr rtime wtime).kernel.proc := by
  unfold waitx
  simp only
  cases wait_find me k.proc 0 with
  | some i =>
    simp only
    split_ifs
    · cases copyout (k.proc.getD me default).pagetable addr (k.proc.getD i default).xstate with
      | none => exact good_self _
      | some m =>
        simp only [WaitxResult.kernel]
        refine good_chain
          (good_modify (fun q => { q with pagetable := some m }) k.proc me (fun _ _ hg => hg)) ?_
        refine good_modify _ _ i ?_
        intro p _ _ hs
        simp [freeproc] at hs
    · simp only [WaitxResult.kernel]
      refine good_modify _ _ i ?_
      intro p _ _ hs
      simp [freeproc] at hs
  | none =>
    simp only
    split_ifs
    · exact good_self _
    · simp only [WaitxResult.kernel, sleep]
      refine good_modify _ _ me ?_
      intro p _ _ _
      simp

theorem sys_set_priority_keeps (d : Sched) (t : List proc) (priority pid : Int) :
    List.Forall₂ (fun p q => sleeping_has_chan p → sleeping_has_chan q)
      t (sys_set_priority d t priority pid).1 := by
  unfold sys_set_priority
  split_ifs
  · exact good_self _
  · exact forall₂_set_priority (fun _ h => h)
      (fun _ p hg => keeps_of_same p _ rfl rfl hg) priority pid t (-1)

theorem sys_settickets_keeps (d : Sched) (t : List proc) (me : Nat) (tickets : Int) :
    List.Forall₂ (fun p q => sleeping_has_chan p → sleeping_has_chan q)
      t (sys_settickets d t me tickets).1 := by
  unfold sys_settickets settickets
  split_ifs
  · exact good_self _
  · exact good_modify _ _ me (fun p _ hg => keeps_of_same p _ rfl rfl hg)

theorem usertrap_alarm_keeps (which_dev : Int) (p : proc) (hg : sleeping_has_chan p) :
    sleeping_has_chan (usertrap_alarm which_dev p) := by
  unfold usertrap_alarm
  simp only
  split_ifs <;> exact keeps_of_same p _ rfl rfl hg

theorem mlfq_tick_keeps (sizes : Nat → Int) (p : proc) (hg : sleeping_has_chan p) :
    sleeping_has_chan (mlfq_tick sizes p).1 := by
  unfold mlfq_tick
  split_ifs <;> exact keeps_of_same p _ rfl rfl hg

theorem reachable_sleeping_has_chan (d : Sched) (k : Kernel) (h : Reachable d k) :
    ∀ p ∈ k.proc, sleeping_has_chan p := by
  induction h with
  | boot n =>
    intro p hp
    simp only [procinit, List.mem_replicate] at hp
    rw [hp.2]
    intro hs
    simp at hs
  | userinit k k1 o _ hu ih => exact forall₂_pointwise (userinit_keeps d k k1 o hu) ih
  | allocproc k o _ ih => exact forall₂_pointwise (allocproc_keeps d k o) ih
  | fork k me o _ ih => exact forall₂_pointwise (fork_keeps d k me o) ih
  | round_robin k i _ ih => exact forall₂_pointwise (round_robin_keeps k.proc i) ih
  | fcfs k _ ih => exact forall₂_pointwise (fcfs_keeps k.proc) ih
  | lbs k s _ ih => exact forall₂_pointwise (lbs_keeps k.proc s) ih
  | pbs k _ ih => exact forall₂_pointwise (pbs_keeps k.proc) ih
  | yield k me _ ih =>
    refine forall₂_pointwise (good_modify _ _ me ?_) ih
    intro p _ _ hs
    simp at hs
  | sleep k me chan _ hc ih =>
    refine forall₂_pointwise (good_modify _ _ me ?_) ih
    intro p _ _ _
    exact hc
  | sleep_return k me p _ hp hrun ih =>
    refine forall₂_pointwise (good_modify _ _ me ?_) ih
    intro p' hp' _ hs
    rw [hp] at hp'
    cases hp'
    simp only at hs
    rw [hrun] at hs
    cases hs
  | wakeup k me chan _ ih => exact forall₂_pointwise (wakeup_keeps k.proc me chan) ih
  | kill k pid _ ih => exact forall₂_pointwise (kill_keeps k.proc pid) ih
  | exit k k1 me status _ he ih => exact forall₂_pointwise (exit_keeps k k1 me status he) ih
  | wait_ret k k1 me addr v _ hw ih =>
    have := wait_keeps d k me addr
    rw [hw] at this
    exact forall₂_pointwise this ih
  | wait_asleep k k1 me addr _ hw ih =>
    have := wait_keeps d k me addr
    rw [hw] at this
    exact forall₂_pointwise this ih
  | freeproc k i _ ih =>
    refine forall₂_pointwise (good_modify _ _ i ?_) ih
    intro p _ _ hs
    simp [freeproc] at hs
  | mlfq_sched k qs r _ hr ih =>
    exact forall₂_pointwise (mlfq_sched_keeps k.ticks k.proc qs r hr) ih
  | clockintr k me _ ih => exact forall₂_pointwise (clockintr_keeps d k me) ih
  | waitx k me addr rtime wtime _ ih =>
    exact forall₂_pointwise (waitx_keeps d k me addr rtime wtime) ih
  | sys_set_priority k priority pid _ ih =>
    exact forall₂_pointwise (sys_set_priority_keeps d k.proc priority pid) ih
  | sys_settickets k me tickets _ ih =>
    exact forall₂_pointwise (sys_settickets_keeps d k.proc me tickets) ih
  | sys_sigalarm k me n fn _ ih =>
    exact forall₂_pointwise
      (good_modify _ _ me (fun p _ hg => keeps_of_same p _ rfl rfl hg)) ih
  | sys_sigreturn k me _ ih =>
    exact forall₂_pointwise
      (good_modify _ _ me (fun p _ hg => keeps_of_same p _ rfl rfl hg)) ih
  | usertrap_alarm k me which_dev _ ih =>
    exact forall₂_pointwise
      (good_modify _ _ me (fun p _ hg => usertrap_alarm_keeps which_dev p hg)) ih
  | mlfq_tick k me sizes _ ih =>
    exact forall₂_pointwise
      (good_modify _ _ me (fun p _ hg => mlfq_tick_keeps sizes p hg)) ih


theorem wakeup_from_chan (me : Option Nat) (chan : Chan) (t : List proc) (i : Nat) :
    (wakeup_from me chan t i).map (fun p => p.chan) = t.map (fun p => p.chan) := by
  induction t generalizing i with
  | nil => rfl
  | cons a t ih =>
    rw [wakeup_from, List.map_cons, List.map_cons, ih]
    split_ifs <;> rfl

theorem kill_chan (t : List proc) (pid : Int) :
    (kill t pid).1.map (fun p => p.chan) = t.map (fun p => p.chan) := by
  induction t with
  | nil => rfl
  | cons a t ih =>
    rw [kill]
    split_ifs
    · rfl
    · rw [List.map_cons, List.map_cons, ih]

/-- C2 (as amended).  In every kernel state reached from boot through
`allocproc`, `fork`, the schedulers (`round_robin`, `fcfs`, `lbs`, `pbs`,
`mlfq_sched`), the clock tick `clockintr`, `yield`, `sleep` (on a non-null
channel), `wakeup`, `kill`, `exit`, `wait`, `waitx`, `freeproc`, the system
calls `set_priority`, `settickets`, `sigalarm` and `sigreturn` and the alarm
and MLFQ blocks of the trap handlers, every slot that is SLEEPING has
`chan != 0`.  `wakeup` and `kill` make a SLEEPING process RUNNABLE without
writing `chan`: the channel of every slot is what it was before the call, and
it is cleared only when the process later returns from `sched()` in `sleep`
(or is freed). -/
theorem sleeping_process_has_channel (d : Sched) (k : Kernel) (h : Reachable d k) :
    (∀ p ∈ k.proc, p.state = SLEEPING → p.chan ≠ Chan.null) ∧
    (∀ (me : Option Nat) (chan : Chan),
      (wakeup k.proc me chan).map (fun p => p.chan) = k.proc.map (fun p => p.chan)) ∧
    (∀ pid : Int, (kill k.proc pid).1.map (fun p => p.chan) = k.proc.map (fun p => p.chan)) :=
  ⟨reachable_sleeping_has_chan d k h,
    fun me chan => wakeup_from_chan me chan k.proc 0,
    fun pid => kill_chan k.proc pid⟩

/-- Witness of `sleeping_process_has_channel`: the first process, run by `fcfs`
and then asleep on the channel at address 7, after one clock tick: `ticks` is 1,
the process has slept one tick and is still SLEEPING on its channel. -/
theorem sleeping_process_has_channel_witness :
    (clockintr Sched.FCFS
        { booted with proc := sleep (fcfs booted.proc).1 0 (Chan.addr 7) } none).proc.all
      (fun p => decide (p.state = SLEEPING → p.chan ≠ Chan.null)) = true ∧
    (clockintr Sched.FCFS
        { booted with proc := sleep (fcfs booted.proc).1 0 (Chan.addr 7) } none).ticks = 1 ∧
    (clockintr Sched.FCFS
        { booted with proc := sleep (fcfs booted.proc).1 0 (Chan.addr 7) } none).proc.map
      (fun p => (p.state, p.chan, p.stime)) =
        [(SLEEPING, Chan.addr 7, 1), (UNUSED, Chan.null, 0)] := by
  refine ⟨?_, by decide, by decide⟩
  rw [List.all_eq_true]
  intro p hp
  exact decide_eq_true
    ((sleeping_process_has_channel Sched.FCFS
      (clockintr Sched.FCFS
        { booted with proc := sleep (fcfs booted.proc).1 0 (Chan.addr 7) } none)
      (Reachable.clockintr { booted with proc := sleep (fcfs booted.proc).1 0 (Chan.addr 7) }
        none
        (Reachable.sleep { booted with proc := (fcfs booted.proc).1 } 0 (Chan.addr 7)
          (Reachable.fcfs booted
            (Reachable.userinit (procinit 2) booted {} (Reachable.boot 2) (by decide)))
          (by decide)))).1 p hp)

/-- C2 (counterexample).  The first process is run by `fcfs` and sleeps on the
channel at address 7.  After `wakeup` on that channel, and likewise after
`kill(1)`, the kernel is in a reachable state in which the process is RUNNABLE
while its `chan` is still the channel, not 0. -/
theorem wakeup_and_kill_leave_chan_set :
    Reachable Sched.FCFS
      { booted with
        proc := wakeup (sleep (fcfs booted.proc).1 0 (Chan.addr 7)) none (Chan.addr 7) } ∧
    wakeup (sleep (fcfs booted.proc).1 0 (Chan.addr 7)) none (Chan.addr 7) =
      [{ initcode_proc with state := RUNNABLE, chan := Chan.addr 7, sched_count := 1 }, {}] ∧
    Reachable Sched.FCFS
      { booted with proc := (kill (sleep (fcfs booted.proc).1 0 (Chan.addr 7)) 1).1 } ∧
    (kill (sleep (fcfs booted.proc).1 0 (Chan.addr 7)) 1).1 =
      [{ initcode_proc with
          state := RUNNABLE, chan := Chan.addr 7, sched_count := 1, killed := 1 }, {}] :=
  ⟨Reachable.wakeup { booted with proc := sleep (fcfs booted.proc).1 0 (Chan.addr 7) } none
      (Chan.addr 7)
      (Reachable.sleep { booted with proc := (fcfs booted.proc).1 } 0 (Chan.addr 7)
        (Reachable.fcfs booted
          (Reachable.userinit (procinit 2) booted {} (Reachable.boot 2) (by decide)))
        (by decide)),
    by decide,
    Reachable.kill { booted with proc := sleep (fcfs booted.proc).1 0 (Chan.addr 7) } 1
      (Reachable.sleep { booted with proc := (fcfs booted.proc).1 } 0 (Chan.addr 7)
        (Reachable.fcfs booted
          (Reachable.userinit (procinit 2) booted {} (Reachable.boot 2) (by decide)))
        (by decide)),
    by decide⟩

/-! ## Fork, exit and wait -/

theorem getD_of_getElem? {t : List proc} {i : Nat} {p : proc} (h : t[i]? = some p) :
    t.getD i default = p := by
  simp [List.getD, h]

theorem getD_modify (f : proc → proc) (t : List proc) (i x : Nat) :
    (t.modify f i).getD x default =
      if i = x ∧ x < t.length then f (t.getD x default) else t.getD x default := by
  simp only [List.getD_eq_getElem?_getD, List.getElem?_modify]
  by_cases hx : x < t.length
  · rw [List.getElem?_eq_getElem hx]
    by_cases hi : i = x
    · simp [hi, hx]
    · simp [hi]
  · have : t[x]? = none := List.getElem?_eq_none (by omega)
    simp [this, hx]

theorem forall₂_getElem? {R : proc → proc → Prop} {a b : List proc} (h : List.Forall₂ R a b)
    (j : Nat) (p : proc) (hp : a[j]? = some p) : ∃ q, b[j]? = some q ∧ R p q := by
  induction h generalizing j with
  | nil => simp at hp
  | cons hr _ ih =>
    cases j with
    | zero =>
      simp only [List.getElem?_cons_zero, Option.some.injEq] at hp
      subst hp
      exact ⟨_, by simp, hr⟩
    | succ n =>
      simp only [List.getElem?_cons_succ] at hp ⊢
      exact ih n hp

theorem forall₂_getElem?_right {R : proc → proc → Prop} {a b : List proc}
    (h : List.Forall₂ R a b) (j : Nat) (q : proc) (hq : b[j]? = some q) :
    ∃ p, a[j]? = some p ∧ R p q := by
  induction h generalizing j with
  | nil => simp at hq
  | cons hr _ ih =>
    cases j with
    | zero =>
      simp only [List.getElem?_cons_zero, Option.some.injEq] at hq
      subst hq
      exact ⟨_, by simp, hr⟩
    | succ n =>
      simp only [List.getElem?_cons_succ] at hq ⊢
      exact ih n hq

theorem first_unused_spec (t : List proc) (i0 c : Nat) (h : first_unused t i0 = some c) :
    ∃ (n : Nat) (p : proc), c = i0 + n ∧ t[n]? = some p ∧ p.state = UNUSED := by
  induction t generalizing i0 with
  | nil => simp [first_unused] at h
  | cons a t ih =>
    rw [first_unused] at h
    split_ifs at h with ha
    · simp only [Option.some.injEq] at h
      exact ⟨0, a, by omega, by simp, ha⟩
    · obtain ⟨n, p, hn, hp, hs⟩ := ih (i0 + 1) h
      exact ⟨n + 1, p, by omega, by simpa using hp, hs⟩

theorem wait_find_spec (me : Nat) (t : List proc) (i0 i : Nat) (h : wait_find me t i0 = some i) :
    ∃ (n : Nat) (pp : proc), i = i0 + n ∧ t[n]? = some pp ∧ pp.parent = some me ∧
      pp.state = ZOMBIE := by
  induction t generalizing i0 with
  | nil => simp [wait_find] at h
  | cons a t ih =>
    rw [wait_find] at h
    split_ifs at h with ha
    · simp only [Option.some.injEq] at h
      exact ⟨0, a, by omega, by simp, ha.1, ha.2⟩
    · obtain ⟨n, p, hn, hp, hs⟩ := ih (i0 + 1) h
      exact ⟨n + 1, p, by omega, by simpa using hp, hs⟩

theorem wait_find_first (me : Nat) (t : List proc) (i0 c : Nat) (z : proc)
    (hz : t[c]? = some z) (hpar : z.parent = some me) (hst : z.state = ZOMBIE)
    (hfirst : ∀ (j : Nat) (q : proc), j < c → t[j]? = some q →
      ¬ (q.parent = some me ∧ q.state = ZOMBIE)) :
    wait_find me t i0 = some (i0 + c) := by
  induction t generalizing i0 c with
  | nil => simp at hz
  | cons a t ih =>
    rw [wait_find]
    cases c with
    | zero =>
      simp only [List.getElem?_cons_zero, Option.some.injEq] at hz
      subst hz
      simp [hpar, hst]
    | succ n =>
      have ha := hfirst 0 a (Nat.succ_pos n) (by simp)
      rw [if_neg ha]
      simp only [List.getElem?_cons_succ] at hz
      have := ih (i0 + 1) n hz (fun j q hj hq => hfirst (j + 1) q (by omega) (by simpa using hq))
      rw [this]
      congr 1
      omega

theorem wait_find_le (me : Nat) (t : List proc) (i0 c : Nat) (z : proc)
    (hz : t[c]? = some z) (hpar : z.parent = some me) (hst : z.state = ZOMBIE) :
    ∃ (n : Nat) (zi : proc), n ≤ c ∧ wait_find me t i0 = some (i0 + n) ∧ t[n]? = some zi ∧
      zi.parent = some me ∧ zi.state = ZOMBIE ∧
      (∀ (j : Nat) (q : proc), j < n → t[j]? = some q →
        ¬ (q.parent = some me ∧ q.state = ZOMBIE)) := by
  induction t generalizing i0 c with
  | nil => simp at hz
  | cons a t ih =>
    by_cases ha : a.parent = some me ∧ a.state = ZOMBIE
    · refine ⟨0, a, Nat.zero_le c, ?_, by simp, ha.1, ha.2, ?_⟩
      · rw [wait_find, if_pos ha]
        rfl
      · intro j q hj
        omega
    · cases c with
      | zero =>
        simp only [List.getElem?_cons_zero, Option.some.injEq] at hz
        subst hz
        exact absurd ⟨hpar, hst⟩ ha
      | succ c =>
        simp only [List.getElem?_cons_succ] at hz
        obtain ⟨n, zi, hn, hwf, hzi, hp, hs, hfirst⟩ := ih (i0 + 1) c hz
        refine ⟨n + 1, zi, by omega, ?_, by simpa using hzi, hp, hs, ?_⟩
        · rw [wait_find, if_neg ha, hwf]
          congr 1
          omega
        · intro j q hj hq
          cases j with
          | zero =>
            simp only [List.getElem?_cons_zero, Option.some.injEq] at hq
            subst hq
            exact ha
          | succ j =>
            simp only [List.getElem?_cons_succ] at hq
            exact hfirst j q (by omega) hq

theorem wait_copyout_fails (d : Sched) (k2 : Kernel) (me i addr : Nat) (zi : proc)
    (hwf : wait_find me k2.proc 0 = some i) (hzi : k2.proc[i]? = some zi) (haddr : addr ≠ 0)
    (hco : copyout (k2.proc.getD me default).pagetable addr zi.xstate = none) :
    wait d k2 me addr = WaitResult.ret (-1) k2 := by
  have hget : k2.proc.getD i default = zi := getD_of_getElem? hzi
  simp only [wait, hwf, hget, hco, haddr, ne_eq, not_false_eq_true, if_true]

theorem wait_find_none (me : Nat) (t : List proc) (i0 : Nat)
    (h : ∀ q ∈ t, q.parent ≠ some me) :
    wait_find me t i0 = none ∧ havekids me t = false := by
  induction t generalizing i0 with
  | nil => exact ⟨rfl, rfl⟩
  | cons a t ih =>
    have ha := h a (List.mem_cons_self _ _)
    have := ih (i0 + 1) (fun q hq => h q (List.mem_cons_of_mem _ hq))
    refine ⟨?_, ?_⟩
    · rw [wait_find, if_neg (fun hc => ha hc.1)]
      exact this.1
    · have h2 := this.2
      unfold havekids at h2 ⊢
      simp only [List.any_cons, Bool.or_eq_false_iff, decide_eq_false_iff_not]
      exact ⟨ha, h2⟩

theorem copyout_lookup (pt : Option UserMem) (addr : Nat) (v : Int) (m : UserMem)
    (h : copyout pt addr v = some m) : m.lookup addr = some v := by
  unfold copyout at h
  cases pt with
  | none => simp at h
  | some m0 =>
    simp only at h
    split_ifs at h with hany
    simp only [Option.some.injEq] at h
    subst h
    induction m0 with
    | nil => simp at hany
    | cons e m0 ih =>
      simp only [List.map_cons]
      by_cases he : e.1 = addr
      · rw [if_pos he]
        simp [List.lookup]
      · have hany' : (m0.any fun e => decide (e.1 = addr)) = true := by
          simpa [he] using hany
        have hne : (addr == e.1) = false := by
          simp only [beq_eq_false_iff_ne, ne_eq]
          exact fun h => he h.symm
        rw [if_neg he]
        cases e with
        | mk e1 e2 =>
          simp only at hne
          simp only [List.lookup, hne]
          exact ih hany'


theorem allocproc_init_pid (d : Sched) (pid : Int) (tk : Nat) (p : proc) :
    (allocproc_init d pid tk p).pid = pid := by
  cases d <;> rfl

theorem allocproc_pages_ok (d : Sched) (o : Alloc) (p : proc)
    (h : (allocproc_pages d o p).2 = true) : (allocproc_pages d o p).1.pid = p.pid := by
  obtain ⟨tf, bk, pt, cp⟩ := o
  cases tf with
  | none => simp [allocproc_pages] at h
  | some tf =>
    cases bk with
    | none => simp [allocproc_pages] at h
    | some bk =>
      cases pt with
      | true => rfl
      | false => simp [allocproc_pages] at h

theorem allocproc_found (d : Sched) (k : Kernel) (o : Alloc) (c : Nat)
    (hfu : first_unused k.proc 0 = some c) :
    allocproc d k o =
      ({ k with
          nextpid := k.nextpid + 1,
          proc := k.proc.modify (fun _ =>
            (allocproc_pages d o
              (allocproc_init d k.nextpid k.ticks (k.proc.getD c default))).1) c },
        if (allocproc_pages d o
              (allocproc_init d k.nextpid k.ticks (k.proc.getD c default))).2
          then some c else none) := by
  simp only [allocproc, hfu]

theorem fork_success (d : Sched) (k : Kernel) (me : Nat) (o : Alloc)
    (h : (fork d k me o).2 ≠ -1) :
    ∃ (c : Nat) (p0 child : proc), first_unused k.proc 0 = some c ∧
      k.proc[c]? = some p0 ∧ p0.state = UNUSED ∧
      (fork d k me o).1.proc = k.proc.modify (fun _ => child) c ∧
      (fork d k me o).1.initproc = k.initproc ∧
      (fork d k me o).2 = k.nextpid ∧
      child.pid = k.nextpid ∧ child.parent = some me ∧ child.state = RUNNABLE := by
  cases hfu : first_unused k.proc 0 with
  | none =>
    exfalso
    apply h
    simp [fork, allocproc, hfu]
  | some c =>
    obtain ⟨n, p0, hn, hp0, hs0⟩ := first_unused_spec k.proc 0 c hfu
    have hcn : c = n := by omega
    subst hcn
    have hal := allocproc_found d k o c hfu
    have hget : k.proc.getD c default = p0 := getD_of_getElem? hp0
    rw [hget] at hal
    have hclt : c < k.proc.length := getElem?_lt_length hp0
    cases hr : (allocproc_pages d o (allocproc_init d k.nextpid k.ticks p0)).2 with
    | false =>
      exfalso
      apply h
      rw [hr] at hal
      simp [fork, hal]
    | true =>
      rw [hr] at hal
      simp only [if_true] at hal
      cases hcp : o.cp with
      | false =>
        exfalso
        apply h
        simp [fork, hal, hcp]
      | true =>
        have hpid := allocproc_pages_ok d o _ hr
        rw [allocproc_init_pid] at hpid
        have hfork : fork d k me o =
            ({ k with
                nextpid := k.nextpid + 1,
                proc := (k.proc.modify (fun _ =>
                    (allocproc_pages d o (allocproc_init d k.nextpid k.ticks p0)).1) c).modify
                  (fork_child d me
                    ((k.proc.modify (fun _ =>
                      (allocproc_pages d o (allocproc_init d k.nextpid k.ticks p0)).1) c).getD
                        me default)) c },
              ((k.proc.modify (fun _ =>
                (allocproc_pages d o (allocproc_init d k.nextpid k.ticks p0)).1) c).getD
                  c default).pid) := by
          simp [fork, hal, hcp]
        have hgetc : (k.proc.modify (fun _ =>
            (allocproc_pages d o (allocproc_init d k.nextpid k.ticks p0)).1) c).getD c default =
            (allocproc_pages d o (allocproc_init d k.nextpid k.ticks p0)).1 := by
          apply getD_of_getElem?
          rw [List.getElem?_modify_eq, hp0]
          rfl
        refine ⟨c, p0, fork_child d me
          ((k.proc.modify (fun _ =>
            (allocproc_pages d o (allocproc_init d k.nextpid k.ticks p0)).1) c).getD me default)
          (allocproc_pages d o (allocproc_init d k.nextpid k.ticks p0)).1,
          rfl, hp0, hs0, ?_, ?_, ?_, ?_, rfl, rfl⟩
        · rw [hfork]
          simp only [List.modify_modify_eq]
          rfl
        · rw [hfork]
        · rw [hfork]
          simp only [hgetc, hpid]
        · simp only [fork_child, hpid]

theorem exit_some (k : Kernel) (me : Nat) (s : Int) (h : k.initproc ≠ some me) :
    exit k me s =
      some { k with
        proc := (wakeup (reparent me k.initproc k.proc) (some me)
            (Chan.ofPtr ((reparent me k.initproc k.proc).getD me default).parent)).modify
          (fun p => { p with xstate := s, state := ZOMBIE, endtime := k.ticks }) me } := by
  simp [exit, h]

theorem exit_frame (k : Kernel) (me : Nat) (chan : Chan) :
    List.Forall₂ (exit_keeps_slot me) k.proc
      (wakeup (reparent me k.initproc k.proc) (some me) chan) := by
  have hrefl : ∀ p : proc, exit_keeps_slot me p p := fun p => ⟨rfl, fun _ => rfl⟩
  have htrans : ∀ p q r : proc, exit_keeps_slot me p q → exit_keeps_slot me q r →
      exit_keeps_slot me p r := by
    intro p q r h1 h2
    refine ⟨h2.1.trans h1.1, fun hp => ?_⟩
    have hq := h1.2 hp
    rw [← hq]
    exact h2.2 (by rw [hq]; exact hp)
  have hw : ∀ p : proc, p.state = SLEEPING → exit_keeps_slot me p { p with state := RUNNABLE } :=
    fun p _ => ⟨rfl, fun _ => rfl⟩
  exact forall₂_chain htrans
    (forall₂_reparent hrefl htrans hw me k.initproc
      (fun p hp => ⟨rfl, fun hne => absurd hp hne⟩) k.proc)
    (forall₂_wakeup_from hrefl hw (some me) chan _ 0)


theorem exit_frame_live (k : Kernel) (me : Nat) (chan : Chan) :
    List.Forall₂ (fun p q => p.state ≠ ZOMBIE → q.state ≠ ZOMBIE) k.proc
      (wakeup (reparent me k.initproc k.proc) (some me) chan) := by
  have hrefl : ∀ p : proc, p.state ≠ ZOMBIE → p.state ≠ ZOMBIE := fun _ h => h
  have htrans : ∀ p q r : proc, (p.state ≠ ZOMBIE → q.state ≠ ZOMBIE) →
      (q.state ≠ ZOMBIE → r.state ≠ ZOMBIE) → p.state ≠ ZOMBIE → r.state ≠ ZOMBIE :=
    fun _ _ _ h1 h2 h => h2 (h1 h)
  have hw : ∀ p : proc, p.state = SLEEPING → p.state ≠ ZOMBIE →
      ({ p with state := RUNNABLE } : proc).state ≠ ZOMBIE := by
    intro p _ _ h
    cases h
  exact forall₂_chain htrans
    (forall₂_reparent hrefl htrans hw me k.initproc (fun p _ h => h) k.proc)
    (forall₂_wakeup_from hrefl hw (some me) chan _ 0)

theorem wait_reaps (d : Sched) (k2 : Kernel) (me c addr : Nat) (z : proc) (m : UserMem)
    (hz : k2.proc[c]? = some z) (hpar : z.parent = some me) (hst : z.state = ZOMBIE)
    (haddr : addr ≠ 0)
    (hco : copyout (k2.proc.getD me default).pagetable addr z.xstate = some m)
    (hfirst : ∀ (j : Nat) (q : proc), j < c → k2.proc[j]? = some q →
      ¬ (q.parent = some me ∧ q.state = ZOMBIE)) :
    wait d k2 me addr =
      WaitResult.ret z.pid
        { k2 with
          proc := (k2.proc.modify (fun q => { q with pagetable := some m }) me).modify
            (freeproc d) c } := by
  have hwf : wait_find me k2.proc 0 = some c := by
    have := wait_find_first me k2.proc 0 c z hz hpar hst hfirst
    simpa using this
  have hget : k2.proc.getD c default = z := getD_of_getElem? hz
  simp only [wait, hwf, hget, hco, haddr, ne_eq, not_false_eq_true, if_true]

theorem wait_ret_value (d : Sched) (k : Kernel) (me addr : Nat) (v : Int) (k' : Kernel)
    (h : wait d k me addr = WaitResult.ret v k') :
    v = -1 ∨ ∃ (i : Nat) (pp : proc), k.proc[i]? = some pp ∧ pp.parent = some me ∧ v = pp.pid := by
  unfold wait at h
  simp only at h
  cases hwf : wait_find me k.proc 0 with
  | none =>
    rw [hwf] at h
    simp only at h
    split_ifs at h
    · simp only [WaitResult.ret.injEq] at h
      exact Or.inl h.1.symm
  | some i =>
    obtain ⟨n, pp, hn, hpp, hpar, _⟩ := wait_find_spec me k.proc 0 i hwf
    have hin : i = n := by omega
    subst hin
    have hget : k.proc.getD i default = pp := getD_of_getElem? hpp
    rw [hwf] at h
    simp only [hget] at h
    split_ifs at h
    · cases hc : copyout (k.proc.getD me default).pagetable addr pp.xstate with
      | none =>
        rw [hc] at h
        simp only [WaitResult.ret.injEq] at h
        exact Or.inl h.1.symm
      | some m =>
        rw [hc] at h
        simp only [WaitResult.ret.injEq] at h
        exact Or.inr ⟨i, pp, hpp, hpar, h.1.symm⟩
    · simp only [WaitResult.ret.injEq] at h
      exact Or.inr ⟨i, pp, hpp, hpar, h.1.symm⟩


/-- C1 (as amended).  The table is one whose pids were issued by `allocpid` (all
below `nextpid`) and whose `initproc` is an in-use slot.  Let a process in a
slot `me` that is neither UNUSED nor ZOMBIE fork a child, with `fork` returning
the child's pid; the child lands in the first UNUSED slot `c` and is RUNNABLE
with parent `me`.  For every
exit status `s` the child's `exit(s)` does not panic and leaves it a ZOMBIE with
`xstate = s`.  The parent's `wait(addr)` with `addr != 0` then deals with the
first ZOMBIE child `zi` of the parent in table order, in a slot `i <= c`: if
`copyout` of the status of `zi` to `addr` fails, `wait` returns -1 and leaves
the kernel as it is; if `i < c` and `copyout` succeeds, `wait` returns the pid
of `zi`, which is not the pid `fork` returned, stores the status of `zi` at
`addr`, frees slot `i` and leaves the forked child a ZOMBIE.  If `copyout` of
`s` to `addr` succeeds and no slot before `c` holds a ZOMBIE child of the
parent, then `wait` returns the child's pid and stores `s` at `addr`, the
child's slot is freed (state UNUSED, pid 0, parent 0), a following `wait` by
the same parent does not return that pid, and it returns -1 when the parent has
no other children. -/
theorem fork_exit_wait_round_trip (d : Sched) (k : Kernel) (me addr : Nat) (o : Alloc) (s : Int)
    (c : Nat) (hc : first_unused k.proc 0 = some c)
    (hme : ∃ p, k.proc[me]? = some p ∧ p.state ≠ UNUSED ∧ p.state ≠ ZOMBIE)
    (hinit : ∀ i, k.initproc = some i → ∃ p, k.proc[i]? = some p ∧ p.state ≠ UNUSED)
    (hpids : ∀ p ∈ k.proc, p.pid < k.nextpid)
    (hfork : (fork d k me o).2 ≠ -1) :
    ∃ (child : proc) (k2 : Kernel) (z : proc),
      (fork d k me o).1.proc[c]? = some child ∧ child.pid = (fork d k me o).2 ∧
      child.parent = some me ∧ child.state = RUNNABLE ∧
      exit (fork d k me o).1 c s = some k2 ∧
      k2.proc[c]? = some z ∧ z.state = ZOMBIE ∧ z.xstate = s ∧
      (∃ (i : Nat) (zi : proc), i ≤ c ∧ k2.proc[i]? = some zi ∧
        zi.parent = some me ∧ zi.state = ZOMBIE ∧
        (∀ (j : Nat) (q : proc), j < i → k2.proc[j]? = some q →
          ¬ (q.parent = some me ∧ q.state = ZOMBIE)) ∧
        (addr ≠ 0 → copyout (k2.proc.getD me default).pagetable addr zi.xstate = none →
          wait d k2 me addr = WaitResult.ret (-1) k2) ∧
        (∀ m : UserMem, addr ≠ 0 → i < c →
          copyout (k2.proc.getD me default).pagetable addr zi.xstate = some m →
          ∃ (k3 : Kernel) (freed : proc),
            wait d k2 me addr = WaitResult.ret zi.pid k3 ∧ zi.pid ≠ (fork d k me o).2 ∧
            (k3.proc.getD me default).pagetable = some m ∧
            m.lookup addr = some zi.xstate ∧
            k3.proc[i]? = some freed ∧ freed.state = UNUSED ∧ freed.pid = 0 ∧
            k3.proc[c]? = some z)) ∧
      ∀ m : UserMem, addr ≠ 0 →
        copyout (k2.proc.getD me default).pagetable addr s = some m →
        (∀ (j : Nat) (q : proc), j < c → k2.proc[j]? = some q →
          ¬ (q.parent = some me ∧ q.state = ZOMBIE)) →
        ∃ (k3 : Kernel) (freed : proc),
          wait d k2 me addr = WaitResult.ret (fork d k me o).2 k3 ∧
          (k3.proc.getD me default).pagetable = some m ∧ m.lookup addr = some s ∧
          k3.proc[c]? = some freed ∧
          freed.state = UNUSED ∧ freed.pid = 0 ∧ freed.parent = none ∧
          (∀ (addr' : Nat) (v : Int) (k4 : Kernel),
            wait d k3 me addr' = WaitResult.ret v k4 → v ≠ (fork d k me o).2) ∧
          ((∀ q ∈ k3.proc, q.parent ≠ some me) →
            ∀ addr' : Nat, wait d k3 me addr' = WaitResult.ret (-1) k3) := by
  obtain ⟨c', p0, child, hfu, hp0, hs0, hproc, hinitp, hpid, hcpid, hcpar, hcst⟩ :=
    fork_success d k me o hfork
  have hcc : c = c' := by
    rw [hfu] at hc
    exact (Option.some.inj hc).symm
  subst hcc
  obtain ⟨pme, hpme, hpmes, hpmez⟩ := hme
  have hmec : me ≠ c := by
    intro h
    rw [h, hp0] at hpme
    cases hpme
    exact hpmes hs0
  generalize hK1 : (fork d k me o).1 = K1 at hproc hinitp ⊢
  generalize hv : (fork d k me o).2 = pid at hpid hfork ⊢
  have hchild : K1.proc[c]? = some child := by
    rw [hproc, List.getElem?_modify_eq, hp0]
    rfl
  have hnot : K1.initproc ≠ some c := by
    intro h
    rw [hinitp] at h
    obtain ⟨p, hp, hps⟩ := hinit c h
    rw [hp0] at hp
    cases hp
    exact hps hs0
  have hex := exit_some K1 c s hnot
  have hframe := exit_frame K1 c
    (Chan.ofPtr ((reparent c K1.initproc K1.proc).getD c default).parent)
  generalize htw : wakeup (reparent c K1.initproc K1.proc) (some c)
    (Chan.ofPtr ((reparent c K1.initproc K1.proc).getD c default).parent) = tw at hex hframe
  obtain ⟨q, hq, hqpid, hqpar⟩ := forall₂_getElem? hframe c child hchild
  have hqpar' : q.parent = some me := by
    rw [hqpar (by rw [hcpar]; intro h; exact hmec (Option.some.inj h)), hcpar]
  obtain ⟨T2, hT2⟩ : ∃ T2 : List proc, T2 = tw.modify
      (fun p => { p with xstate := s, state := ZOMBIE, endtime := K1.ticks }) c := ⟨_, rfl⟩
  obtain ⟨z, hzdef⟩ : ∃ z : proc,
      z = { q with xstate := s, state := ZOMBIE, endtime := K1.ticks } := ⟨_, rfl⟩
  rw [← hT2] at hex
  have hz : T2[c]? = some z := by
    rw [hT2, hzdef, List.getElem?_modify_eq, hq]
    rfl
  have hzpar : z.parent = some me := by rw [hzdef]; exact hqpar'
  have hzst : z.state = ZOMBIE := by rw [hzdef]
  have hzx : z.xstate = s := by rw [hzdef]
  have hzpid : z.pid = pid := by rw [hzdef]; show q.pid = pid; rw [hqpid, hcpid, hpid]
  have hlen1 : K1.proc.length = k.proc.length := by rw [hproc, List.length_modify]
  have hlen2 : tw.length = K1.proc.length := (List.Forall₂.length_eq hframe).symm
  have hlen3 : T2.length = k.proc.length := by rw [hT2, List.length_modify, hlen2, hlen1]
  have hmelt : me < k.proc.length := getElem?_lt_length hpme
  have hT2i : ∀ (i : Nat) (x : proc), i ≠ c → T2[i]? = some x → ∃ p ∈ k.proc, x.pid = p.pid := by
    intro i x hic hx
    rw [hT2, List.getElem?_modify_ne _ _ (Ne.symm hic)] at hx
    obtain ⟨p1, hp1, hrel⟩ := forall₂_getElem?_right hframe i x hx
    rw [hproc, List.getElem?_modify_ne _ _ (Ne.symm hic)] at hp1
    exact ⟨p1, List.mem_iff_getElem?.mpr ⟨i, hp1⟩, hrel.1⟩
  refine ⟨child, _, z, hchild, by rw [hcpid, hpid], hcpar, hcst, hex, hz, hzst, hzx, ?_, ?_⟩
  · obtain ⟨i, zi, hic, hwf, hzi, hzipar, hzist, hzifirst⟩ :=
      wait_find_le me T2 0 c z hz hzpar hzst
    rw [Nat.zero_add] at hwf
    refine ⟨i, zi, hic, hzi, hzipar, hzist, hzifirst, ?_, ?_⟩
    · intro haddr hco
      exact wait_copyout_fails d { K1 with proc := T2 } me i addr zi hwf hzi haddr hco
    · intro m haddr hlt hco
      have hw := wait_reaps d { K1 with proc := T2 } me i addr zi m hzi hzipar hzist haddr hco
        hzifirst
      have hne : i ≠ c := by omega
      have hmei : me ≠ i := by
        intro h
        have hK1me : K1.proc[me]? = some pme := by
          rw [hproc, List.getElem?_modify_ne _ _ (Ne.symm hmec)]
          exact hpme
        obtain ⟨x, hx, hxz⟩ := forall₂_getElem? (exit_frame_live K1 c
          (Chan.ofPtr ((reparent c K1.initproc K1.proc).getD c default).parent)) me pme hK1me
        rw [htw] at hx
        have hT2me : T2[me]? = some x := by
          rw [hT2, List.getElem?_modify_ne _ _ (Ne.symm hmec)]
          exact hx
        rw [← h, hT2me] at hzi
        cases hzi
        exact hxz hpmez hzist
      refine ⟨_, freeproc d
        ((T2.modify (fun q => { q with pagetable := some m }) me).getD i default), hw, ?_, ?_,
        copyout_lookup _ addr _ m hco, ?_, rfl, rfl, ?_⟩
      · obtain ⟨p, hpmem, hpeq⟩ := hT2i i zi hne hzi
        have := hpids p hpmem
        rw [hpeq]
        omega
      · show (((T2.modify (fun q => { q with pagetable := some m }) me).modify
          (freeproc d) i).getD me default).pagetable = some m
        have hlt2 : me < T2.length := by rw [hlen3]; exact hmelt
        rw [getD_modify, getD_modify]
        simp only [hlt2, and_self, if_true, List.length_modify, and_true]
        rw [if_neg (fun h => hmei h.symm)]
      · show ((T2.modify (fun q => { q with pagetable := some m }) me).modify
          (freeproc d) i)[i]? = some _
        have hlti : i < (T2.modify (fun q => { q with pagetable := some m }) me).length := by
          rw [List.length_modify]
          exact getElem?_lt_length hzi
        rw [List.getElem?_modify_eq, List.getElem?_eq_getElem hlti]
        simp only [Option.map_eq_map, Option.map_some', Option.some.injEq]
        rw [List.getD_eq_getElem _ _ hlti]
      · show ((T2.modify (fun q => { q with pagetable := some m }) me).modify
          (freeproc d) i)[c]? = some z
        rw [List.getElem?_modify_ne _ _ hne, List.getElem?_modify_ne _ _ hmec, hz]
  intro m haddr hco hfirst
  have hw := wait_reaps d { K1 with proc := T2 } me c addr z m hz hzpar hzst haddr
    (by rw [hzx]; exact hco) hfirst
  rw [hzpid] at hw
  obtain ⟨T3, hT3⟩ : ∃ T3 : List proc, T3 =
      (T2.modify (fun q => { q with pagetable := some m }) me).modify (freeproc d) c := ⟨_, rfl⟩
  have hw' : wait d { K1 with proc := T2 } me addr =
      WaitResult.ret pid { K1 with proc := T3 } := by rw [hw, hT3]
  have hT3c : T3[c]? = some (freeproc d z) := by
    rw [hT3, List.getElem?_modify_eq, List.getElem?_modify_ne _ _ hmec, hz]
    rfl
  have hT3me : ∃ x : proc, T3[me]? = some { x with pagetable := some m } := by
    have hlt : me < T2.length := by rw [hlen3]; exact hmelt
    refine ⟨T2[me], ?_⟩
    rw [hT3, List.getElem?_modify_ne _ _ (Ne.symm hmec), List.getElem?_modify_eq,
      List.getElem?_eq_getElem hlt]
    rfl
  have hT3i : ∀ (i : Nat) (pp : proc), i ≠ c → T3[i]? = some pp →
      ∃ p ∈ k.proc, pp.pid = p.pid := by
    intro i pp hic hpp
    rw [hT3, List.getElem?_modify_ne _ _ (Ne.symm hic), List.getElem?_modify] at hpp
    cases hx : T2[i]? with
    | none => rw [hx] at hpp; simp at hpp
    | some x =>
      rw [hx] at hpp
      obtain ⟨p, hpmem, hpeq⟩ := hT2i i x hic hx
      refine ⟨p, hpmem, ?_⟩
      simp only [Option.map_eq_map, Option.map_some', Option.some.injEq] at hpp
      rw [← hpp, ← hpeq]
      split_ifs <;> rfl
  refine ⟨{ K1 with proc := T3 }, freeproc d z, hw', ?_, copyout_lookup _ addr s m hco, hT3c,
    rfl, rfl, rfl, ?_, ?_⟩
  · obtain ⟨x, hx⟩ := hT3me
    show (T3.getD me default).pagetable = some m
    rw [getD_of_getElem? hx]
  · intro addr' v k4 hw2
    rcases wait_ret_value d _ me addr' v k4 hw2 with hneg | ⟨i, pp, hpp, hppar, hvpp⟩
    · rw [hneg]; exact fun h => hfork h.symm
    · have hpp' : T3[i]? = some pp := hpp
      have hic : i ≠ c := by
        intro h
        rw [h, hT3c] at hpp'
        simp only [Option.some.injEq] at hpp'
        rw [← hpp'] at hppar
        simp [freeproc] at hppar
      obtain ⟨p, hpmem, hpeq⟩ := hT3i i pp hic hpp'
      have := hpids p hpmem
      rw [hvpp, hpeq]
      omega
  · intro hnone addr'
    have hn := wait_find_none me T3 0 hnone
    simp only [wait, hn.1, hn.2, true_or, if_true]


/-- Witness of `fork_exit_wait_round_trip`: the shell forks pid 3 into slot 2,
the child exits with status 7, and the shell's `wait(100)` returns 3, stores 7
at address 100 and frees slot 2. -/
theorem fork_exit_wait_round_trip_witness :
    ∃ (k2 k3 : Kernel),
      exit (fork Sched.FCFS shell_kernel 1 {}).1 2 7 = some k2 ∧
      wait Sched.FCFS k2 1 100 = WaitResult.ret 3 k3 ∧
      (k3.proc.getD 1 default).pagetable = some [(100, 7)] ∧
      (k3.proc.getD 2 default).state = UNUSED := by
  obtain ⟨child, k2, z, _, _, _, _, hex, _, _, _, _, H⟩ :=
    fork_exit_wait_round_trip Sched.FCFS shell_kernel 1 100 {} 7 2 (by decide)
      ⟨shell_proc, by decide, by decide, by decide⟩
      (fun i hi => by
        obtain rfl : 0 = i := Option.some.inj hi
        exact ⟨init_proc, by decide, by decide⟩)
      (by decide) (by decide)
  have hco : ∀ k ∈ exit (fork Sched.FCFS shell_kernel 1 {}).1 2 7,
      copyout (k.proc.getD 1 default).pagetable 100 7 = some [(100, 7)] := by decide
  have hF : ∀ k ∈ exit (fork Sched.FCFS shell_kernel 1 {}).1 2 7, ∀ j, j < 2 →
      ∀ q ∈ k.proc[j]?, ¬ (q.parent = some 1 ∧ q.state = ZOMBIE) := by decide
  obtain ⟨k3, freed, hw, hm, _, hfr, hst, _⟩ :=
    H [(100, 7)] (by decide) (hco k2 hex) (fun j q hj hq => hF k2 hex j hj q hq)
  refine ⟨k2, k3, hex, hw, hm, ?_⟩
  rw [getD_of_getElem? hfr]
  exact hst

/-- C1 (counterexample).  First run: the shell already has an unreaped ZOMBIE
child (pid 3, status 3) in slot 2; it forks pid 4 into slot 3, that child exits
with status 7, and `wait(100)` returns 3 and stores 3, leaving pid 4 a ZOMBIE.
Second run: the shell forks pid 3, the child exits with status 7, and `wait` on
the unmapped address 104 returns -1 and leaves the child a ZOMBIE. -/
theorem wait_returns_other_zombie_or_fails_copyout :
    ((fork Sched.FCFS shell_kernel_zombie 1 {}).2 = 4 ∧
      (exit (fork Sched.FCFS shell_kernel_zombie 1 {}).1 3 7).map
          (fun k2 => (wait Sched.FCFS k2 1 100).value) = some (some 3) ∧
      (exit (fork Sched.FCFS shell_kernel_zombie 1 {}).1 3 7).map
          (fun k2 => (wait Sched.FCFS k2 1 100).kernel.proc.map
            (fun p => (p.pid, p.state, p.xstate))) =
        some [(1, SLEEPING, 0), (2, RUNNING, 0), (0, UNUSED, 0), (4, ZOMBIE, 7)] ∧
      (exit (fork Sched.FCFS shell_kernel_zombie 1 {}).1 3 7).map
          (fun k2 => ((wait Sched.FCFS k2 1 100).kernel.proc.getD 1 default).pagetable) =
        some (some [(100, 3)])) ∧
    ((fork Sched.FCFS shell_kernel 1 {}).2 = 3 ∧
      (exit (fork Sched.FCFS shell_kernel 1 {}).1 2 7).map
          (fun k2 => (wait Sched.FCFS k2 1 104).value) = some (some (-1)) ∧
      (exit (fork Sched.FCFS shell_kernel 1 {}).1 2 7).map
          (fun k2 => (wait Sched.FCFS k2 1 104).kernel.proc.map
            (fun p => (p.pid, p.state, p.xstate))) =
        some [(1, SLEEPING, 0), (2, RUNNING, 0), (3, ZOMBIE, 7), (0, UNUSED, 0)] ∧
      (exit (fork Sched.FCFS shell_kernel 1 {}).1 2 7).map
          (fun k2 => ((wait Sched.FCFS k2 1 104).kernel.proc.getD 1 default).pagetable) =
        some (some [(100, 0)])) := by
  decide

/-! ## The generator of the lottery -/

theorem toU64_of_range (z : Int) (h0 : 0 ≤ z) (h1 : z ≤ 0x7ffffffd) : (toU64 z : Int) = z := by
  unfold toU64
  norm_num
  omega

theorem schrage_value (x hi lo : Int) (hlo0 : 0 ≤ lo) (hlo1 : lo < 127773)
    (hdec : 127773 * hi + lo = x) (hx1 : 1 ≤ x) (hx2 : x ≤ 0x7ffffffe) :
    (if 16807 * lo - 2836 * hi < 0 then 16807 * lo - 2836 * hi + 0x7fffffff
      else 16807 * lo - 2836 * hi) = (16807 * x) % 0x7fffffff := by
  split_ifs with h <;> omega

theorem do_rand_value (ctx : Nat) :
    ((do_rand ctx).1 : Int) + 1 =
      (16807 * (((ctx % 0x7ffffffe : Nat) : Int) + 1)) % 0x7fffffff ∧
    (do_rand ctx).2 = ((do_rand ctx).1 : Int) := by
  have hx0 : ctx % 0x7ffffffe < 0x7ffffffe := Nat.mod_lt _ (by norm_num)
  generalize hx : ((ctx % 0x7ffffffe : Nat) : Int) + 1 = x
  have hx1 : 1 ≤ x := by omega
  have hx2 : x ≤ 0x7ffffffe := by omega
  have hdiv : Int.tdiv x 127773 = x / 127773 := Int.tdiv_eq_ediv (by omega) (by norm_num)
  have hmod : Int.tmod x 127773 = x % 127773 := Int.tmod_eq_emod (by omega) (by norm_num)
  have hlo0 : 0 ≤ x % 127773 := Int.emod_nonneg _ (by norm_num)
  have hlo1 : x % 127773 < 127773 := Int.emod_lt_of_pos _ (by norm_num)
  have hdec : 127773 * (x / 127773) + x % 127773 = x := Int.ediv_add_emod x 127773
  have hr := schrage_range (x / 127773) (x % 127773) hlo0 hlo1 (by omega) (by omega)
  have hv := schrage_value x (x / 127773) (x % 127773) hlo0 hlo1 hdec hx1 hx2
  have h1 : (do_rand ctx).1 =
      toU64 ((if 16807 * (x % 127773) - 2836 * (x / 127773) < 0
        then 16807 * (x % 127773) - 2836 * (x / 127773) + 0x7fffffff
        else 16807 * (x % 127773) - 2836 * (x / 127773)) - 1) := by
    simp only [do_rand, hx, hdiv, hmod]
  have h2 : (do_rand ctx).2 =
      toI32 ((if 16807 * (x % 127773) - 2836 * (x / 127773) < 0
        then 16807 * (x % 127773) - 2836 * (x / 127773) + 0x7fffffff
        else 16807 * (x % 127773) - 2836 * (x / 127773)) - 1) := by
    simp only [do_rand, hx, hdiv, hmod]
  rw [h1, h2, toU64_of_range _ hr.1 hr.2, toI32_of_range _ hr.1 hr.2, hv]
  constructor <;> omega

/-- C11 (as amended).  The generator state `rand_next` starts at 1.  For every
state `s`, a call of `rand()` (which is `do_rand` on `rand_next`) replaces the
state by `(16807 * ((s mod (2^31 - 2)) + 1)) mod (2^31 - 1) - 1`, the
Park-Miller step taken on the state moved into the range 1 .. 2^31 - 2 and moved
back by one, and returns that new state. -/
theorem rand_step (s : Nat) :
    rand_next = 1 ∧
    rand s = do_rand s ∧
    ((rand s).1 : Int) + 1 =
      (16807 * (((s % (2 ^ 31 - 2) : Nat) : Int) + 1)) % (2 ^ 31 - 1) ∧
    (rand s).2 = ((rand s).1 : Int) :=
  ⟨rfl, rfl, (do_rand_value s).1, (do_rand_value s).2⟩

/-- C11 (counterexample).  From the seed 1 the first call of `do_rand` stores and
returns 33613, which is `16807 * 2 - 1`, where `(16807 * 1) mod (2^31 - 1)` is
16807. -/
theorem do_rand_seed_step :
    rand_next = 1 ∧ do_rand 1 = (33613, 33613) ∧ (16807 * 1) % (2 ^ 31 - 1) = 16807 := by
  decide

/-! ## allocproc on a failed allocation -/

/-- C19 (the code at the failing input).  In the kernel running init and a shell
the first UNUSED slot is slot 2.  When the first `kalloc()` succeeds and the
second one (the backup trapframe) fails, `allocproc` returns 0 and leaves the
slot UNUSED, but with the trapframe page still attached and the pid 3 it had
drawn: `freeproc` is not called on this path.  When the page table fails
instead, the slot is left with trapframe, backup trapframe and page table all
null and pid 0. -/
theorem allocproc_backup_failure_keeps_trapframe :
    (allocproc Sched.ROUND_ROBIN shell_kernel { bk := none }).2 = none ∧
    (((allocproc Sched.ROUND_ROBIN shell_kernel { bk := none }).1.proc.getD 2 default).state,
      ((allocproc Sched.ROUND_ROBIN shell_kernel { bk := none }).1.proc.getD 2 default).trapframe,
      ((allocproc Sched.ROUND_ROBIN shell_kernel { bk := none }).1.proc.getD 2 default).pid) =
      (UNUSED, some {}, 3) ∧
    (allocproc Sched.ROUND_ROBIN shell_kernel { pt := false }).2 = none ∧
    (((allocproc Sched.ROUND_ROBIN shell_kernel { pt := false }).1.proc.getD 2 default).state,
      ((allocproc Sched.ROUND_ROBIN shell_kernel { pt := false }).1.proc.getD 2 default).trapframe,
      ((allocproc Sched.ROUND_ROBIN shell_kernel { pt := false }).1.proc.getD 2 default).pid) =
      (UNUSED, none, 0) := by
  decide

/-! ## Alarm signals -/

theorem usertrap_alarm_unarmed (which_dev : Int) (p : proc) (h : p.ticks = 0) :
    usertrap_alarm which_dev p = p := by
  simp [usertrap_alarm, h]

theorem usertrap_alarm_counts (p : proc) (h : p.ticks ≠ 0)
    (hno : p.handling ≠ 0 ∨ p.timepassed + 1 < p.ticks) :
    usertrap_alarm 2 p = { p with timepassed := p.timepassed + 1 } := by
  have hc : ¬ (p.handling = 0 ∧ ¬ (p.timepassed + 1 < p.ticks)) := by
    rintro ⟨h0, h1⟩
    rcases hno with h2 | h2
    · exact h2 h0
    · exact h1 h2
  simp only [usertrap_alarm, h, ne_eq, not_false_eq_true, and_self, if_true, hc, if_false]

theorem usertrap_alarm_fires (p : proc) (h : p.ticks ≠ 0) (h0 : p.handling = 0)
    (hreach : ¬ (p.timepassed + 1 < p.ticks)) :
    usertrap_alarm 2 p =
      { p with
        bkuptframe := memmove p.bkuptframe p.trapframe,
        trapframe := p.trapframe.map (fun (tf : trapframe) => { tf with epc := p.hndlr }),
        handling := 1, timepassed := 0 } := by
  simp only [usertrap_alarm, h, ne_eq, not_false_eq_true, and_self, if_true, h0, hreach,
    zero_add]

/-- C17 (as amended).  On a timer tick taken from user mode, `timepassed` is
incremented exactly when the alarm is armed (`ticks != 0`), also while the
process is inside its handler: a tick taken while `handling` is set adds one to
`timepassed` and leaves the trapframe and the backup trapframe unchanged, and an
unarmed process is left as it is.  When the process is not inside its handler
and the incremented `timepassed` is not below `ticks`, the trapframe is copied
to the backup trapframe, `epc` is set to the handler address, `handling` is set
and `timepassed` is reset to 0; when it is still below `ticks`, only the count
is kept. -/
theorem usertrap_alarm_step (p : proc) :
    (p.ticks = 0 → usertrap_alarm 2 p = p) ∧
    (p.ticks ≠ 0 → p.handling ≠ 0 →
      usertrap_alarm 2 p = { p with timepassed := p.timepassed + 1 } ∧
      (usertrap_alarm 2 p).trapframe = p.trapframe ∧
      (usertrap_alarm 2 p).bkuptframe = p.bkuptframe) ∧
    (p.ticks ≠ 0 → p.handling = 0 → p.timepassed + 1 < p.ticks →
      usertrap_alarm 2 p = { p with timepassed := p.timepassed + 1 }) ∧
    (p.ticks ≠ 0 → p.handling = 0 → ¬ (p.timepassed + 1 < p.ticks) →
      ∀ tf bk, p.trapframe = some tf → p.bkuptframe = some bk →
      usertrap_alarm 2 p =
        { p with
          bkuptframe := some tf, trapframe := some { tf with epc := p.hndlr },
          handling := 1, timepassed := 0 }) := by
  refine ⟨usertrap_alarm_unarmed 2 p, ?_, ?_, ?_⟩
  · intro h hh
    have := usertrap_alarm_counts p h (Or.inl hh)
    rw [this]
    exact ⟨rfl, rfl, rfl⟩
  · intro h _ hlt
    exact usertrap_alarm_counts p h (Or.inr hlt)
  · intro h h0 hreach tf bk htf hbk
    rw [usertrap_alarm_fires p h h0 hreach, htf, hbk]
    rfl

/-- Witness of `usertrap_alarm_step`: a process armed with period 2 that has
counted one tick; the second tick saves the trapframe and enters the handler at
address 500. -/
theorem usertrap_alarm_step_witness :
    usertrap_alarm 2
        { state := RUNNING, pid := 3, ticks := 2, hndlr := 500, timepassed := 1,
          trapframe := some { epc := 100, a0 := 7 }, bkuptframe := some {} } =
      { state := RUNNING, pid := 3, ticks := 2, hndlr := 500, timepassed := 0, handling := 1,
        trapframe := some { epc := 500, a0 := 7 },
        bkuptframe := some { epc := 100, a0 := 7 } } :=
  (usertrap_alarm_step
      { state := RUNNING, pid := 3, ticks := 2, hndlr := 500, timepassed := 1,
        trapframe := some { epc := 100, a0 := 7 }, bkuptframe := some {} }).2.2.2
    (by decide) (by decide) (by decide) { epc := 100, a0 := 7 } {} rfl rfl

/-- C17 (counterexample).  A process armed with period 5 takes a timer tick
while its handler runs (`handling = 1`): `timepassed` goes from 0 to 1. -/
theorem usertrap_alarm_counts_inside_handler :
    usertrap_alarm 2
        { state := RUNNING, pid := 3, ticks := 5, hndlr := 500, timepassed := 0, handling := 1,
          trapframe := some { epc := 504 }, bkuptframe := some { epc := 100 } } =
      { state := RUNNING, pid := 3, ticks := 5, hndlr := 500, timepassed := 1, handling := 1,
        trapframe := some { epc := 504 }, bkuptframe := some { epc := 100 } } := by
  decide

/-- C16 (the code at the failing input).  The alarm of a process fires while its
`a0` holds `2^32`.  The tick saves the trapframe, and `sys_sigreturn` restores it
in every field and clears `handling`, but the value it returns is 0, the low 32
bits of the saved `a0`, not `2^32`: the return value goes through `int tmp`. -/
theorem sys_sigreturn_truncates_a0 :
    (usertrap_alarm 2
        { state := RUNNING, pid := 3, ticks := 1, hndlr := 500,
          trapframe := some { epc := 100, a0 := 2 ^ 32 }, bkuptframe := some {} }).bkuptframe =
      some { epc := 100, a0 := 2 ^ 32 } ∧
    sys_sigreturn
        { state := RUNNING, pid := 3, ticks := 1, hndlr := 500, handling := 1,
          trapframe := some { epc := 520, a0 := 1 },
          bkuptframe := some { epc := 100, a0 := 2 ^ 32 } } =
      ({ state := RUNNING, pid := 3, ticks := 1, hndlr := 500, handling := 0,
         trapframe := some { epc := 100, a0 := 2 ^ 32 },
         bkuptframe := some { epc := 100, a0 := 2 ^ 32 } }, 0) := by
  decide

/-! ## waitx -/

/-- C18 (the code at the failing input).  The shell calls the `waitx` system call
with the addresses 100, 104 and 108 while its child (created at tick 5, run for
7 ticks, exited at tick 20) is a ZOMBIE.  The call returns the child's pid 3 and
stores the status at 100, but the second address receives the run time 7 and
the third the wait time `20 - 5 - 7 = 8`: `sys_waitx` passes `&wtime` where
`waitx` takes `rtime`, and `&rtime` where it takes `wtime`. -/
theorem sys_waitx_swaps_times :
    sys_waitx Sched.ROUND_ROBIN waitx_kernel 1 100 104 108 0 0 =
      SysWaitx.ret 3
        { proc := [init_proc,
            { shell_proc with pagetable := some [(100, 3), (104, 7), (108, 8)] },
            { ctime := 5 }, {}],
          nextpid := 4, ticks := 21, initproc := some 0 } := by
  decide

/-! ## Multi-level feedback queue: the circular buffer -/

/-- C15 (the code at the failing input).  The queue holds the slots 0 .. 63, built
by 64 calls of `queue_push` on the empty queue, so it is full and head equals
tail.  `queue_remove` for pid 1, held by the entry of slot 0 alone, runs no
iteration of its loop (`curr != q->tail` is false at once) and then drops the
last entry: the queue is left with the entries of the slots 0 .. 62, the entry
of pid 1 still at its head, where the entries 1 .. 63 should remain. -/
theorem queue_remove_full_queue_drops_last :
    queue_push_all (List.range 64) {} = some full_queue ∧
    queue_entries full_queue = (List.range 64).map some ∧
    (queue_remove full_table full_queue 1).map queue_entries =
      some ((List.range 63).map some) ∧
    (queue_remove full_table full_queue 1).map (fun q => (q.head, q.tail, q.size)) =
      some (0, 63, 63) := by
  decide

/-! ## Multi-level feedback queue: the timer tick -/

theorem foldl_count (sizes : Nat → Int) (l : List Nat) (n : Nat) :
    l.foldl (fun n i => if sizes i ≠ 0 then n + 1 else n) n =
      n + (l.filter (fun i => sizes i ≠ 0)).length := by
  induction l generalizing n with
  | nil => simp
  | cons a l ih =>
    rw [List.foldl_cons, ih]
    by_cases h : sizes a ≠ 0
    · simp only [h, ne_eq, not_false_eq_true, if_true, List.filter_cons, decide_True,
        List.length_cons]
      omega
    · simp only [h, ne_eq, if_false, List.filter_cons, decide_False]
      simp

theorem mlfq_higher_yields_eq (sizes : Nat → Int) (priority : Int) :
    mlfq_higher_yields sizes priority =
      ((List.range priority.toNat).filter (fun i => sizes i ≠ 0)).length := by
  unfold mlfq_higher_yields
  rw [foldl_count]
  omega

theorem mlfq_higher_yields_pos (sizes : Nat → Int) (priority : Int) :
    0 < mlfq_higher_yields sizes priority ↔
      ∃ i : Nat, (i : Int) < priority ∧ sizes i ≠ 0 := by
  rw [mlfq_higher_yields_eq, List.length_pos_iff_exists_mem]
  constructor
  · rintro ⟨i, hi⟩
    rw [List.mem_filter, List.mem_range] at hi
    exact ⟨i, by omega, by simpa using hi.2⟩
  · rintro ⟨i, hi, hs⟩
    refine ⟨i, ?_⟩
    rw [List.mem_filter, List.mem_range]
    exact ⟨by omega, by simpa using hs⟩

/-- C14 (as amended).  On a timer tick, `usertrap` and `kerneltrap` treat the
RUNNING process alike.  If `quanta <= 0`, its priority becomes
`priority + 1` unless it is `NMLFQ - 1` (that is `min(priority + 1, NMLFQ - 1)`
for a priority in `0 .. NMLFQ - 1`) and it yields.  In both cases the
higher-queue check is then applied, with the priority as it now is: the process
yields once for every queue with index strictly below its priority whose size
is non-zero when tested.  So with `quanta > 0` the process is unchanged and it
yields at least once exactly when some queue with index strictly below its
priority is non-empty. -/
theorem mlfq_tick_decision (sizes : Nat → Int) (p : proc) :
    usertrap_mlfq 2 (some p) sizes = kerneltrap_mlfq 2 (some p) sizes ∧
    (p.state = RUNNING →
      usertrap_mlfq 2 (some p) sizes = (some (mlfq_tick sizes p).1, (mlfq_tick sizes p).2)) ∧
    (p.quanta ≤ 0 →
      (mlfq_tick sizes p).1 =
        { p with
          priority := if p.priority ≠ (NMLFQ : Int) - 1 then p.priority + 1 else p.priority } ∧
      (0 ≤ p.priority → p.priority ≤ (NMLFQ : Int) - 1 →
        (mlfq_tick sizes p).1.priority = min (p.priority + 1) ((NMLFQ : Int) - 1)) ∧
      (mlfq_tick sizes p).2 =
        1 + ((List.range (mlfq_tick sizes p).1.priority.toNat).filter
          (fun i => sizes i ≠ 0)).length) ∧
    (0 < p.quanta →
      (mlfq_tick sizes p).1 = p ∧
      (mlfq_tick sizes p).2 =
        ((List.range p.priority.toNat).filter (fun i => sizes i ≠ 0)).length ∧
      (0 < (mlfq_tick sizes p).2 ↔ ∃ i : Nat, (i : Int) < p.priority ∧ sizes i ≠ 0)) := by
  refine ⟨rfl, ?_, ?_, ?_⟩
  · intro h
    simp [usertrap_mlfq, h]
  · intro hq
    refine ⟨?_, ?_, ?_⟩
    · simp [mlfq_tick, hq]
    · intro h0 h1
      simp only [mlfq_tick, hq, if_true]
      split_ifs with h
      · rw [min_eq_left]; omega
      · rw [min_eq_right]
        · omega
        · omega
    · simp only [mlfq_tick, hq, if_true, mlfq_higher_yields_eq]
  · intro hq
    have hq' : ¬ p.quanta ≤ 0 := by omega
    refine ⟨?_, ?_, ?_⟩
    · simp [mlfq_tick, hq']
    · simp only [mlfq_tick, hq', if_false, mlfq_higher_yields_eq]
    · simp only [mlfq_tick, hq', if_false]
      exact mlfq_higher_yields_pos sizes p.priority

/-- Witness of `mlfq_tick_decision`: a process at level 2 with its quantum spent,
while only queue 1 is non-empty, is demoted to level 3 and yields twice. -/
theorem mlfq_tick_decision_witness :
    usertrap_mlfq 2 (some { state := RUNNING, pid := 3, priority := 2, quanta := 0 })
        (fun i => if i = 1 then 4 else 0) =
      (some { state := RUNNING, pid := 3, priority := 3, quanta := 0 }, 2) :=
  ((mlfq_tick_decision (fun i => if i = 1 then 4 else 0)
      { state := RUNNING, pid := 3, priority := 2, quanta := 0 }).2.1 (by decide)).trans
    (by decide)

/-- C14 (counterexample).  First: a process at level 0 whose quantum is spent,
with queue 0 non-empty, is demoted to level 1 and then also meets the
higher-queue check, so it yields twice.  Second: a process at level 2 with
quantum left, with queues 0 and 1 both non-empty, yields twice. -/
theorem mlfq_tick_yields_twice :
    usertrap_mlfq 2 (some { state := RUNNING, pid := 3, priority := 0, quanta := 0 })
        (fun i => if i = 0 then 1 else 0) =
      (some { state := RUNNING, pid := 3, priority := 1, quanta := 0 }, 2) ∧
    kerneltrap_mlfq 2 (some { state := RUNNING, pid := 3, priority := 2, quanta := 1 })
        (fun i => if i ≤ 1 then 1 else 0) =
      (some { state := RUNNING, pid := 3, priority := 2, quanta := 1 }, 2) := by
  decide

/-! ## Multi-level feedback queue: levels -/

theorem mem_modify {f : proc → proc} {t : List proc} {i : Nat} {q : proc}
    (h : q ∈ t.modify f i) : q ∈ t ∨ ∃ p ∈ t, q = f p := by
  induction t generalizing i with
  | nil => simp at h
  | cons a t ih =>
    cases i with
    | zero =>
      rw [List.modify_zero_cons] at h
      rcases List.mem_cons.mp h with rfl | h'
      · exact Or.inr ⟨a, List.mem_cons_self _ _, rfl⟩
      · exact Or.inl (List.mem_cons_of_mem _ h')
    | succ n =>
      rw [List.modify_succ_cons] at h
      rcases List.mem_cons.mp h with rfl | h'
      · exact Or.inl (List.mem_cons_self _ _)
      · rcases ih h' with h1 | ⟨p, hp, hq⟩
        · exact Or.inl (List.mem_cons_of_mem _ h1)
        · exact Or.inr ⟨p, List.mem_cons_of_mem _ hp, hq⟩

theorem all_modify {P : proc → Prop} {f : proc → proc} {t : List proc} (i : Nat)
    (hf : ∀ p, P p → P (f p)) (h : ∀ p ∈ t, P p) : ∀ q ∈ t.modify f i, P q := by
  intro q hq
  rcases mem_modify hq with h1 | ⟨p, hp, rfl⟩
  · exact h q h1
  · exact hf p (h p hp)

theorem level_ok_down (p : proc) (h : level_ok p) :
    level_ok (if p.priority > 0 then { p with priority := p.priority - 1 } else p) := by
  unfold level_ok at h ⊢
  split_ifs with hp
  · simp only
    omega
  · exact h

theorem mlfq_age_slot_levels (ticks : Nat) (t : List proc) (qs : List queue) (i : Nat)
    (r : List proc × List queue) (h : ∀ p ∈ t, level_ok p)
    (hr : mlfq_age_slot ticks t qs i = some r) : ∀ p ∈ r.1, level_ok p := by
  have hdown : ∀ (f : proc → proc), (∀ p, (f p).priority = p.priority) →
      ∀ p, level_ok p →
        level_ok (if (f p).priority > 0 then { f p with priority := (f p).priority - 1 }
          else f p) := by
    intro f hf p hp
    have := level_ok_down (f p) (by unfold level_ok at hp ⊢; rw [hf]; exact hp)
    exact this
  unfold mlfq_age_slot at hr
  simp only at hr
  split_ifs at hr with h1 h2 h3
  · cases hr; exact h
  · cases hq : mlfq_at qs (t.getD i default).priority with
    | none => rw [hq] at hr; simp at hr
    | some q =>
      rw [hq] at hr
      simp only at hr
      cases hq1 : queue_remove t q (t.getD i default).pid with
      | none => rw [hq1] at hr; simp at hr
      | some q1 =>
        rw [hq1] at hr
        simp only [Option.some.injEq] at hr
        subst hr
        exact all_modify i
          (hdown (fun p => { p with q_in_time := ticks, in_queue := 0 }) (fun _ => rfl)) h
  · simp only [Option.some.injEq] at hr
    subst hr
    exact all_modify i (hdown (fun p => { p with q_in_time := ticks }) (fun _ => rfl)) h
  · cases hr; exact h

theorem mlfq_age_levels (ticks : Nat) (is : List Nat) (t : List proc) (qs : List queue)
    (r : List proc × List queue) (h : ∀ p ∈ t, level_ok p)
    (hr : mlfq_age ticks is t qs = some r) : ∀ p ∈ r.1, level_ok p := by
  induction is generalizing t qs with
  | nil =>
    simp only [mlfq_age, Option.some.injEq] at hr
    subst hr; exact h
  | cons i is ih =>
    rw [mlfq_age] at hr
    cases h1 : mlfq_age_slot ticks t qs i with
    | none => rw [h1] at hr; simp at hr
    | some r1 =>
      rw [h1] at hr
      exact ih r1.1 r1.2 (mlfq_age_slot_levels ticks t qs i r1 h h1) hr

theorem mlfq_enqueue_slot_levels (t : List proc) (qs : List queue) (i : Nat)
    (r : List proc × List queue) (h : ∀ p ∈ t, level_ok p)
    (hr : mlfq_enqueue_slot t qs i = some r) : ∀ p ∈ r.1, level_ok p := by
  unfold mlfq_enqueue_slot at hr
  simp only at hr
  split_ifs at hr with h1
  · cases hq : mlfq_at qs (t.getD i default).priority with
    | none => rw [hq] at hr; simp at hr
    | some q =>
      rw [hq] at hr
      simp only at hr
      cases hq1 : queue_push q i with
      | none => rw [hq1] at hr; simp at hr
      | some q1 =>
        rw [hq1] at hr
        simp only [Option.some.injEq] at hr
        subst hr
        exact all_modify i (fun p hp => hp) h
  · cases hr; exact h

theorem mlfq_enqueue_levels (is : List Nat) (t : List proc) (qs : List queue)
    (r : List proc × List queue) (h : ∀ p ∈ t, level_ok p)
    (hr : mlfq_enqueue is t qs = some r) : ∀ p ∈ r.1, level_ok p := by
  induction is generalizing t qs with
  | nil =>
    simp only [mlfq_enqueue, Option.some.injEq] at hr
    subst hr; exact h
  | cons i is ih =>
    rw [mlfq_enqueue] at hr
    cases h1 : mlfq_enqueue_slot t qs i with
    | none => rw [h1] at hr; simp at hr
    | some r1 =>
      rw [h1] at hr
      exact ih r1.1 r1.2 (mlfq_enqueue_slot_levels t qs i r1 h h1) hr

/-! ## Multi-level feedback queue: selection -/

theorem pops_only_refl (t : List proc) : pops_only t t :=
  ⟨rfl, fun _ => rfl, fun _ h => h⟩

theorem pops_only_trans {a b c : List proc} (h1 : pops_only a b) (h2 : pops_only b c) :
    pops_only a c :=
  ⟨h2.1.trans h1.1, fun x => (h2.2.1 x).trans (h1.2.1 x), fun x h => h2.2.2 x (h1.2.2 x h)⟩

theorem pops_only_modify (f : proc → proc) (t : List proc) (s : Nat)
    (hst : ∀ p, (f p).state = p.state) (hin : ∀ p, p.in_queue = 0 → (f p).in_queue = 0) :
    pops_only t (t.modify f s) := by
  refine ⟨List.length_modify _ _ _, ?_, ?_⟩
  · intro x
    unfold slot_state
    rw [getD_modify]
    split_ifs
    · exact hst _
    · rfl
  · intro x hx
    unfold slot_in_queue at hx ⊢
    rw [getD_modify]
    split_ifs
    · exact hin _ hx
    · exact hx

theorem slot_in_queue_cleared (t : List proc) (s : Nat) :
    slot_in_queue (t.modify (fun p => { p with in_queue := 0 }) s) s = 0 := by
  unfold slot_in_queue
  rw [getD_modify]
  split_ifs with h
  · rfl
  · have hs : t.length ≤ s := by
      by_contra hc
      exact h ⟨rfl, by omega⟩
    rw [List.getD_eq_default _ _ hs]
    rfl

theorem queue_entries_pop (q : queue) (n : Nat) (hn : q.size = ((n + 1 : Nat) : Int)) :
    queue_entries q =
      q.procs.getD q.head.toNat none ::
        queue_entries { q with head := Int.tmod (q.head + 1) NPROC, size := q.size - 1 } := by
  have h1 : q.size.toNat = n + 1 := by omega
  have h2 : (q.size - 1).toNat = n := by omega
  simp only [queue_entries, h1, h2, entries_from]

theorem queue_entries_empty (q : queue) (h : q.size = 0) : queue_entries q = [] := by
  simp [queue_entries, h, entries_from]

theorem mlfq_drain_spec (ticks : Nat) :
    ∀ (n : Nat) (t : List proc) (q : queue), q.size = (n : Int) →
      (∀ e ∈ queue_entries q, e ≠ none) →
      ∃ t1 q1 sel, mlfq_drain ticks n t q = some (t1, q1, sel) ∧ pops_only t t1 ∧
        ∃ pre : List Nat,
          (∀ x ∈ pre, slot_state t x ≠ RUNNABLE ∧ slot_in_queue t1 x = 0) ∧
          ((sel = none ∧ queue_entries q = pre.map some ∧ queue_entries q1 = []) ∨
           (∃ s, sel = some s ∧
              queue_entries q = pre.map some ++ some s :: queue_entries q1 ∧
              slot_state t s = RUNNABLE ∧ slot_in_queue t1 s = 0)) := by
  intro n
  induction n with
  | zero =>
    intro t q hn _
    have hn0 : q.size = 0 := by simpa using hn
    refine ⟨t, q, none, by simp [mlfq_drain, hn0], pops_only_refl t, [], ?_, ?_⟩
    · intro x hx
      simp at hx
    · left
      exact ⟨rfl, by simp [queue_entries_empty q hn0], queue_entries_empty q hn0⟩
  | succ n ih =>
    intro t q hn hent
    have hne : q.size ≠ 0 := by omega
    have hpop := queue_entries_pop q n hn
    have htop : q.procs.getD q.head.toNat none ≠ none :=
      hent _ (by rw [hpop]; exact List.mem_cons_self _ _)
    obtain ⟨s, hs⟩ := Option.ne_none_iff_exists'.mp htop
    have hq1size : ({ q with head := Int.tmod (q.head + 1) NPROC, size := q.size - 1 } : queue).size
        = (n : Int) := by
      show q.size - 1 = (n : Int)
      omega
    have hq1ent : ∀ e ∈ queue_entries
        { q with head := Int.tmod (q.head + 1) NPROC, size := q.size - 1 }, e ≠ none := by
      intro e he
      exact hent e (by rw [hpop]; exact List.mem_cons_of_mem _ he)
    have hclear := pops_only_modify (fun p => { p with in_queue := 0 }) t s
      (fun _ => rfl) (fun _ _ => rfl)
    have hcl0 := slot_in_queue_cleared t s
    have hstep : mlfq_drain ticks (n + 1) t q =
        if ((t.modify (fun p => { p with in_queue := 0 }) s).getD s default).state = RUNNABLE then
          some ((t.modify (fun p => { p with in_queue := 0 }) s).modify
            (fun p => { p with q_in_time := ticks }) s,
            { q with head := Int.tmod (q.head + 1) NPROC, size := q.size - 1 }, some s)
        else mlfq_drain ticks n (t.modify (fun p => { p with in_queue := 0 }) s)
          { q with head := Int.tmod (q.head + 1) NPROC, size := q.size - 1 } := by
      have hsz : ¬ q.size ≤ 0 := by omega
      simp only [mlfq_drain, hne, if_false, top, queue_pop, hs, hsz]
    rw [hstep]
    have hstate : slot_state (t.modify (fun p => { p with in_queue := 0 }) s) s = slot_state t s :=
      hclear.2.1 s
    unfold slot_state at hstate
    split_ifs with hrun
    · have htime := pops_only_modify (fun p => { p with q_in_time := ticks })
        (t.modify (fun p => { p with in_queue := 0 }) s) s (fun _ => rfl) (fun _ h => h)
      refine ⟨_, _, some s, rfl, pops_only_trans hclear htime, [], ?_, ?_⟩
      · intro x hx
        simp at hx
      · right
        refine ⟨s, rfl, ?_, ?_, htime.2.2 s hcl0⟩
        · rw [hpop, hs]
          rfl
        · unfold slot_state
          rw [← hstate]
          exact hrun
    · obtain ⟨t1, q1, sel, hd, hpo, pre, hpre, hcase⟩ :=
        ih (t.modify (fun p => { p with in_queue := 0 }) s) _ hq1size hq1ent
      refine ⟨t1, q1, sel, hd, pops_only_trans hclear hpo, s :: pre, ?_, ?_⟩
      · intro x hx
        rcases List.mem_cons.mp hx with hx | hx
        · subst hx
          refine ⟨?_, hpo.2.2 _ hcl0⟩
          unfold slot_state
          rw [← hstate]
          exact hrun
        · have := hpre x hx
          rw [hclear.2.1 x] at this
          exact this
      · rcases hcase with ⟨h1, h2, h3⟩ | ⟨s1, h1, h2, h3, h4⟩
        · left
          refine ⟨h1, ?_, h3⟩
          rw [hpop, hs, h2]
          rfl
        · right
          refine ⟨s1, h1, ?_, ?_, h4⟩
          · rw [hpop, hs, h2]
            rfl
          · rw [← hclear.2.1 s1]
            exact h3

theorem drained_before {t0 t t1 : List proc} {q : queue} (h0 : pops_only t0 t)
    (h : drained t t1 q) : drained t0 t1 q := by
  intro x hx
  have := h x hx
  rw [h0.2.1 x] at this
  exact this

theorem drained_after {t t1 t2 : List proc} {q : queue} (h : drained t t1 q)
    (h1 : pops_only t1 t2) : drained t t2 q :=
  fun x hx => ⟨(h x hx).1, h1.2.2 x (h x hx).2⟩

theorem drained_of_pre {t t1 : List proc} {q : queue} {pre : List Nat}
    (hpre : ∀ x ∈ pre, slot_state t x ≠ RUNNABLE ∧ slot_in_queue t1 x = 0)
    (hq : queue_entries q = pre.map some) : drained t t1 q := by
  intro x hx
  rw [hq] at hx
  obtain ⟨y, hy, hxy⟩ := List.mem_map.mp hx
  have hyx : y = x := Option.some.inj hxy
  rw [← hyx]
  exact hpre y hy

theorem mlfq_pick_spec (ticks : Nat) :
    ∀ (qs : List queue) (t : List proc), (∀ q ∈ qs, queue_ok q) →
      ∃ t1 qs1 sel, mlfq_pick ticks t qs = some (t1, qs1, sel) ∧ pops_only t t1 ∧
        qs1.length = qs.length ∧
        ((sel = none ∧ (∀ q ∈ qs, drained t t1 q) ∧ ∀ q1 ∈ qs1, queue_entries q1 = []) ∨
         (∃ s i q q1 pre, sel = some s ∧ qs[i]? = some q ∧ qs1[i]? = some q1 ∧
            queue_entries q = List.map some pre ++ some s :: queue_entries q1 ∧
            (∀ x ∈ pre, slot_state t x ≠ RUNNABLE ∧ slot_in_queue t1 x = 0) ∧
            slot_state t s = RUNNABLE ∧ slot_in_queue t1 s = 0 ∧
            (∀ (j : Nat) (qj : queue), j < i → qs[j]? = some qj → drained t t1 qj) ∧
            (∀ (j : Nat) (qj : queue), j < i → qs1[j]? = some qj → queue_entries qj = []) ∧
            (∀ j : Nat, i < j → qs1[j]? = qs[j]?))) := by
  intro qs
  induction qs with
  | nil =>
    intro t _
    refine ⟨t, [], none, rfl, pops_only_refl t, rfl, Or.inl ⟨rfl, ?_, ?_⟩⟩
    · intro q hq
      simp at hq
    · intro q hq
      simp at hq
  | cons q qs ih =>
    intro t hok
    have hq := hok q (List.mem_cons_self _ _)
    have hsz : q.size = (q.size.toNat : Int) := (Int.toNat_of_nonneg hq.1).symm
    obtain ⟨t1, q1, sel, hd, hpo, pre, hpre, hcase⟩ :=
      mlfq_drain_spec ticks q.size.toNat t q hsz hq.2
    rcases hcase with ⟨hsel, hent, hemp⟩ | ⟨s, hsel, hent, hrun, hin⟩
    · subst hsel
      obtain ⟨t2, qs2, sel2, hp, hpo2, hlen, hcase2⟩ :=
        ih t1 (fun q0 h0 => hok q0 (List.mem_cons_of_mem _ h0))
      refine ⟨t2, q1 :: qs2, sel2, ?_, pops_only_trans hpo hpo2, by simp [hlen], ?_⟩
      · simp only [mlfq_pick, hd, hp]
      · have hdq : drained t t2 q := drained_after (drained_of_pre hpre hent) hpo2
        rcases hcase2 with ⟨hsel2, hdr, hemp2⟩ | ⟨s, i, qi, qi1, pre2, hsel2, hqi, hqi1, hent2,
          hpre2, hrun2, hin2, hbefore, hbefore1, hafter⟩
        · left
          refine ⟨hsel2, ?_, ?_⟩
          · intro q0 h0
            rcases List.mem_cons.mp h0 with h0 | h0
            · rw [h0]
              exact hdq
            · exact drained_before hpo (hdr q0 h0)
          · intro q0 h0
            rcases List.mem_cons.mp h0 with h0 | h0
            · rw [h0]
              exact hemp
            · exact hemp2 q0 h0
        · right
          refine ⟨s, i + 1, qi, qi1, pre2, hsel2, by simpa using hqi, by simpa using hqi1, hent2,
            ?_, ?_, hin2, ?_, ?_, ?_⟩
          · intro x hx
            have := hpre2 x hx
            rw [hpo.2.1 x] at this
            exact this
          · rw [← hpo.2.1 s]
            exact hrun2
          · intro j qj hj hqj
            cases j with
            | zero =>
              simp at hqj
              rw [← hqj]
              exact hdq
            | succ j =>
              simp at hqj
              exact drained_before hpo (hbefore j qj (by omega) hqj)
          · intro j qj hj hqj
            cases j with
            | zero =>
              simp at hqj
              rw [← hqj]
              exact hemp
            | succ j =>
              simp at hqj
              exact hbefore1 j qj (by omega) hqj
          · intro j hj
            cases j with
            | zero => omega
            | succ j =>
              simp only [List.getElem?_cons_succ]
              exact hafter j (by omega)
    · subst hsel
      refine ⟨t1, q1 :: qs, some s, ?_, hpo, rfl, Or.inr ⟨s, 0, q, q1, pre, rfl, by simp, by simp, hent,
        hpre, hrun, hin, ?_, ?_, ?_⟩⟩
      · simp only [mlfq_pick, hd]
      · intro j qj hj
        omega
      · intro j qj hj
        omega
      · intro j hj
        cases j with
        | zero => omega
        | succ j => simp

theorem slot_state_in_range {t : List proc} {s : Nat} (h : slot_state t s = RUNNABLE) :
    s < t.length := by
  by_contra hc
  unfold slot_state at h
  rw [List.getD_eq_default _ _ (by omega)] at h
  exact absurd h (by decide)

theorem slot_state_mlfq_run (t : List proc) (s x : Nat) :
    slot_state (t.modify mlfq_run s) x =
      if s = x ∧ x < t.length then RUNNING else slot_state t x := by
  unfold slot_state
  rw [getD_modify]
  split_ifs <;> rfl

theorem slot_in_queue_mlfq_run (t : List proc) (s x : Nat) :
    slot_in_queue (t.modify mlfq_run s) x = slot_in_queue t x := by
  unfold slot_in_queue
  rw [getD_modify]
  split_ifs <;> rfl

/-- C12. The selection loop of `mlfq_sched`, on queues whose sizes are not
negative and whose entries are not null, ends and selects no process exactly
when no queue holds a RUNNABLE entry; then every queue is emptied, every entry
has `in_queue` cleared and no slot changes state.  Otherwise it selects the
earliest RUNNABLE entry `s` of the lowest-index queue `i` that holds one: the
queues before `i` hold no RUNNABLE entry and are emptied, the entries `pre` in
front of `s` in queue `i` are not RUNNABLE and are dropped, the entries behind
`s` stay, the queues after `i` are untouched, all popped entries have `in_queue`
cleared, and `s` is RUNNING at the context switch. -/
theorem mlfq_select_earliest_runnable (ticks : Nat) (t : List proc) (qs : List queue)
    (hok : ∀ q ∈ qs, queue_ok q) :
    ∃ t1 qs1 sel, mlfq_select ticks t qs = some (t1, qs1, sel) ∧ qs1.length = qs.length ∧
      (sel = none ↔ ∀ q ∈ qs, ∀ x, some x ∈ queue_entries q → slot_state t x ≠ RUNNABLE) ∧
      (sel = none →
        (∀ q ∈ qs, drained t t1 q) ∧ (∀ q1 ∈ qs1, queue_entries q1 = []) ∧
        ∀ x, slot_state t1 x = slot_state t x) ∧
      (∀ s, sel = some s →
        ∃ i q q1 pre, qs[i]? = some q ∧ qs1[i]? = some q1 ∧
          queue_entries q = List.map some pre ++ some s :: queue_entries q1 ∧
          (∀ x ∈ pre, slot_state t x ≠ RUNNABLE ∧ slot_in_queue t1 x = 0) ∧
          slot_state t s = RUNNABLE ∧ slot_state t1 s = RUNNING ∧ slot_in_queue t1 s = 0 ∧
          (∀ x, x ≠ s → slot_state t1 x = slot_state t x) ∧
          (∀ (j : Nat) (qj : queue), j < i → qs[j]? = some qj → drained t t1 qj) ∧
          (∀ (j : Nat) (qj : queue), j < i → qs1[j]? = some qj → queue_entries qj = []) ∧
          (∀ j : Nat, i < j → qs1[j]? = qs[j]?)) := by
  obtain ⟨t1, qs1, sel, hp, hpo, hlen, hcase⟩ := mlfq_pick_spec ticks qs t hok
  rcases hcase with ⟨hsel, hdr, hemp⟩ | ⟨s, i, q, q1, pre, hsel, hq, hq1, hent, hpre, hrun, hin,
    hbefore, hbefore1, hafter⟩
  · subst hsel
    refine ⟨t1, qs1, none, by simp only [mlfq_select, hp], hlen, ?_, ?_, ?_⟩
    · constructor
      · intro _ q0 h0 x hx
        exact (hdr q0 h0 x hx).1
      · intro _
        rfl
    · intro _
      exact ⟨hdr, hemp, hpo.2.1⟩
    · intro s hs
      cases hs
  · subst hsel
    have hs1 : s < t1.length := slot_state_in_range (by rw [hpo.2.1 s]; exact hrun)
    refine ⟨t1.modify mlfq_run s, qs1, some s, by simp only [mlfq_select, hp], hlen, ?_, ?_, ?_⟩
    · constructor
      · intro h
        cases h
      · intro h
        have hmem : q ∈ qs := List.getElem?_mem hq
        exact absurd hrun (h q hmem s (by rw [hent]; simp))
    · intro h
      cases h
    · intro s0 hs0
      have hs : s = s0 := Option.some.inj hs0
      subst hs
      refine ⟨i, q, q1, pre, hq, hq1, hent, ?_, hrun, ?_, ?_, ?_, ?_, hbefore1, hafter⟩
      · intro x hx
        rw [slot_in_queue_mlfq_run]
        exact hpre x hx
      · rw [slot_state_mlfq_run]
        simp [hs1]
      · rw [slot_in_queue_mlfq_run]
        exact hin
      · intro x hx
        rw [slot_state_mlfq_run]
        have : ¬ (s = x ∧ x < t1.length) := fun h => hx h.1.symm
        rw [if_neg this]
        exact hpo.2.1 x
      · intro j qj hj hqj x hx
        rw [slot_in_queue_mlfq_run]
        exact hbefore j qj hj hqj x hx

/-- Witness of `mlfq_select_earliest_runnable`: on `mlfq_table`, whose queue 0
holds a SLEEPING entry in front of a RUNNABLE one, the selection loop ends and
selects slot 1. -/
theorem mlfq_select_earliest_runnable_witness :
    ∃ t1 qs1 sel, mlfq_select 5 mlfq_table mlfq_queues = some (t1, qs1, sel) ∧
      qs1.length = mlfq_queues.length ∧ sel = some 1 := by
  obtain ⟨t1, qs1, sel, h, hlen, _⟩ :=
    mlfq_select_earliest_runnable 5 mlfq_table mlfq_queues (by decide)
  have hc : (mlfq_select 5 mlfq_table mlfq_queues).map (fun r => r.2.2) = some (some 1) := by
    decide
  rw [h] at hc
  exact ⟨t1, qs1, sel, h, hlen, Option.some.inj hc⟩

/-! ## Multi-level feedback queue: the level invariant -/

theorem mlfq_drain_levels (ticks : Nat) :
    ∀ (n : Nat) (t : List proc) (q : queue) (r : List proc × queue × Option Nat),
      (∀ p ∈ t, level_ok p) → mlfq_drain ticks n t q = some r →
      (∀ p ∈ r.1, level_ok p) ∧ ∀ s, r.2.2 = some s → slot_state r.1 s = RUNNABLE := by
  intro n
  induction n with
  | zero =>
    intro t q r h hr
    rw [mlfq_drain] at hr
    split_ifs at hr
    cases hr
    exact ⟨h, fun s hs => by cases hs⟩
  | succ n ih =>
    intro t q r h hr
    rw [mlfq_drain] at hr
    split_ifs at hr with h0
    · cases hr
      exact ⟨h, fun s hs => by cases hs⟩
    · cases ht : top q with
      | none => rw [ht] at hr; simp at hr
      | some s =>
        cases hp : queue_pop q with
        | none => rw [ht, hp] at hr; simp at hr
        | some q1 =>
          rw [ht, hp] at hr
          simp only at hr
          have h1 : ∀ p ∈ t.modify (fun p => { p with in_queue := 0 }) s, level_ok p :=
            all_modify s (fun p hp => hp) h
          split_ifs at hr with hrun
          · cases hr
            refine ⟨all_modify s (fun p hp => hp) h1, ?_⟩
            intro s1 hs1
            have hs : s = s1 := Option.some.inj hs1
            subst hs
            have := (pops_only_modify (fun p => { p with q_in_time := ticks })
              (t.modify (fun p => { p with in_queue := 0 }) s) s (fun _ => rfl) (fun _ h => h)).2.1 s
            rw [this]
            exact hrun
          · exact ih _ q1 r h1 hr

theorem mlfq_pick_levels (ticks : Nat) :
    ∀ (qs : List queue) (t : List proc) (r : List proc × List queue × Option Nat),
      (∀ p ∈ t, level_ok p) → mlfq_pick ticks t qs = some r →
      (∀ p ∈ r.1, level_ok p) ∧ ∀ s, r.2.2 = some s → slot_state r.1 s = RUNNABLE := by
  intro qs
  induction qs with
  | nil =>
    intro t r h hr
    rw [mlfq_pick] at hr
    cases hr
    exact ⟨h, fun s hs => by cases hs⟩
  | cons q qs ih =>
    intro t r h hr
    rw [mlfq_pick] at hr
    cases hd : mlfq_drain ticks q.size.toNat t q with
    | none => rw [hd] at hr; simp at hr
    | some r1 =>
      obtain ⟨t1, q1, sel⟩ := r1
      have hl := mlfq_drain_levels ticks _ t q _ h hd
      rw [hd] at hr
      cases sel with
      | some s =>
        simp only [Option.some.injEq] at hr
        subst hr
        exact hl
      | none =>
        simp only at hr
        cases hp : mlfq_pick ticks t1 qs with
        | none => rw [hp] at hr; simp at hr
        | some r2 =>
          rw [hp] at hr
          simp only [Option.some.injEq] at hr
          subst hr
          exact ih t1 r2 hl.1 hp

theorem mlfq_select_levels (ticks : Nat) (t : List proc) (qs : List queue)
    (r : List proc × List queue × Option Nat) (h : ∀ p ∈ t, level_ok p)
    (hr : mlfq_select ticks t qs = some r) :
    (∀ p ∈ r.1, level_ok p) ∧
    ∀ s, r.2.2 = some s →
      (r.1.getD s default).state = RUNNING ∧
      (r.1.getD s default).quanta = ((1 <<< (r.1.getD s default).priority.toNat : Nat) : Int) := by
  unfold mlfq_select at hr
  cases hp : mlfq_pick ticks t qs with
  | none => rw [hp] at hr; simp at hr
  | some r1 =>
    obtain ⟨t1, qs1, sel⟩ := r1
    have hl := mlfq_pick_levels ticks qs t _ h hp
    rw [hp] at hr
    cases sel with
    | none =>
      simp only [Option.some.injEq] at hr
      subst hr
      exact ⟨hl.1, fun s hs => by cases hs⟩
    | some s =>
      simp only [Option.some.injEq] at hr
      subst hr
      refine ⟨all_modify s (fun p hp => hp) hl.1, ?_⟩
      intro s1 hs1
      have hs : s = s1 := Option.some.inj hs1
      subst hs
      have hlt : s < t1.length := slot_state_in_range (hl.2 s rfl)
      simp only [getD_modify, hlt, and_self, if_true]
      exact ⟨rfl, rfl⟩

theorem mlfq_sched_levels (ticks : Nat) (t : List proc) (qs : List queue)
    (r : List proc × List queue × Option Nat) (h : ∀ p ∈ t, level_ok p)
    (hr : mlfq_sched ticks t qs = some r) :
    (∀ p ∈ r.1, level_ok p) ∧
    ∀ s, r.2.2 = some s →
      (r.1.getD s default).state = RUNNING ∧
      (r.1.getD s default).quanta = ((1 <<< (r.1.getD s default).priority.toNat : Nat) : Int) := by
  unfold mlfq_sched at hr
  cases h1 : mlfq_age ticks (List.range t.length) t qs with
  | none => rw [h1] at hr; simp at hr
  | some r1 =>
    rw [h1] at hr
    simp only at hr
    cases h2 : mlfq_enqueue (List.range r1.1.length) r1.1 r1.2 with
    | none => rw [h2] at hr; simp at hr
    | some r2 =>
      rw [h2] at hr
      simp only at hr
      exact mlfq_select_levels ticks r2.1 r2.2 r
        (mlfq_enqueue_levels _ _ _ r2 (mlfq_age_levels ticks _ _ _ r1 h h1) h2) hr

theorem mlfq_tick_level (sizes : Nat → Int) (p : proc) (h : level_ok p) :
    level_ok (mlfq_tick sizes p).1 := by
  unfold mlfq_tick level_ok at *
  split_ifs with h1 h2
  · simp only
    simp only [NMLFQ] at h h2 ⊢
    omega
  · exact h
  · exact h

theorem allocproc_mlfq_level (k : Kernel) (o : Alloc) (h : ∀ p ∈ k.proc, level_ok p) :
    (∀ p ∈ (allocproc Sched.MLFQ k o).1.proc, level_ok p) ∧
    ∀ i, (allocproc Sched.MLFQ k o).2 = some i →
      ((allocproc Sched.MLFQ k o).1.proc.getD i default).priority = 0 ∧
      ((allocproc Sched.MLFQ k o).1.proc.getD i default).quanta = 1 := by
  have hp : ∀ p : proc, (allocproc_pages Sched.MLFQ o
      (allocproc_init Sched.MLFQ k.nextpid k.ticks p)).1.priority = 0 := by
    intro p
    unfold allocproc_pages allocproc_init freeproc
    cases o.tf <;> cases o.bk <;> cases o.pt <;> simp
  have hq : ∀ p : proc, (allocproc_pages Sched.MLFQ o
      (allocproc_init Sched.MLFQ k.nextpid k.ticks p)).2 = true →
      (allocproc_pages Sched.MLFQ o
        (allocproc_init Sched.MLFQ k.nextpid k.ticks p)).1.quanta = 1 := by
    intro p
    unfold allocproc_pages allocproc_init freeproc
    cases o.tf <;> cases o.bk <;> cases o.pt <;> simp
  unfold allocproc
  cases hfu : first_unused k.proc 0 with
  | none =>
    simp only
    exact ⟨h, fun i hi => by cases hi⟩
  | some c =>
    simp only
    constructor
    · intro q hq1
      rcases mem_modify hq1 with h1 | ⟨p, _, rfl⟩
      · exact h q h1
      · unfold level_ok
        rw [hp]
        simp [NMLFQ]
    · intro i hi
      split_ifs at hi with hret
      have hci : c = i := Option.some.inj hi
      subst hci
      obtain ⟨n, p0, hn, hp0, _⟩ := first_unused_spec k.proc 0 c hfu
      have hlt : c < k.proc.length := by
        have := List.getElem?_eq_some_iff.mp hp0
        obtain ⟨hl, _⟩ := this
        omega
      simp only [getD_modify, hlt, and_self, if_true]
      exact ⟨hp _, hq _ hret⟩

/-- C13. In a kernel built with MLFQ whose slots all have a priority in
`0 .. NMLFQ - 1`: `allocproc` leaves all priorities in that range and a slot it
returns is at level 0 with quanta 1; the aging pass, the selection loop and the
whole of `mlfq_sched` leave all priorities in that range, and the slot selected is
RUNNING with quanta `1 << priority`; the tick block of `usertrap` and of
`kerneltrap` leaves the priority of the current process in that range. -/
theorem mlfq_levels_invariant (k : Kernel) (qs : List queue)
    (h : ∀ p ∈ k.proc, level_ok p) :
    (∀ o : Alloc,
      (∀ p ∈ (allocproc Sched.MLFQ k o).1.proc, level_ok p) ∧
      ∀ i, (allocproc Sched.MLFQ k o).2 = some i →
        ((allocproc Sched.MLFQ k o).1.proc.getD i default).priority = 0 ∧
        ((allocproc Sched.MLFQ k o).1.proc.getD i default).quanta = 1) ∧
    (∀ r, mlfq_age k.ticks (List.range k.proc.length) k.proc qs = some r →
      ∀ p ∈ r.1, level_ok p) ∧
    (∀ r, mlfq_select k.ticks k.proc qs = some r →
      (∀ p ∈ r.1, level_ok p) ∧
      ∀ s, r.2.2 = some s →
        (r.1.getD s default).state = RUNNING ∧
        (r.1.getD s default).quanta =
          ((1 <<< (r.1.getD s default).priority.toNat : Nat) : Int)) ∧
    (∀ r, mlfq_sched k.ticks k.proc qs = some r →
      (∀ p ∈ r.1, level_ok p) ∧
      ∀ s, r.2.2 = some s →
        (r.1.getD s default).state = RUNNING ∧
        (r.1.getD s default).quanta =
          ((1 <<< (r.1.getD s default).priority.toNat : Nat) : Int)) ∧
    (∀ (which_dev : Int) (sizes : Nat → Int), ∀ p ∈ k.proc,
      (∀ p1 ∈ (usertrap_mlfq which_dev (some p) sizes).1, level_ok p1) ∧
      (∀ p1 ∈ (kerneltrap_mlfq which_dev (some p) sizes).1, level_ok p1)) := by
  refine ⟨fun o => allocproc_mlfq_level k o h,
    fun r hr => mlfq_age_levels k.ticks _ k.proc qs r h hr,
    fun r hr => mlfq_select_levels k.ticks k.proc qs r h hr,
    fun r hr => mlfq_sched_levels k.ticks k.proc qs r h hr, ?_⟩
  intro which_dev sizes p hp
  have hl := mlfq_tick_level sizes p (h p hp)
  constructor
  · intro p1 hp1
    unfold usertrap_mlfq at hp1
    simp only at hp1
    split_ifs at hp1
    · cases hp1
      exact hl
    · cases hp1
      exact h p hp
  · intro p1 hp1
    unfold kerneltrap_mlfq at hp1
    simp only at hp1
    split_ifs at hp1
    · cases hp1
      exact hl
    · cases hp1
      exact h p hp

/-- Witness of `mlfq_levels_invariant`: at tick 40 on `mlfq_table`, where both
RUNNABLE processes have aged, `mlfq_sched` selects slot 1, which is then RUNNING
with quanta `1 << priority`, and all priorities are in range. -/
theorem mlfq_levels_invariant_witness :
    ∃ r, mlfq_sched 40 mlfq_table mlfq_queues = some r ∧ r.2.2 = some 1 ∧
      (r.1.getD 1 default).state = RUNNING ∧
      (r.1.getD 1 default).quanta = ((1 <<< (r.1.getD 1 default).priority.toNat : Nat) : Int) ∧
      r.1.all (fun p => decide (level_ok p)) = true := by
  have h := (mlfq_levels_invariant { proc := mlfq_table, ticks := 40 } mlfq_queues
    (by decide)).2.2.2.1
  have hc : (mlfq_sched 40 mlfq_table mlfq_queues).map (fun r => r.2.2) = some (some 1) := by
    decide
  cases hr : mlfq_sched 40 mlfq_table mlfq_queues with
  | none =>
    rw [hr] at hc
    cases hc
  | some r =>
    rw [hr] at hc
    have hsel : r.2.2 = some 1 := Option.some.inj hc
    obtain ⟨hlev, hq⟩ := h r hr
    refine ⟨r, rfl, hsel, (hq 1 hsel).1, (hq 1 hsel).2, ?_⟩
    rw [List.all_eq_true]
    intro p hp
    exact decide_eq_true (hlev p hp)

end Xv6
